import Mathlib

/-!
# A verification development for libical's value codec

Shallow embedding of `src/libical/icalvalue.c`.

Conventions of the embedding:

* A C string is the list of its characters before the terminating NUL, so the
  terminator test `*p != 0` is the test for the empty list.  A `char` is a Lean
  `Char`.
* A nullable pointer is an `Option`.
* `int` values are integers; arithmetic that C performs in `int` is wrapped to
  32 bits with `wrap32`.
* Allocation is assumed to succeed.
* The heap enters only where the code shares an object: the reference counts of
  the attachment objects are an explicit state, passed to and returned by the
  operations that change them.
-/

namespace Libical

/-! ## Value kind registry -/

/-- The value kinds that `icalvalue.c` dispatches on. -/
inductive icalvalue_kind where
  | ICAL_ATTACH_VALUE
  | ICAL_BINARY_VALUE
  | ICAL_BOOLEAN_VALUE
  | ICAL_TRANSP_VALUE
  | ICAL_METHOD_VALUE
  | ICAL_STATUS_VALUE
  | ICAL_ACTION_VALUE
  | ICAL_QUERY_VALUE
  | ICAL_CLASS_VALUE
  | ICAL_CMD_VALUE
  | ICAL_QUERYLEVEL_VALUE
  | ICAL_CARLEVEL_VALUE
  | ICAL_BUSYTYPE_VALUE
  | ICAL_PROXIMITY_VALUE
  | ICAL_POLLMODE_VALUE
  | ICAL_POLLCOMPLETION_VALUE
  | ICAL_PARTICIPANTTYPE_VALUE
  | ICAL_RESOURCETYPE_VALUE
  | ICAL_INTEGER_VALUE
  | ICAL_FLOAT_VALUE
  | ICAL_UTCOFFSET_VALUE
  | ICAL_TEXT_VALUE
  | ICAL_STRING_VALUE
  | ICAL_CALADDRESS_VALUE
  | ICAL_URI_VALUE
  | ICAL_GEO_VALUE
  | ICAL_RECUR_VALUE
  | ICAL_DATE_VALUE
  | ICAL_DATETIME_VALUE
  | ICAL_DATETIMEPERIOD_VALUE
  | ICAL_DURATION_VALUE
  | ICAL_PERIOD_VALUE
  | ICAL_TRIGGER_VALUE
  | ICAL_REQUESTSTATUS_VALUE
  | ICAL_UID_VALUE
  | ICAL_XMLREFERENCE_VALUE
  | ICAL_X_VALUE
  | ICAL_ANY_VALUE
  | ICAL_NO_VALUE
  deriving DecidableEq, Repr

/-- Modelled from the spec: the property kinds (`PropertyKindTag` of §6) are
declared outside `icalvalue.c`.  The members that the value codec names are
listed; `ICAL_SUMMARY_PROPERTY` is the one the spec uses as its example of an
ordinary property, and `ICAL_OTHER_PROPERTY n` stands for every remaining
member. -/
inductive icalproperty_kind where
  | ICAL_NO_PROPERTY
  | ICAL_CATEGORIES_PROPERTY
  | ICAL_RESOURCES_PROPERTY
  | ICAL_POLLPROPERTIES_PROPERTY
  | ICAL_LOCATIONTYPE_PROPERTY
  | ICAL_X_PROPERTY
  | ICAL_SUMMARY_PROPERTY
  | ICAL_OTHER_PROPERTY (n : Nat)
  deriving DecidableEq, Repr

/-- Modelled from the spec: the property object is owned by the external
property model; the value codec only ever asks for its kind. -/
structure icalproperty where
  kind : icalproperty_kind
  deriving DecidableEq, Repr

/-- Modelled from the spec: `property_kind_of(parent)` of §6, which is
`icalproperty_isa`; an empty parent has no property kind. -/
def icalproperty_isa (p : Option icalproperty) : icalproperty_kind :=
  match p with
  | some q => q.kind
  | none => icalproperty_kind.ICAL_NO_PROPERTY

/-! ## Data model -/

/-- Modelled from the spec: the attachment object belongs to the attachment
sub-codec (§1, §3); it is a shared handle to a URL or to an inline blob.  `id`
is the identity of the object (its address); its reference count is kept in
the state `attach_refcounts`. -/
structure icalattach where
  id : Nat
  is_url : Bool
  content : List Char
  deriving DecidableEq, Repr

/-- Modelled from the spec: the recurrence rule is an opaque object of the
recurrence sub-codec (§1, §3), owned by the value that holds it. -/
structure icalrecurrencetype where
  rule : List Char
  deriving DecidableEq, Repr

/-- Modelled from the spec: the duration struct belongs to the duration
sub-codec (§1, §3); the value codec copies it by value. -/
structure icaldurationtype where
  is_neg : Bool := false
  weeks : Nat := 0
  days : Nat := 0
  hours : Nat := 0
  minutes : Nat := 0
  seconds : Nat := 0
  deriving DecidableEq, Repr

/-- Modelled from the spec: the time struct belongs to the temporal sub-codec
(§1, §3); the value codec copies it by value and reads its six calendar fields
and its date-only flag.  `zone` is the identity of the time zone object, if
any. -/
structure icaltimetype where
  year : Int := 0
  month : Int := 0
  day : Int := 0
  hour : Int := 0
  minute : Int := 0
  second : Int := 0
  is_date : Bool := false
  is_daylight : Bool := false
  zone : Option Nat := none
  deriving DecidableEq, Repr

/-- The struct `icalgeotype` as `icalvalue.c` uses it: two character buffers of
`ICAL_GEO_LEN` bytes holding the latitude and longitude numerals. -/
structure icalgeotype where
  lat : List Char := []
  lon : List Char := []
  deriving DecidableEq, Repr

/-- The payload union `data` of `struct icalvalue_impl`, restricted to the
members read by the code embedded here.  Every member is zero after the
`memset` of `icalvalue_new_impl`.  The members are kept as separate fields: the
code reads no member other than the one that the kind of the value wrote.
`v_float` is the bit pattern of the IEEE 754 single-precision number. -/
structure icalvalue_data where
  v_int : Int := 0
  v_enum : Int := 0
  v_string : Option (List Char) := none
  v_attach : Option icalattach := none
  v_float : Nat := 0
  v_duration : icaldurationtype := {}
  v_geo : icalgeotype := {}
  v_recur : Option icalrecurrencetype := none
  v_time : icaltimetype := {}
  deriving DecidableEq, Repr

/-- The record `struct icalvalue_impl`. -/
structure icalvalue_impl where
  kind : icalvalue_kind
  id : List Char := ['v', 'a', 'l']
  size : Nat := 0
  parent : Option icalproperty := none
  x_value : Option (List Char) := none
  data : icalvalue_data := {}
  deriving DecidableEq, Repr

/-- Modelled from the spec: `icalvalue_kind_is_valid` is declared outside
`icalvalue.c`; `new(kind)` fails exactly when the kind is not a member of the
registry, and the catch-all `ICAL_ANY_VALUE` is not one. -/
def icalvalue_kind_is_valid (kind : icalvalue_kind) : Bool :=
  kind != icalvalue_kind.ICAL_ANY_VALUE

/-- The allocator `icalvalue_new_impl`: a zero-payload value of the kind with
empty parent and empty extension text, or nothing for an invalid kind. -/
def icalvalue_new_impl (kind : icalvalue_kind) : Option icalvalue_impl :=
  if !icalvalue_kind_is_valid kind then none
  else some { kind := kind, size := 0, parent := none, x_value := none, data := {} }

/-- The accessor `icalvalue_isa` on a non-null value. -/
def icalvalue_isa (value : icalvalue_impl) : icalvalue_kind :=
  value.kind

/-! ## String escape engine -/

/-- The `switch (*p)` that `icalmemory_strdup_and_dequote` runs on the
character following a backslash (the terminator case apart). -/
def dequote_switch (c : Char) : Char :=
  if c = 'n' ∨ c = 'N' then '\n'
  else if c = 't' ∨ c = 'T' then '\t'
  else if c = 'r' ∨ c = 'R' then '\r'
  else if c = 'b' ∨ c = 'B' then '\x08'
  else if c = 'f' ∨ c = 'F' then '\x0c'
  else if c = ';' ∨ c = ',' ∨ c = '\"' ∨ c = '\\' then c
  else ' '

/-- The function `icalmemory_strdup_and_dequote`.  A backslash that is the last
character meets the terminator in the `switch`: a NUL is written and the loop
stops. -/
def icalmemory_strdup_and_dequote : List Char → List Char
  | [] => []
  | [c] => if c = '\\' then [] else [c]
  | c :: e :: rest =>
    if c = '\\' then dequote_switch e :: icalmemory_strdup_and_dequote rest
    else c :: icalmemory_strdup_and_dequote (e :: rest)

/-- The iteration ceiling of the quoting loop. -/
def MAX_ITERATIONS : Nat := 1024 * 1024 * 10

/-- The condition under which `icalmemory_strdup_and_quote` keeps `;` and `,`
literal. -/
def quote_keeps_separator (value : icalvalue_impl) : Bool :=
  icalproperty_isa value.parent == icalproperty_kind.ICAL_CATEGORIES_PROPERTY ||
  icalproperty_isa value.parent == icalproperty_kind.ICAL_RESOURCES_PROPERTY ||
  icalproperty_isa value.parent == icalproperty_kind.ICAL_POLLPROPERTIES_PROPERTY ||
  icalproperty_isa value.parent == icalproperty_kind.ICAL_LOCATIONTYPE_PROPERTY ||
  (icalproperty_isa value.parent == icalproperty_kind.ICAL_X_PROPERTY &&
    icalvalue_isa value != icalvalue_kind.ICAL_TEXT_VALUE)

/-- The `switch (*p)` of `icalmemory_strdup_and_quote`: the characters appended
to the output for one input character. -/
def quote_switch (value : icalvalue_impl) (c : Char) : List Char :=
  if c = '\n' then ['\\', 'n']
  else if c = '\t' then ['\t']
  else if c = '\r' then []
  else if c = '\x08' then []
  else if c = '\x0c' then []
  else if c = ';' ∨ c = ',' then
    if quote_keeps_separator value then [c] else ['\\', c]
  else if c = '\\' then ['\\', c]
  else [c]

/-- The loop of `icalmemory_strdup_and_quote`, with `cnt` the iteration
counter. -/
def quote_loop (value : icalvalue_impl) : List Char → Nat → List Char
  | [], _ => []
  | c :: rest, cnt =>
    if cnt < MAX_ITERATIONS then quote_switch value c ++ quote_loop value rest (cnt + 1)
    else []

/-- The function `icalmemory_strdup_and_quote`. -/
def icalmemory_strdup_and_quote (value : icalvalue_impl) (unquoted_str : List Char) :
    List Char :=
  quote_loop value unquoted_str 0

open icalvalue_kind icalproperty_kind

/-! ## Reference maps taken from the specification -/

/-- Specification side of quoting (§4.4): whether the enclosing property kind
is on the allowlist that keeps `;` and `,` literal. -/
def on_separator_allowlist (v : icalvalue_impl) : Bool :=
  match icalproperty_isa v.parent with
  | ICAL_CATEGORIES_PROPERTY => true
  | ICAL_RESOURCES_PROPERTY => true
  | ICAL_POLLPROPERTIES_PROPERTY => true
  | ICAL_LOCATIONTYPE_PROPERTY => true
  | ICAL_X_PROPERTY => decide (v.kind ≠ ICAL_TEXT_VALUE)
  | _ => false

/-- Specification side of quoting (§4.4): the text that one character is
quoted to, given whether separators are kept literal. -/
def quote_char_ref (keep : Bool) (c : Char) : List Char :=
  if c = '\n' then ['\\', 'n']
  else if c = '\r' ∨ c = '\x08' ∨ c = '\x0c' then []
  else if c = '\\' then ['\\', '\\']
  else if (c = ';' ∨ c = ',') ∧ keep = false then ['\\', c]
  else [c]

/-- Characters that the quoting pass drops. -/
def quote_drops (c : Char) : Bool :=
  c = '\r' ∨ c = '\x08' ∨ c = '\x0c'

/-- Specification side of dequoting (§4.4): the escape table, every escaped
character outside it standing for a space. -/
def dequote_escape_ref (c : Char) : Char :=
  ([('n', '\n'), ('N', '\n'), ('t', '\t'), ('T', '\t'), ('r', '\r'), ('R', '\r'),
    ('b', '\x08'), ('B', '\x08'), ('f', '\x0c'), ('F', '\x0c'),
    (';', ';'), (',', ','), ('\"', '\"'), ('\\', '\\')].lookup c).getD ' '

/-- Specification side of dequoting (§4.4): the single left-to-right pass.  A
backslash with nothing after it is not an escape and is copied like any other
character. -/
def dequote_ref : List Char → List Char
  | [] => []
  | [c] => [c]
  | c :: e :: rest =>
    if c = '\\' then dequote_escape_ref e :: dequote_ref rest
    else c :: dequote_ref (e :: rest)

/-- Whether the left-to-right scan of a text ends on a backslash that has no
character after it. -/
def lone_trailing_backslash : List Char → Bool
  | [] => false
  | [c] => c = '\\'
  | c :: e :: rest =>
    if c = '\\' then lone_trailing_backslash rest
    else lone_trailing_backslash (e :: rest)

/-! ## C library functions used by the codec

These are not code of the repository; they are modelled after the C standard,
on the common platform where `int` has 32 bits and `long` has 64. -/

/-- Conversion of an integer to `int`: reduction modulo `2^32` into the signed
range. -/
def wrap32 (x : Int) : Int :=
  (x + 2147483648) % 4294967296 - 2147483648

/-- The least `int`. -/
def INT_MIN : Int := -2147483648

/-- The greatest `int`. -/
def INT_MAX : Int := 2147483647

/-- The C library `abs` on `int`; at `INT_MIN`, where C leaves it undefined, the
two-complement result is taken. -/
def abs (x : Int) : Int :=
  wrap32 (if x < 0 then -x else x)

/-- The macro `MIN`. -/
def MIN (a b : Int) : Int :=
  if a < b then a else b

/-- The C library `isspace` in the C locale. -/
def isspace (c : Char) : Bool :=
  c = ' ' ∨ c = '\t' ∨ c = '\n' ∨ c = '\x0b' ∨ c = '\x0c' ∨ c = '\r'

/-- The C library `isdigit`. -/
def isdigit (c : Char) : Bool :=
  48 ≤ c.toNat ∧ c.toNat ≤ 57

/-- The digit loop of `strtol` in base 10: accumulates the maximal run of
decimal digits. -/
def strtol_digits : Nat → List Char → Nat
  | acc, [] => acc
  | acc, c :: cs => if isdigit c then strtol_digits (acc * 10 + (c.toNat - 48)) cs else acc

/-- The clamping of an integer to the range of `long`. -/
def clamp_long (x : Int) : Int :=
  if x < -9223372036854775808 then -9223372036854775808
  else if 9223372036854775807 < x then 9223372036854775807 else x

/-- The part of `strtol` after the leading white space: an optional sign and
the maximal run of digits, the result clamped to the range of `long`. -/
def strtol_signed : List Char → Int
  | [] => 0
  | c :: cs =>
    if c = '-' then clamp_long (-(strtol_digits 0 cs : Int))
    else if c = '+' then clamp_long (strtol_digits 0 cs : Int)
    else clamp_long (strtol_digits 0 (c :: cs) : Int)

/-- The C library `strtol(str, 0, 10)`. -/
def strtol (str : List Char) : Int :=
  strtol_signed (str.dropWhile isspace)

/-- The C library `atoi`, which is `(int) strtol(str, 0, 10)`. -/
def atoi (str : List Char) : Int :=
  wrap32 (strtol str)

/-- The text that the conversion `%d` of `printf` produces. -/
def printf_d (n : Int) : List Char :=
  if n < 0 then '-' :: Nat.toDigits 10 n.natAbs else Nat.toDigits 10 n.natAbs

/-- The text that the conversion `%02d` of `printf` produces: `%d` padded on the
left with zeros, after the sign, to at least two characters. -/
def printf_02d (n : Int) : List Char :=
  let ds := Nat.toDigits 10 n.natAbs
  if n < 0 then '-' :: (List.replicate (1 - ds.length) '0' ++ ds)
  else List.replicate (2 - ds.length) '0' ++ ds

/-- The text that the conversion `%04d` of `printf` produces: `%d` padded on the
left with zeros, after the sign, to at least four characters. -/
def printf_04d (n : Int) : List Char :=
  let ds := Nat.toDigits 10 n.natAbs
  if n < 0 then '-' :: (List.replicate (3 - ds.length) '0' ++ ds)
  else List.replicate (4 - ds.length) '0' ++ ds

/-- The C library `strncat(dest, src, n)`: at most `n` characters of `src`
appended to `dest`. -/
def strncat (dest src : List Char) (n : Nat) : List Char :=
  dest ++ src.take n

/-- The truncation that `snprintf(str, size, ...)` applies to the formatted
text. -/
def snprintf (size : Nat) (formatted : List Char) : List Char :=
  formatted.take (size - 1)

/-- The C library `strcmp(a, b) == 0`. -/
def strcmp_eq (a b : List Char) : Bool :=
  a == b

/-- The C library `strcmp`, of which the C standard fixes the sign only: -1, 0
or 1 as the first text is before, equal to or after the second, characters
compared by code and the terminator being before every character. -/
def strcmp : List Char → List Char → Int
  | [], [] => 0
  | [], _ :: _ => -1
  | _ :: _, [] => 1
  | c :: cs, d :: ds =>
    if c = d then strcmp cs ds else if c.toNat < d.toNat then -1 else 1

/-- The C library `tolower` in the C locale. -/
def tolower (c : Char) : Char :=
  if 65 ≤ c.toNat ∧ c.toNat ≤ 90 then Char.ofNat (c.toNat + 32) else c

/-- The C library `strcasecmp(a, b) == 0`. -/
def strcasecmp_eq (a b : List Char) : Bool :=
  a.map tolower == b.map tolower

/-- The C library test `sscanf(s, "%lf", &d) == 1` under a locale with the given
decimal point, on the texts that `simple_str_to_doublestr` passes to it (digits,
signs and the decimal point): after an optional sign comes a digit, or the
decimal point followed by a digit. -/
def sscanf_lf_converts (decimal_point : Char) (s : List Char) : Bool :=
  let unsigned : List Char :=
    match s.dropWhile isspace with
    | [] => []
    | c :: cs => if c = '+' ∨ c = '-' then cs else c :: cs
  match unsigned with
  | [] => false
  | c :: cs =>
    isdigit c ||
      (c = decimal_point &&
        match cs with
        | [] => false
        | d :: _ => isdigit d)

/-! ## Collaborators outside `icalvalue.c` -/

/-- The diagnostic built by `icalproperty_vanew_xlicerror(text, errParam, 0)`
with `errParam` the parameter `XLICERRORTYPE=VALUEPARSEERROR`. -/
structure xlicerror where
  text : List Char
  deriving DecidableEq, Repr

/-- Functions, tables and constants that `icalvalue.c` consumes and that are
declared elsewhere: the enumeration tables of the property model, the X codes of
the enumerations, the kind names, the decimal point of the active locale, the
size of the geo buffers, the deep clone of a recurrence rule, the
normalisation of a duration, the temporal parser with its null-time and UTC
tests, and the branches of the parser and printer whose work is done by the
sub-codecs (attachment, float, recurrence, durations, periods, triggers and
request statuses).  The parser branches taken from the sub-codecs yield a value or
nothing: none of them writes the diagnostic slot.  The theorems hold for every
choice of the collaborators. -/
structure collaborators where
  icalproperty_kind_and_string_to_enum : icalvalue_kind → List Char → Int
  icalproperty_enum_belongs_to_property : icalproperty_kind → Int → Bool
  icalproperty_value_kind_to_kind : icalvalue_kind → icalproperty_kind
  icalproperty_enum_to_string_r : Int → Option (List Char)
  icalvalue_kind_to_string : icalvalue_kind → List Char
  ICAL_TRANSP_X : Int
  ICAL_METHOD_X : Int
  ICAL_STATUS_X : Int
  ICAL_ACTION_X : Int
  ICAL_CLASS_X : Int
  ICAL_CMD_X : Int
  ICAL_QUERYLEVEL_X : Int
  ICAL_CARLEVEL_X : Int
  ICAL_BUSYTYPE_X : Int
  ICAL_PROXIMITY_X : Int
  ICAL_POLLMODE_X : Int
  ICAL_POLLCOMPLETION_X : Int
  ICAL_PARTICIPANTTYPE_X : Int
  ICAL_RESOURCETYPE_X : Int
  locale_decimal_point : Char
  ICAL_GEO_LEN : Nat
  icalrecurrencetype_clone : icalrecurrencetype → Option icalrecurrencetype
  icaldurationtype_as_int : icaldurationtype → Int
  icaltime_from_string : List Char → icaltimetype
  icaltime_is_null_time : icaltimetype → Bool
  icaltime_is_utc : icaltimetype → Bool
  new_from_string_subcodec : icalvalue_kind → List Char → Option icalvalue_impl
  as_ical_string_subcodec : icalvalue_impl → Option (List Char)

/-- Modelled from the spec: the typed constructors `icalvalue_new_integer`,
`icalvalue_new_boolean` and `icalvalue_new_utcoffset` are defined outside
`icalvalue.c`; each allocates a value of its kind and stores the inline scalar
payload. -/
def icalvalue_new_int_kind (kind : icalvalue_kind) (v : Int) : Option icalvalue_impl :=
  (icalvalue_new_impl kind).map fun impl => { impl with data := { impl.data with v_int := v } }

/-- Modelled from the spec: see `icalvalue_new_int_kind`. -/
def icalvalue_new_integer (v : Int) : Option icalvalue_impl :=
  icalvalue_new_int_kind ICAL_INTEGER_VALUE v

/-- Modelled from the spec: see `icalvalue_new_int_kind`; a boolean is stored as
an `int`. -/
def icalvalue_new_boolean (v : Int) : Option icalvalue_impl :=
  icalvalue_new_int_kind ICAL_BOOLEAN_VALUE v

/-- Modelled from the spec: see `icalvalue_new_int_kind`; the payload is the
offset in seconds. -/
def icalvalue_new_utcoffset (v : Int) : Option icalvalue_impl :=
  icalvalue_new_int_kind ICAL_UTCOFFSET_VALUE v

/-- Modelled from the spec: the typed constructors of the owned-string kinds
(`icalvalue_new_text`, `icalvalue_new_string`, `icalvalue_new_uri`,
`icalvalue_new_caladdress`, `icalvalue_new_query`, `icalvalue_new_uid`,
`icalvalue_new_xmlreference`) are defined outside `icalvalue.c`; each allocates
a value of its kind that owns a duplicate of the text. -/
def icalvalue_new_string_kind (kind : icalvalue_kind) (v : List Char) :
    Option icalvalue_impl :=
  (icalvalue_new_impl kind).map fun impl =>
    { impl with data := { impl.data with v_string := some v } }

/-- Modelled from the spec: `icalvalue_set_x`, defined outside `icalvalue.c`,
is the explicit "set extension text" call: the value owns a duplicate of the
text as its extension text. -/
def icalvalue_set_x (impl : icalvalue_impl) (v : List Char) : icalvalue_impl :=
  { impl with x_value := some v }

/-- Modelled from the spec: `icalvalue_new_x`, defined outside `icalvalue.c`,
allocates a value of the X kind and sets its extension text. -/
def icalvalue_new_x (v : List Char) : Option icalvalue_impl :=
  (icalvalue_new_impl ICAL_X_VALUE).map fun impl => icalvalue_set_x impl v

/-- Modelled from the spec: the accessors `icalvalue_get_integer` and
`icalvalue_get_utcoffset`, defined outside `icalvalue.c`, read the inline
`int` payload. -/
def icalvalue_get_integer (value : icalvalue_impl) : Int :=
  value.data.v_int

/-- Modelled from the spec: see `icalvalue_get_integer`. -/
def icalvalue_get_utcoffset (value : icalvalue_impl) : Int :=
  value.data.v_int

/-- Modelled from the spec: the typed constructor `icalvalue_new_geo`, defined
outside `icalvalue.c`, allocates a GEO value and stores the geo pair by
value. -/
def icalvalue_new_geo (v : icalgeotype) : Option icalvalue_impl :=
  (icalvalue_new_impl ICAL_GEO_VALUE).map fun impl =>
    { impl with data := { impl.data with v_geo := v } }

/-- Modelled from the spec: the accessor `icalvalue_get_geo`, defined outside
`icalvalue.c`, reads the geo pair. -/
def icalvalue_get_geo (value : icalvalue_impl) : icalgeotype :=
  value.data.v_geo

/-! ## Text parser -/

/-- The function `icalvalue_new_enum`. -/
def icalvalue_new_enum (X : collaborators) (kind : icalvalue_kind) (x_type : Int)
    (str : List Char) : Option icalvalue_impl :=
  let e := X.icalproperty_kind_and_string_to_enum kind str
  if e ≠ 0 ∧
      X.icalproperty_enum_belongs_to_property (X.icalproperty_value_kind_to_kind kind) e = true
  then
    (icalvalue_new_impl kind).map fun value =>
      { value with data := { value.data with v_enum := e } }
  else
    (icalvalue_new_impl kind).map fun value =>
      icalvalue_set_x { value with data := { value.data with v_enum := x_type } } str

/-- The diagnostic of the BOOLEAN and GEO branches:
`"Could not parse %s as a %s property"` printed into a buffer of `TMP_BUF_SIZE`
characters. -/
def could_not_parse_error (X : collaborators) (kind : icalvalue_kind) (str : List Char) :
    xlicerror :=
  ⟨snprintf 1024 ("Could not parse ".toList ++ str ++ " as a ".toList ++
    X.icalvalue_kind_to_string kind ++ " property".toList)⟩

/-- The first half of the UTCOFFSET branch of the parser: the text read as a
decimal number `t`, scaled by 100 when the text has fewer than 7 characters. -/
def utcoffset_packed (str : List Char) : Int :=
  let t := wrap32 (strtol str)
  if str.length < 7 then wrap32 (t * 100) else t

/-- The second half of the UTCOFFSET branch of the parser: `t` split into
hours, minutes and seconds and recombined into seconds, every `int` operation
wrapped to 32 bits. -/
def utcoffset_from_packed (t : Int) : Int :=
  let hours := t.tdiv 10000
  let minutes := (wrap32 (t - wrap32 (hours * 10000))).tdiv 100
  let seconds := wrap32 (wrap32 (t - wrap32 (hours * 10000)) - wrap32 (minutes * 100))
  wrap32 (wrap32 (wrap32 (hours * 3600) + wrap32 (minutes * 60)) + seconds)

/-- The UTCOFFSET branch of the parser: the offset in seconds computed from the
text. -/
def utcoffset_from_string (str : List Char) : Int :=
  utcoffset_from_packed (utcoffset_packed str)

/-- The function `simple_str_to_doublestr`: the error flag, the content of
`result` and the position `*to`.  The numeral is cut to `result_len - 1`
characters and its `.` is replaced by the decimal point of the locale. -/
def simple_str_to_doublestr (X : collaborators) (src : List Char) (result_len : Nat) :
    Bool × List Char × List Char :=
  let cur := src.dropWhile isspace
  let isnum : Char → Bool := fun c => isdigit c || c = '.' || c = '+' || c = '-'
  let numeral := cur.takeWhile isnum
  let to_pos := cur.dropWhile isnum
  let len := if numeral.length + 1 ≥ result_len then result_len - 1 else numeral.length
  let result := (numeral.take len).map fun c =>
    if c = '.' ∧ X.locale_decimal_point ≠ Char.ofNat 0 ∧ X.locale_decimal_point ≠ '.'
    then X.locale_decimal_point else c
  (!sscanf_lf_converts X.locale_decimal_point result, result, to_pos)

/-- The GEO branch of the parser up to the label `geo_parsing_error`: the geo
pair, or nothing when the branch jumps to the label. -/
def geo_from_string (X : collaborators) (str : List Char) : Option icalgeotype :=
  let r1 := simple_str_to_doublestr X str X.ICAL_GEO_LEN
  if r1.1 then none
  else
    match r1.2.2.dropWhile isspace with
    | [] => none
    | c :: cur =>
      if c ≠ ';' then none
      else
        let r2 := simple_str_to_doublestr X (cur.dropWhile isspace) X.ICAL_GEO_LEN
        if r2.1 then none else some { lat := r1.2.1, lon := r2.2.1 }

/-- Modelled from the spec: `icaltime_is_date`, defined by the temporal
sub-codec, tells whether the time is date-only. -/
def icaltime_is_date (t : icaltimetype) : Bool :=
  t.is_date

/-- The function `icalvalue_reset_kind` on a non-null value. -/
def icalvalue_reset_kind (X : collaborators) (value : icalvalue_impl) : icalvalue_impl :=
  if (value.kind = ICAL_DATETIME_VALUE ∨ value.kind = ICAL_DATE_VALUE) ∧
      !X.icaltime_is_null_time value.data.v_time then
    if icaltime_is_date value.data.v_time then { value with kind := ICAL_DATE_VALUE }
    else { value with kind := ICAL_DATETIME_VALUE }
  else value

/-- The function `icalvalue_new_from_string_with_error`.  `error` tells whether
the caller passed a diagnostic slot; the result is the value, if any, and the
content of the slot.  The branches whose work is done by a sub-codec are taken
from the collaborators. -/
def icalvalue_new_from_string_with_error (X : collaborators) (kind : icalvalue_kind)
    (str : List Char) (error : Bool) : Option icalvalue_impl × Option xlicerror :=
  let r : Option icalvalue_impl × Option xlicerror :=
    match kind with
    | ICAL_BOOLEAN_VALUE =>
      if strcmp_eq str "TRUE".toList then (icalvalue_new_boolean 1, none)
      else if strcmp_eq str "FALSE".toList then (icalvalue_new_boolean 0, none)
      else if error then (none, some (could_not_parse_error X kind str))
      else (none, none)
    | ICAL_TRANSP_VALUE => (icalvalue_new_enum X kind X.ICAL_TRANSP_X str, none)
    | ICAL_METHOD_VALUE => (icalvalue_new_enum X kind X.ICAL_METHOD_X str, none)
    | ICAL_STATUS_VALUE => (icalvalue_new_enum X kind X.ICAL_STATUS_X str, none)
    | ICAL_ACTION_VALUE => (icalvalue_new_enum X kind X.ICAL_ACTION_X str, none)
    | ICAL_QUERY_VALUE => (icalvalue_new_string_kind ICAL_QUERY_VALUE str, none)
    | ICAL_CLASS_VALUE => (icalvalue_new_enum X kind X.ICAL_CLASS_X str, none)
    | ICAL_CMD_VALUE => (icalvalue_new_enum X kind X.ICAL_CMD_X str, none)
    | ICAL_QUERYLEVEL_VALUE => (icalvalue_new_enum X kind X.ICAL_QUERYLEVEL_X str, none)
    | ICAL_CARLEVEL_VALUE => (icalvalue_new_enum X kind X.ICAL_CARLEVEL_X str, none)
    | ICAL_BUSYTYPE_VALUE => (icalvalue_new_enum X kind X.ICAL_BUSYTYPE_X str, none)
    | ICAL_PROXIMITY_VALUE => (icalvalue_new_enum X kind X.ICAL_PROXIMITY_X str, none)
    | ICAL_POLLMODE_VALUE => (icalvalue_new_enum X kind X.ICAL_POLLMODE_X str, none)
    | ICAL_POLLCOMPLETION_VALUE =>
      (icalvalue_new_enum X kind X.ICAL_POLLCOMPLETION_X str, none)
    | ICAL_PARTICIPANTTYPE_VALUE =>
      (icalvalue_new_enum X kind X.ICAL_PARTICIPANTTYPE_X str, none)
    | ICAL_RESOURCETYPE_VALUE =>
      (icalvalue_new_enum X kind X.ICAL_RESOURCETYPE_X str, none)
    | ICAL_INTEGER_VALUE => (icalvalue_new_integer (atoi str), none)
    | ICAL_UTCOFFSET_VALUE => (icalvalue_new_utcoffset (utcoffset_from_string str), none)
    | ICAL_TEXT_VALUE =>
      (icalvalue_new_string_kind ICAL_TEXT_VALUE (icalmemory_strdup_and_dequote str), none)
    | ICAL_STRING_VALUE => (icalvalue_new_string_kind ICAL_STRING_VALUE str, none)
    | ICAL_CALADDRESS_VALUE => (icalvalue_new_string_kind ICAL_CALADDRESS_VALUE str, none)
    | ICAL_URI_VALUE => (icalvalue_new_string_kind ICAL_URI_VALUE str, none)
    | ICAL_UID_VALUE =>
      (icalvalue_new_string_kind ICAL_UID_VALUE (icalmemory_strdup_and_dequote str), none)
    | ICAL_XMLREFERENCE_VALUE =>
      (icalvalue_new_string_kind ICAL_XMLREFERENCE_VALUE str, none)
    | ICAL_X_VALUE => (icalvalue_new_x (icalmemory_strdup_and_dequote str), none)
    | ICAL_GEO_VALUE =>
      match geo_from_string X str with
      | some geo => (icalvalue_new_geo geo, none)
      | none =>
        if error then (none, some (could_not_parse_error X kind str)) else (none, none)
    | ICAL_DATE_VALUE | ICAL_DATETIME_VALUE =>
      let tt := X.icaltime_from_string str
      if !X.icaltime_is_null_time tt then
        ((icalvalue_new_impl kind).map fun value =>
          icalvalue_reset_kind X { value with data := { value.data with v_time := tt } }, none)
      else (none, none)
    | ICAL_ATTACH_VALUE | ICAL_BINARY_VALUE | ICAL_FLOAT_VALUE
    | ICAL_RECUR_VALUE
    | ICAL_DATETIMEPERIOD_VALUE | ICAL_DURATION_VALUE | ICAL_PERIOD_VALUE
    | ICAL_TRIGGER_VALUE | ICAL_REQUESTSTATUS_VALUE =>
      (X.new_from_string_subcodec kind str, none)
    | ICAL_ANY_VALUE | ICAL_NO_VALUE =>
      if error then
        (none, some ⟨snprintf 1024
          ("Unknown type for ".toList ++ [Char.ofNat 39] ++ str ++ [Char.ofNat 39])⟩)
      else (none, none)
  if error ∧ r.2.isNone ∧ r.1.isNone then
    (r.1, some ⟨snprintf 1024
      ("Failed to parse value: ".toList ++ [Char.ofNat 39] ++ str ++ [Char.ofNat 39])⟩)
  else r

/-- The function `icalvalue_new_from_string`: no diagnostic slot. -/
def icalvalue_new_from_string (X : collaborators) (kind : icalvalue_kind)
    (str : List Char) : Option icalvalue_impl :=
  (icalvalue_new_from_string_with_error X kind str false).1

/-! ## Text printer -/

/-- The function `icalvalue_binary_as_ical_string_r`. -/
def icalvalue_binary_as_ical_string_r (_value : icalvalue_impl) : List Char :=
  snprintf 60 "icalvalue_binary_as_ical_string is not implemented yet".toList

/-- The function `icalvalue_boolean_as_ical_string_r`. -/
def icalvalue_boolean_as_ical_string_r (value : icalvalue_impl) : List Char :=
  let data := icalvalue_get_integer value
  if data ≠ 0 then "TRUE".toList else "FALSE".toList

/-- The buffer size `MAX_INT_DIGITS`. -/
def MAX_INT_DIGITS : Nat := 12

/-- The function `icalvalue_int_as_ical_string_r`. -/
def icalvalue_int_as_ical_string_r (value : icalvalue_impl) : List Char :=
  let data := icalvalue_get_integer value
  snprintf MAX_INT_DIGITS (printf_d data)

/-- The function `icalvalue_utcoffset_as_ical_string_r`. -/
def icalvalue_utcoffset_as_ical_string_r (value : icalvalue_impl) : List Char :=
  let data := icalvalue_get_utcoffset value
  let sign := if abs data = data then '+' else '-'
  let h := data.tdiv 3600
  let m := (wrap32 (data - wrap32 (h * 3600))).tdiv 60
  let s := wrap32 (wrap32 (data - wrap32 (h * 3600)) - wrap32 (m * 60))
  let h := MIN (abs h) 23
  let m := MIN (abs m) 59
  let s := MIN (abs s) 59
  if s ≠ 0 then snprintf 9 (sign :: (printf_02d h ++ printf_02d m ++ printf_02d s))
  else snprintf 9 (sign :: (printf_02d h ++ printf_02d m))

/-- The function `icalvalue_string_as_ical_string_r`; nothing is returned for a
null string, which the C code would dereference. -/
def icalvalue_string_as_ical_string_r (value : icalvalue_impl) : Option (List Char) :=
  value.data.v_string

/-- The function `icalvalue_text_as_ical_string_r`; nothing is returned for a
null string, which the C code would dereference. -/
def icalvalue_text_as_ical_string_r (value : icalvalue_impl) : Option (List Char) :=
  value.data.v_string.map (icalmemory_strdup_and_quote value)

/-- Modelled from the spec: the accessors `icalvalue_get_date` and
`icalvalue_get_datetime`, defined outside `icalvalue.c`, read the time
payload. -/
def icalvalue_get_date (value : icalvalue_impl) : icaltimetype :=
  value.data.v_time

/-- Modelled from the spec: see `icalvalue_get_date`. -/
def icalvalue_get_datetime (value : icalvalue_impl) : icaltimetype :=
  value.data.v_time

/-- The function `print_time_to_string` on a non-null time: the content of
`str` after the call. -/
def print_time_to_string (X : collaborators) (data : icaltimetype) : List Char :=
  if X.icaltime_is_utc data then
    strncat []
      (snprintf 8
        (printf_02d data.hour ++ printf_02d data.minute ++ printf_02d data.second ++ ['Z'])) 7
  else
    strncat []
      (snprintf 8 (printf_02d data.hour ++ printf_02d data.minute ++ printf_02d data.second)) 6

/-- The function `print_date_to_string` on a non-null time: the content of
`str` after the call. -/
def print_date_to_string (data : icaltimetype) : List Char :=
  strncat []
    (snprintf 9 (printf_04d data.year ++ printf_02d data.month ++ printf_02d data.day)) 8

/-- The function `icalvalue_date_as_ical_string_r`. -/
def icalvalue_date_as_ical_string_r (value : icalvalue_impl) : List Char :=
  let data := icalvalue_get_date value
  print_date_to_string data

/-- The function `print_datetime_to_string` on a non-null time: the content of
`str` after the call. -/
def print_datetime_to_string (X : collaborators) (data : icaltimetype) : List Char :=
  let str := print_date_to_string data
  if !data.is_date then
    let str := strncat str ['T'] 19
    let temp := print_time_to_string X data
    strncat str temp 19
  else str

/-- The function `icalvalue_datetime_as_ical_string_r`: nothing for a value
that is neither a DATE nor a DATETIME. -/
def icalvalue_datetime_as_ical_string_r (X : collaborators) (value : icalvalue_impl) :
    Option (List Char) :=
  let kind := icalvalue_isa value
  if ¬ (kind = ICAL_DATE_VALUE ∨ kind = ICAL_DATETIME_VALUE) then none
  else
    let data := icalvalue_get_datetime value
    some (print_datetime_to_string X data)

/-- The function `icalvalue_geo_as_ical_string_r`. -/
def icalvalue_geo_as_ical_string_r (value : icalvalue_impl) : List Char :=
  let data := icalvalue_get_geo value
  snprintf 80 (data.lat ++ [';'] ++ data.lon)

/-- The function `icalvalue_as_ical_string_r` on a non-null value.  The
branches whose work is done by a sub-codec are taken from the collaborators. -/
def icalvalue_as_ical_string_r (X : collaborators) (value : icalvalue_impl) :
    Option (List Char) :=
  match value.kind with
  | ICAL_BINARY_VALUE => some (icalvalue_binary_as_ical_string_r value)
  | ICAL_BOOLEAN_VALUE => some (icalvalue_boolean_as_ical_string_r value)
  | ICAL_INTEGER_VALUE => some (icalvalue_int_as_ical_string_r value)
  | ICAL_UTCOFFSET_VALUE => some (icalvalue_utcoffset_as_ical_string_r value)
  | ICAL_TEXT_VALUE | ICAL_UID_VALUE => icalvalue_text_as_ical_string_r value
  | ICAL_QUERY_VALUE => icalvalue_string_as_ical_string_r value
  | ICAL_STRING_VALUE | ICAL_URI_VALUE | ICAL_CALADDRESS_VALUE | ICAL_XMLREFERENCE_VALUE =>
    icalvalue_string_as_ical_string_r value
  | ICAL_ACTION_VALUE | ICAL_CMD_VALUE | ICAL_QUERYLEVEL_VALUE | ICAL_CARLEVEL_VALUE
  | ICAL_METHOD_VALUE | ICAL_STATUS_VALUE | ICAL_TRANSP_VALUE | ICAL_CLASS_VALUE
  | ICAL_BUSYTYPE_VALUE | ICAL_PROXIMITY_VALUE | ICAL_POLLMODE_VALUE
  | ICAL_POLLCOMPLETION_VALUE | ICAL_PARTICIPANTTYPE_VALUE | ICAL_RESOURCETYPE_VALUE =>
    match value.x_value with
    | some x => some x
    | none => X.icalproperty_enum_to_string_r value.data.v_enum
  | ICAL_X_VALUE =>
    match value.x_value with
    | some x => some (icalmemory_strdup_and_quote value x)
    | none => none
  | ICAL_GEO_VALUE => some (icalvalue_geo_as_ical_string_r value)
  | ICAL_DATE_VALUE => some (icalvalue_date_as_ical_string_r value)
  | ICAL_DATETIME_VALUE => icalvalue_datetime_as_ical_string_r X value
  | ICAL_ATTACH_VALUE | ICAL_DURATION_VALUE
  | ICAL_PERIOD_VALUE | ICAL_DATETIMEPERIOD_VALUE | ICAL_FLOAT_VALUE
  | ICAL_RECUR_VALUE | ICAL_TRIGGER_VALUE | ICAL_REQUESTSTATUS_VALUE =>
    X.as_ical_string_subcodec value
  | ICAL_NO_VALUE | ICAL_ANY_VALUE => none

/-! ## Specification-side notions for the numeric and enumerated kinds -/

/-- The decimal digit character of a number below ten. -/
def digit_char (d : Nat) : Char :=
  Char.ofNat (48 + d)

/-- A two-digit field: the tens digit and the units digit of a number below one
hundred. -/
def two_digits (n : Nat) : List Char :=
  [digit_char (n / 10), digit_char (n % 10)]

/-- Specification side of UTCOFFSET printing (§4.5): the sign, the two-digit
hours clamped to 23, the two-digit minutes, and the two-digit seconds when they
are not zero. -/
def utcoffset_text (d : Int) : List Char :=
  (if 0 ≤ d then '+' else '-') ::
    (two_digits (min (d.natAbs / 3600) 23) ++ two_digits (d.natAbs % 3600 / 60) ++
      (if d.natAbs % 60 ≠ 0 then two_digits (d.natAbs % 60) else []))

/-- The C library `iscntrl` in the C locale. -/
def iscntrl (c : Char) : Bool :=
  c.toNat < 32 ∨ c.toNat = 127

/-- Specification side of the enumerated-token kinds (§3, §4.2): the kinds and
the designated X code of each. -/
def designated_x_code (X : collaborators) : icalvalue_kind → Option Int
  | ICAL_METHOD_VALUE => some X.ICAL_METHOD_X
  | ICAL_STATUS_VALUE => some X.ICAL_STATUS_X
  | ICAL_TRANSP_VALUE => some X.ICAL_TRANSP_X
  | ICAL_CLASS_VALUE => some X.ICAL_CLASS_X
  | ICAL_ACTION_VALUE => some X.ICAL_ACTION_X
  | ICAL_BUSYTYPE_VALUE => some X.ICAL_BUSYTYPE_X
  | ICAL_PROXIMITY_VALUE => some X.ICAL_PROXIMITY_X
  | ICAL_POLLMODE_VALUE => some X.ICAL_POLLMODE_X
  | ICAL_POLLCOMPLETION_VALUE => some X.ICAL_POLLCOMPLETION_X
  | ICAL_PARTICIPANTTYPE_VALUE => some X.ICAL_PARTICIPANTTYPE_X
  | ICAL_RESOURCETYPE_VALUE => some X.ICAL_RESOURCETYPE_X
  | ICAL_CARLEVEL_VALUE => some X.ICAL_CARLEVEL_X
  | ICAL_QUERYLEVEL_VALUE => some X.ICAL_QUERYLEVEL_X
  | ICAL_CMD_VALUE => some X.ICAL_CMD_X
  | _ => none

/-- A sample of collaborators, used to evaluate the codec on concrete inputs:
the single token `PUBLISH` of the METHOD enumeration has code 10500, every X
code is 10000 plus a small index, the locale has the decimal comma, the geo
buffers have 16 bytes, the temporal parser knows the two texts `20240102` and
`20240102T030405Z`, the time zone 0 is UTC, and the sub-codec branches produce
nothing. -/
def sample_collaborators : collaborators where
  icalproperty_kind_and_string_to_enum := fun kind str =>
    if kind = ICAL_METHOD_VALUE ∧ str = "PUBLISH".toList then 10500 else 0
  icalproperty_enum_belongs_to_property := fun _ e => e = 10500
  icalproperty_value_kind_to_kind := fun _ => ICAL_OTHER_PROPERTY 0
  icalproperty_enum_to_string_r := fun e =>
    if e = 10500 then some "PUBLISH".toList else none
  icalvalue_kind_to_string := fun kind =>
    if kind = ICAL_BOOLEAN_VALUE then "BOOLEAN".toList else "NO".toList
  ICAL_TRANSP_X := 10001
  ICAL_METHOD_X := 10002
  ICAL_STATUS_X := 10003
  ICAL_ACTION_X := 10004
  ICAL_CLASS_X := 10005
  ICAL_CMD_X := 10006
  ICAL_QUERYLEVEL_X := 10007
  ICAL_CARLEVEL_X := 10008
  ICAL_BUSYTYPE_X := 10009
  ICAL_PROXIMITY_X := 10010
  ICAL_POLLMODE_X := 10011
  ICAL_POLLCOMPLETION_X := 10012
  ICAL_PARTICIPANTTYPE_X := 10013
  ICAL_RESOURCETYPE_X := 10014
  locale_decimal_point := ','
  ICAL_GEO_LEN := 16
  icalrecurrencetype_clone := fun r => some r
  icaldurationtype_as_int := fun d =>
    (if d.is_neg then -1 else 1) *
      ((d.seconds : Int) + 60 * d.minutes + 3600 * d.hours + 86400 * d.days + 604800 * d.weeks)
  icaltime_from_string := fun str =>
    if str = "20240102".toList then
      { year := 2024, month := 1, day := 2, is_date := true }
    else if str = "20240102T030405Z".toList then
      { year := 2024, month := 1, day := 2, hour := 3, minute := 4, second := 5,
        zone := some 0 }
    else {}
  icaltime_is_null_time := fun t =>
    t.second + t.minute + t.hour + t.day + t.month + t.year = 0
  icaltime_is_utc := fun t => t.zone = some 0
  new_from_string_subcodec := fun _ _ => none
  as_ical_string_subcodec := fun _ => none

/-- Specification side of the parser diagnostics (§4.2): the generic catch-all
diagnostic. -/
def failed_to_parse_error (str : List Char) : xlicerror :=
  ⟨snprintf 1024
    ("Failed to parse value: ".toList ++ [Char.ofNat 39] ++ str ++ [Char.ofNat 39])⟩

/-! ## Value construction and ownership -/

/-- The reference counts of the attachment objects, by identity of the object:
the part of the heap that cloning and freeing a value change. -/
abbrev attach_refcounts := Nat → Nat

/-- Modelled from the spec: `icalattach_ref`, defined by the attachment
sub-codec, increments the reference count of the object. -/
def icalattach_ref (rc : attach_refcounts) (attach : icalattach) : attach_refcounts :=
  Function.update rc attach.id (rc attach.id + 1)

/-- Modelled from the spec: `icalattach_unref`, defined by the attachment
sub-codec, decrements the reference count of the object, which is released
when the count reaches zero. -/
def icalattach_unref (rc : attach_refcounts) (attach : icalattach) : attach_refcounts :=
  Function.update rc attach.id (rc attach.id - 1)

/-- The function `icalvalue_clone`: the clone, if any, and the reference counts
after the call.  `icalmemory_strdup` yields an equal text. -/
def icalvalue_clone (X : collaborators) (rc : attach_refcounts) (old : icalvalue_impl) :
    Option icalvalue_impl × attach_refcounts :=
  match icalvalue_new_impl old.kind with
  | none => (none, rc)
  | some fresh =>
    let clone : icalvalue_impl := { fresh with id := old.id, kind := old.kind, size := old.size }
    match clone.kind with
    | ICAL_ATTACH_VALUE | ICAL_BINARY_VALUE =>
      let clone := { clone with data := { clone.data with v_attach := old.data.v_attach } }
      match old.data.v_attach with
      | some attach => (some clone, icalattach_ref rc attach)
      | none => (some clone, rc)
    | ICAL_QUERY_VALUE | ICAL_STRING_VALUE | ICAL_TEXT_VALUE | ICAL_CALADDRESS_VALUE
    | ICAL_UID_VALUE | ICAL_XMLREFERENCE_VALUE | ICAL_URI_VALUE =>
      match old.data.v_string with
      | some s => (some { clone with data := { clone.data with v_string := some s } }, rc)
      | none => (some clone, rc)
    | ICAL_ACTION_VALUE =>
      let clone := { clone with data := old.data }
      if old.data.v_enum = X.ICAL_ACTION_X then
        match old.x_value with
        | some x => (some { clone with x_value := some x }, rc)
        | none => (some clone, rc)
      else (some clone, rc)
    | ICAL_RECUR_VALUE =>
      match old.data.v_recur with
      | some recur =>
        match X.icalrecurrencetype_clone recur with
        | some copy => (some { clone with data := { clone.data with v_recur := some copy } }, rc)
        | none => (none, rc)
      | none => (some clone, rc)
    | ICAL_X_VALUE =>
      match old.x_value with
      | some x => (some { clone with x_value := some x }, rc)
      | none => (some clone, rc)
    | _ => (some { clone with data := old.data }, rc)

/-- A resource that `icalvalue_free` hands back: a buffer given to
`icalmemory_free_buffer`, a recurrence rule given to
`icalrecurrencetype_unref`, or the value struct itself, with its last
content. -/
inductive released_resource where
  | x_value_buffer (s : List Char)
  | v_string_buffer (s : List Char)
  | v_recur_rule (r : icalrecurrencetype)
  | value_struct (last : icalvalue_impl)
  deriving DecidableEq, Repr

/-- The effect of `icalvalue_free`: the struct that the caller still holds
(nothing once its storage went back to the allocator), the reference counts,
and the resources released, in order. -/
structure icalvalue_free_result where
  value : Option icalvalue_impl
  refcounts : attach_refcounts
  released : List released_resource

/-- The function `icalvalue_free` on a non-null value. -/
def icalvalue_free (rc : attach_refcounts) (v : icalvalue_impl) : icalvalue_free_result :=
  if v.parent ≠ none then { value := some v, refcounts := rc, released := [] }
  else
    let r1 : List released_resource :=
      match v.x_value with
      | some x => [released_resource.x_value_buffer x]
      | none => []
    let step : attach_refcounts × List released_resource :=
      match v.kind with
      | ICAL_BINARY_VALUE | ICAL_ATTACH_VALUE =>
        match v.data.v_attach with
        | some attach => (icalattach_unref rc attach, [])
        | none => (rc, [])
      | ICAL_TEXT_VALUE | ICAL_CALADDRESS_VALUE | ICAL_URI_VALUE | ICAL_STRING_VALUE
      | ICAL_QUERY_VALUE | ICAL_UID_VALUE | ICAL_XMLREFERENCE_VALUE =>
        match v.data.v_string with
        | some s => (rc, [released_resource.v_string_buffer s])
        | none => (rc, [])
      | ICAL_RECUR_VALUE =>
        match v.data.v_recur with
        | some recur => (rc, [released_resource.v_recur_rule recur])
        | none => (rc, [])
      | _ => (rc, [])
    let poisoned : icalvalue_impl :=
      { v with kind := ICAL_NO_VALUE, size := 0, parent := none, data := {},
               id := 'X' :: v.id.tail }
    { value := none, refcounts := step.1,
      released := r1 ++ step.2 ++ [released_resource.value_struct poisoned] }

/-- Specification side of cloning (§3, §4.1): the kinds whose payload is an
owned heap string. -/
def owned_string_kind (kind : icalvalue_kind) : Bool :=
  kind = ICAL_TEXT_VALUE ∨ kind = ICAL_STRING_VALUE ∨ kind = ICAL_URI_VALUE ∨
    kind = ICAL_CALADDRESS_VALUE ∨ kind = ICAL_UID_VALUE ∨ kind = ICAL_XMLREFERENCE_VALUE ∨
    kind = ICAL_QUERY_VALUE

/-! ## Comparator -/

/-- The enumeration `icalparameter_xliccomparetype`, declared outside
`icalvalue.c`: the members that `icalvalue_compare` returns. -/
inductive icalparameter_xliccomparetype where
  | ICAL_XLICCOMPARETYPE_EQUAL
  | ICAL_XLICCOMPARETYPE_NOTEQUAL
  | ICAL_XLICCOMPARETYPE_LESS
  | ICAL_XLICCOMPARETYPE_GREATER
  deriving DecidableEq, Repr

/-- What a `return` statement of `icalvalue_compare` names: a member of the
enumeration, or the literal 0.  Which `int` a member is, and so whether the
literal 0 is the value of one of them, is decided by the discriminants of the
enumeration, which are declared outside `icalvalue.c`: see
`icalvalue_compare_result.to_int`. -/
inductive icalvalue_compare_result where
  | enumerator (e : icalparameter_xliccomparetype)
  | zero
  deriving DecidableEq, Repr

/-- The value that the caller of `icalvalue_compare` receives, for given
discriminants `code` of the enumeration `icalparameter_xliccomparetype`: the
discriminant of the member that the `return` statement names, or 0. -/
def icalvalue_compare_result.to_int (code : icalparameter_xliccomparetype → Int) :
    icalvalue_compare_result → Int
  | .enumerator e => code e
  | .zero => 0

/-- Modelled from the spec: `icalattach_get_is_url`, defined by the attachment
sub-codec; a null handle is not URL-based. -/
def icalattach_get_is_url (attach : Option icalattach) : Bool :=
  match attach with
  | some a => a.is_url
  | none => false

/-- Modelled from the spec: `icalattach_get_url`, defined by the attachment
sub-codec. -/
def icalattach_get_url (attach : Option icalattach) : List Char :=
  match attach with
  | some a => a.content
  | none => []

/-- Whether a single-precision bit pattern is a NaN. -/
def float_is_nan (bits : Nat) : Bool :=
  bits / 8388608 % 256 = 255 ∧ bits % 8388608 ≠ 0

/-- The position of a single-precision number other than a NaN on the number
line, as an integer that grows with the number; both zeros are at 0. -/
def float_rank (bits : Nat) : Int :=
  if bits / 2147483648 % 2 = 1 then -((bits % 2147483648 : Nat) : Int)
  else ((bits % 2147483648 : Nat) : Int)

/-- The C comparison `a < b` on `float`, by bit patterns; it is false when
either side is a NaN. -/
def float_lt (a b : Nat) : Bool :=
  !float_is_nan a && !float_is_nan b && decide (float_rank a < float_rank b)

/-- The function `icalvalue_is_time`. -/
def icalvalue_is_time (a : icalvalue_impl) : Bool :=
  let kind := icalvalue_isa a
  if kind = ICAL_DATETIME_VALUE ∨ kind = ICAL_DATE_VALUE then true else false

/-- The three-way result that `icalvalue_compare` derives from two integers. -/
def compare_int (x y : Int) : icalvalue_compare_result :=
  if x > y then .enumerator .ICAL_XLICCOMPARETYPE_GREATER
  else if x < y then .enumerator .ICAL_XLICCOMPARETYPE_LESS
  else .enumerator .ICAL_XLICCOMPARETYPE_EQUAL

/-- The two-way result that `icalvalue_compare` derives from an equality
test. -/
def compare_eq (same : Bool) : icalvalue_compare_result :=
  if same then .enumerator .ICAL_XLICCOMPARETYPE_EQUAL
  else .enumerator .ICAL_XLICCOMPARETYPE_NOTEQUAL

/-- The function `icalvalue_compare` on non-null values.  The accessors
`icalvalue_get_boolean`, `icalvalue_get_method`, `icalvalue_get_status`,
`icalvalue_get_transp` and `icalvalue_get_action`, defined outside
`icalvalue.c`, read the `int` and the enum payload. -/
def icalvalue_compare (X : collaborators) (a b : icalvalue_impl) : icalvalue_compare_result :=
  if !(icalvalue_is_time a && icalvalue_is_time b) && icalvalue_isa a != icalvalue_isa b then
    .enumerator .ICAL_XLICCOMPARETYPE_NOTEQUAL
  else
    match icalvalue_isa a with
    | ICAL_ATTACH_VALUE =>
      if icalattach_get_is_url a.data.v_attach && icalattach_get_is_url b.data.v_attach then
        compare_eq (strcasecmp_eq (icalattach_get_url a.data.v_attach)
          (icalattach_get_url b.data.v_attach))
      else
        compare_eq (a.data.v_attach.map (·.id) == b.data.v_attach.map (·.id))
    | ICAL_BINARY_VALUE =>
      compare_eq (a.data.v_attach.map (·.id) == b.data.v_attach.map (·.id))
    | ICAL_BOOLEAN_VALUE => compare_eq (a.data.v_int == b.data.v_int)
    | ICAL_FLOAT_VALUE =>
      if float_lt b.data.v_float a.data.v_float then
        .enumerator .ICAL_XLICCOMPARETYPE_GREATER
      else if float_lt a.data.v_float b.data.v_float then
        .enumerator .ICAL_XLICCOMPARETYPE_LESS
      else .enumerator .ICAL_XLICCOMPARETYPE_EQUAL
    | ICAL_INTEGER_VALUE | ICAL_UTCOFFSET_VALUE => compare_int a.data.v_int b.data.v_int
    | ICAL_DURATION_VALUE =>
      compare_int (X.icaldurationtype_as_int a.data.v_duration)
        (X.icaldurationtype_as_int b.data.v_duration)
    | ICAL_TEXT_VALUE | ICAL_URI_VALUE | ICAL_CALADDRESS_VALUE | ICAL_TRIGGER_VALUE
    | ICAL_DATE_VALUE | ICAL_DATETIME_VALUE | ICAL_DATETIMEPERIOD_VALUE | ICAL_QUERY_VALUE
    | ICAL_UID_VALUE | ICAL_XMLREFERENCE_VALUE | ICAL_RECUR_VALUE =>
      match icalvalue_as_ical_string_r X a with
      | some temp1 =>
        match icalvalue_as_ical_string_r X b with
        | some temp2 => compare_int (strcmp temp1 temp2) 0
        | none => .enumerator .ICAL_XLICCOMPARETYPE_GREATER
      | none => .enumerator .ICAL_XLICCOMPARETYPE_LESS
    | ICAL_METHOD_VALUE | ICAL_STATUS_VALUE | ICAL_TRANSP_VALUE | ICAL_ACTION_VALUE =>
      compare_eq (a.data.v_enum == b.data.v_enum)
    | _ => .zero

/-- Specification side of the comparator (§4.6): the kinds compared by the
lexicographic order of their printed form. -/
def compared_by_text (kind : icalvalue_kind) : Bool :=
  kind = ICAL_TEXT_VALUE ∨ kind = ICAL_URI_VALUE ∨ kind = ICAL_CALADDRESS_VALUE ∨
    kind = ICAL_TRIGGER_VALUE ∨ kind = ICAL_DATE_VALUE ∨ kind = ICAL_DATETIME_VALUE ∨
    kind = ICAL_DATETIMEPERIOD_VALUE ∨ kind = ICAL_QUERY_VALUE ∨ kind = ICAL_UID_VALUE ∨
    kind = ICAL_XMLREFERENCE_VALUE ∨ kind = ICAL_RECUR_VALUE

/-! ## Standalone text utilities -/

/-- The scan loop of `icalvalue_decode_ical_string`, with `cnt` the number of
characters appended so far (`str_p - str`): the text appended from here on, or
nothing when the scan steps past the terminator of the input.  After a
backslash that is the last character the loop appends the terminator and moves
onto it; unless the length test breaks the loop there, the next `p++` leaves
the input. -/
def decode_loop (nMaxBufferLen : Int) : List Char → Nat → Option (List Char)
  | [], _ => some []
  | [c], cnt =>
    if c = '\\' then
      if ((cnt + 1 : Nat) : Int) > nMaxBufferLen then some [] else none
    else some [c]
  | c :: e :: rest, cnt =>
    if c = '\\' then
      if ((cnt + 1 : Nat) : Int) > nMaxBufferLen then some [e]
      else (decode_loop nMaxBufferLen rest (cnt + 1)).map (e :: ·)
    else
      if ((cnt + 1 : Nat) : Int) > nMaxBufferLen then some [c]
      else (decode_loop nMaxBufferLen (e :: rest) (cnt + 1)).map (c :: ·)

/-- The outcomes of `icalvalue_decode_ical_string`: it returns false and leaves
`szDecText` alone, or returns true after copying the text into `szDecText`, or
its scan reads past the terminator of the input. -/
inductive decode_result where
  | returns_false
  | returns_true (szDecText : List Char)
  | reads_past_terminator
  deriving DecidableEq, Repr

/-- The function `icalvalue_decode_ical_string` on non-null arguments; the
length of the decoded text is converted to `int` before the test against
`nMaxBufferLen`. -/
def icalvalue_decode_ical_string (szText : List Char) (nMaxBufferLen : Int) : decode_result :=
  match decode_loop nMaxBufferLen szText 0 with
  | none => .reads_past_terminator
  | some str =>
    if wrap32 (str.length : Int) ≥ nMaxBufferLen then .returns_false
    else .returns_true str

/-- Specification side of `decode_text` (§6): each escaping backslash removed
and the character after it kept verbatim. -/
def decode_text_ref : List Char → List Char
  | [] => []
  | [c] => [c]
  | c :: e :: rest =>
    if c = '\\' then e :: decode_text_ref rest else c :: decode_text_ref (e :: rest)

/-- The outcomes of `icalvalue_encode_ical_string`: it returns false and leaves
`szEncText` alone, or returns true after copying the text into `szEncText`. -/
inductive encode_result where
  | returns_false
  | returns_true (szEncText : List Char)
  deriving DecidableEq, Repr

/-- The function `icalvalue_encode_ical_string` on non-null arguments; the
length of the quoted text is converted to `int` before the test against
`nMaxBufferLen`. -/
def icalvalue_encode_ical_string (X : collaborators) (szText : List Char)
    (nMaxBufferLen : Int) : encode_result :=
  match icalvalue_new_from_string X ICAL_STRING_VALUE szText with
  | none => .returns_false
  | some value =>
    match icalvalue_text_as_ical_string_r value with
    | none => .returns_false
    | some ptr =>
      if wrap32 (ptr.length : Int) ≥ nMaxBufferLen then .returns_false
      else .returns_true ptr

/-! ## Loop counters and buffer positions of the escape engine -/

/-- The value of the iteration counter `cnt` of `icalmemory_strdup_and_quote`
when its loop ends, from the value it has on entry. -/
def quote_loop_cnt : List Char → Nat → Nat
  | [], cnt => cnt
  | _ :: rest, cnt => if cnt < MAX_ITERATIONS then quote_loop_cnt rest (cnt + 1) else cnt

/-- The outcomes of the scan of `icalmemory_strdup_and_dequote` over the buffer
that holds its input: the scan ends and `out` holds a text, or the scan reads a
position that lies beyond the terminator of the input, or the iteration budget
of the model is used up before the scan ends. -/
inductive dequote_outcome where
  | returns (out : List Char)
  | reads_past_terminator
  | unfinished
  deriving DecidableEq, Repr

/-- The statement `*pout = c; pout++` seen from the end of the scan: `c` comes
before what the rest of the scan writes. -/
def dequote_outcome.write (c : Char) : dequote_outcome → dequote_outcome
  | .returns out => .returns (c :: out)
  | .reads_past_terminator => .reads_past_terminator
  | .unfinished => .unfinished

/-- The `for` loop of `icalmemory_strdup_and_dequote` over the buffer `buf`,
with `p` the read position and `wroteNull` the flag of the source; the first
argument bounds the number of iterations.  Every `*p` is a lookup in `buf`, and
a lookup outside `buf` ends the scan with `reads_past_terminator`.  The loop
condition tests `wroteNull` before it reads `*p`.  In the `case 0` of the
`switch` a terminator is written to `out`, so nothing more belongs to the text
that `out` holds. -/
def dequote_scan_loop (buf : List Char) : Nat → Nat → Bool → dequote_outcome
  | 0, _, _ => .unfinished
  | fuel + 1, p, wroteNull =>
    if wroteNull then .returns []
    else
      match buf[p]? with
      | none => .reads_past_terminator
      | some c =>
        if c = '\x00' then .returns []
        else if c = '\\' then
          match buf[p + 1]? with
          | none => .reads_past_terminator
          | some e =>
            if e = '\x00' then dequote_scan_loop buf fuel (p + 1 + 1) true
            else (dequote_scan_loop buf fuel (p + 1 + 1) false).write (dequote_switch e)
        else (dequote_scan_loop buf fuel (p + 1) false).write c

/-- The scan of `icalmemory_strdup_and_dequote` over the buffer of the C string
`str`: the characters of `str` followed by the terminator.  The loop makes at
most one iteration for each character. -/
def dequote_scan (str : List Char) : dequote_outcome :=
  dequote_scan_loop (str ++ ['\x00']) (str.length + 1) 0 false

/-! ## Specification-side notions for the GEO and temporal kinds -/

/-- Specification side of GEO parsing (§4.3): the characters that a numeral is
made of. -/
def geo_numeral_char (c : Char) : Bool :=
  isdigit c || c = '.' || c = '+' || c = '-'

/-- A four-digit field: the decimal digits of a number below ten thousand,
zero-padded. -/
def four_digits (n : Nat) : List Char :=
  [digit_char (n / 1000), digit_char (n / 100 % 10), digit_char (n / 10 % 10),
    digit_char (n % 10)]

/-- Specification side of DATE printing (§4.5): `YYYYMMDD`. -/
def date_text (t : icaltimetype) : List Char :=
  four_digits t.year.toNat ++ two_digits t.month.toNat ++ two_digits t.day.toNat

/-- Specification side of the time of day in DATETIME printing (§4.5):
`HHMMSS`. -/
def time_text (t : icaltimetype) : List Char :=
  two_digits t.hour.toNat ++ two_digits t.minute.toNat ++ two_digits t.second.toNat

/-! ## Buffer positions of the decoder -/

/-- The outcomes of the scan loop of `icalvalue_decode_ical_string` over the
buffer that holds its input: the loop ends and `str` holds a text, or the loop
reads a position that lies beyond the terminator of the input, or the iteration
budget of the model is used up before the loop ends. -/
inductive decode_scan_outcome where
  | ends (str : List Char)
  | reads_past_terminator
  | unfinished
  deriving DecidableEq, Repr

/-- The call `icalmemory_append_char(&str, &str_p, &buf_sz, c)` seen from the
end of the scan: `c` comes before what the rest of the scan appends, and an
appended terminator ends the text that `str` holds. -/
def decode_scan_outcome.append_char (c : Char) : decode_scan_outcome → decode_scan_outcome
  | .ends str => if c = '\x00' then .ends [] else .ends (c :: str)
  | .reads_past_terminator => .reads_past_terminator
  | .unfinished => .unfinished

/-- The `for` loop of `icalvalue_decode_ical_string` over the buffer `buf`, with
`p` the read position and `cnt` the number of characters appended so far
(`str_p - str`); the first numeric argument bounds the number of iterations.
Every `*p` and `*(p + 1)` is a lookup in `buf`, and a lookup outside `buf` ends
the scan with `reads_past_terminator`.  After a backslash the loop moves `p`
twice, once in the body and once in the `for` statement, whatever the
character after the backslash is. -/
def decode_scan_loop (buf : List Char) (nMaxBufferLen : Int) :
    Nat → Nat → Nat → decode_scan_outcome
  | 0, _, _ => .unfinished
  | fuel + 1, p, cnt =>
    match buf[p]? with
    | none => .reads_past_terminator
    | some c =>
      if c = '\x00' then .ends []
      else if c = '\\' then
        match buf[p + 1]? with
        | none => .reads_past_terminator
        | some e =>
          if ((cnt + 1 : Nat) : Int) > nMaxBufferLen then
            (decode_scan_outcome.ends []).append_char e
          else (decode_scan_loop buf nMaxBufferLen fuel (p + 1 + 1) (cnt + 1)).append_char e
      else
        if ((cnt + 1 : Nat) : Int) > nMaxBufferLen then
          (decode_scan_outcome.ends []).append_char c
        else (decode_scan_loop buf nMaxBufferLen fuel (p + 1) (cnt + 1)).append_char c

/-- The scan loop of `icalvalue_decode_ical_string` over the buffer of the C
string `szText`: the characters of `szText` followed by the terminator.  The
loop makes at most one iteration for each character, and one more. -/
def decode_scan (szText : List Char) (nMaxBufferLen : Int) : decode_scan_outcome :=
  decode_scan_loop (szText ++ ['\x00']) nMaxBufferLen (szText.length + 1) 0 0

/-- The outcome of the scan that the list model `decode_loop` stands for. -/
def decode_scan_outcome.of_decode_loop : Option (List Char) → decode_scan_outcome
  | some str => .ends str
  | none => .reads_past_terminator

/-! # Theorems -/

theorem quote_keeps_separator_eq (v : icalvalue_impl) :
    quote_keeps_separator v = on_separator_allowlist v := by
  unfold quote_keeps_separator on_separator_allowlist icalvalue_isa
  cases h : icalproperty_isa v.parent <;> cases hk : v.kind <;> rfl

theorem quote_switch_eq_ref (v : icalvalue_impl) (c : Char) :
    quote_switch v c = quote_char_ref (on_separator_allowlist v) c := by
  rw [← quote_keeps_separator_eq]
  unfold quote_switch quote_char_ref
  split_ifs <;> simp_all

theorem quote_loop_eq_ref (v : icalvalue_impl) (s : List Char) :
    ∀ cnt, cnt + s.length ≤ MAX_ITERATIONS →
      quote_loop v s cnt = (s.map (quote_char_ref (on_separator_allowlist v))).flatten := by
  induction s with
  | nil => intro cnt _; simp [quote_loop]
  | cons c rest ih =>
    intro cnt h
    have h1 : cnt < MAX_ITERATIONS := by simp only [List.length_cons] at h; omega
    have h2 : cnt + 1 + rest.length ≤ MAX_ITERATIONS := by
      simp only [List.length_cons] at h; omega
    simp [quote_loop, h1, ih (cnt + 1) h2, quote_switch_eq_ref]

theorem dequote_cons_backslash (e : Char) (r : List Char) :
    icalmemory_strdup_and_dequote ('\\' :: e :: r) =
      dequote_switch e :: icalmemory_strdup_and_dequote r := by
  simp [icalmemory_strdup_and_dequote]

theorem dequote_cons_plain (c : Char) (r : List Char) (h : c ≠ '\\') :
    icalmemory_strdup_and_dequote (c :: r) = c :: icalmemory_strdup_and_dequote r := by
  cases r with
  | nil => simp [icalmemory_strdup_and_dequote, h]
  | cons e r => simp [icalmemory_strdup_and_dequote, h]

theorem dequote_quote_switch (v : icalvalue_impl) (c : Char) (r : List Char) :
    icalmemory_strdup_and_dequote (quote_switch v c ++ r) =
      (if quote_drops c then [] else [c]) ++ icalmemory_strdup_and_dequote r := by
  by_cases hsep : c = ';' ∨ c = ','
  · rcases hsep with rfl | rfl <;> cases hk : quote_keeps_separator v <;>
      simp [quote_switch, quote_drops, hk, dequote_cons_backslash, dequote_cons_plain,
        dequote_switch]
  · unfold quote_switch quote_drops
    split_ifs <;> simp_all [dequote_cons_backslash, dequote_cons_plain, dequote_switch]

theorem dequote_quote_loop (v : icalvalue_impl) (s : List Char) :
    ∀ cnt, cnt + s.length ≤ MAX_ITERATIONS →
      icalmemory_strdup_and_dequote (quote_loop v s cnt) = s.filter (fun c => !quote_drops c) := by
  induction s with
  | nil => intro cnt _; simp [quote_loop, icalmemory_strdup_and_dequote]
  | cons c rest ih =>
    intro cnt h
    have h1 : cnt < MAX_ITERATIONS := by simp only [List.length_cons] at h; omega
    have h2 : cnt + 1 + rest.length ≤ MAX_ITERATIONS := by
      simp only [List.length_cons] at h; omega
    simp only [quote_loop, h1, if_true, dequote_quote_switch, ih (cnt + 1) h2]
    by_cases hd : quote_drops c <;> simp [List.filter_cons, hd]

theorem dequote_switch_eq_ref (c : Char) : dequote_switch c = dequote_escape_ref c := by
  by_cases h1 : c = 'n'
  · subst h1; decide
  by_cases h2 : c = 'N'
  · subst h2; decide
  by_cases h3 : c = 't'
  · subst h3; decide
  by_cases h4 : c = 'T'
  · subst h4; decide
  by_cases h5 : c = 'r'
  · subst h5; decide
  by_cases h6 : c = 'R'
  · subst h6; decide
  by_cases h7 : c = 'b'
  · subst h7; decide
  by_cases h8 : c = 'B'
  · subst h8; decide
  by_cases h9 : c = 'f'
  · subst h9; decide
  by_cases h10 : c = 'F'
  · subst h10; decide
  by_cases h11 : c = ';'
  · subst h11; decide
  by_cases h12 : c = ','
  · subst h12; decide
  by_cases h13 : c = '\"'
  · subst h13; decide
  by_cases h14 : c = '\\'
  · subst h14; decide
  have e : ∀ k : Char, c ≠ k → (c == k) = false := fun k hk => beq_eq_false_iff_ne.mpr hk
  simp [dequote_switch, dequote_escape_ref, List.lookup, h1, h2, h3, h4, h5, h6, h7, h8, h9,
    h10, h11, h12, h13, h14, e _ h1, e _ h2, e _ h3, e _ h4, e _ h5, e _ h6, e _ h7, e _ h8,
    e _ h9, e _ h10, e _ h11, e _ h12, e _ h13, e _ h14]

/-- A text whose last character is not a backslash has no lone trailing
backslash. -/
theorem lone_trailing_backslash_of_getLast (s : List Char)
    (h : s.getLast? ≠ some '\\') : lone_trailing_backslash s = false := by
  induction s using lone_trailing_backslash.induct with
  | case1 => rfl
  | case2 c => simpa [lone_trailing_backslash] using h
  | case3 e rest ih =>
    simp only [lone_trailing_backslash, if_true]
    apply ih
    cases rest with
    | nil => simp
    | cons a r => simpa [List.getLast?_cons_cons] using h
  | case4 c e rest hc ih =>
    simp only [lone_trailing_backslash, hc, if_false]
    apply ih
    simpa [List.getLast?_cons_cons] using h

/-! ## Claims -/

/-- C1: for a text made only of newline, tab, backslash, comma, semicolon and
double-quote characters and shorter than the quoting ceiling, and a value whose
parent is not on the separator allowlist, dequoting the quoted text gives the
text back. -/
theorem c1_dequote_quote_roundtrip (v : icalvalue_impl) (s : List Char)
    (hs : ∀ c ∈ s, c = '\n' ∨ c = '\t' ∨ c = '\\' ∨ c = ',' ∨ c = ';' ∨ c = '\"')
    (hlen : s.length < MAX_ITERATIONS)
    (hv : on_separator_allowlist v = false) :
    icalmemory_strdup_and_dequote (icalmemory_strdup_and_quote v s) = s := by
  have _ := hv
  unfold icalmemory_strdup_and_quote
  rw [dequote_quote_loop v s 0 (by omega)]
  apply List.filter_eq_self.mpr
  intro c hc
  rcases hs c hc with rfl | rfl | rfl | rfl | rfl | rfl <;> decide

theorem c1_dequote_quote_roundtrip_witness :
    icalmemory_strdup_and_dequote
        (icalmemory_strdup_and_quote
          { kind := icalvalue_kind.ICAL_TEXT_VALUE,
            parent := some ⟨icalproperty_kind.ICAL_SUMMARY_PROPERTY⟩ }
          ['\n', ';', '\\', ',', '\t', '\"']) =
      ['\n', ';', '\\', ',', '\t', '\"'] :=
  c1_dequote_quote_roundtrip _ _ (by decide) (by decide) (by decide)

/-- C2: on every text in which each backslash is followed by another character
(no backslash is the last character, or more generally the left-to-right scan
never meets a backslash with nothing after it), dequoting is the reference map
of the specification: the escape table on each escaped character, every other
character copied. -/
theorem c2_dequote_eq_reference (s : List Char)
    (h : s.getLast? ≠ some '\\' ∨ lone_trailing_backslash s = false) :
    icalmemory_strdup_and_dequote s = dequote_ref s := by
  have h0 : lone_trailing_backslash s = false := by
    rcases h with h | h
    · exact lone_trailing_backslash_of_getLast s h
    · exact h
  clear h
  induction s using lone_trailing_backslash.induct with
  | case1 => rfl
  | case2 c =>
    have hc : c ≠ '\\' := by simpa [lone_trailing_backslash] using h0
    simp [icalmemory_strdup_and_dequote, dequote_ref, hc]
  | case3 e rest ih =>
    simp only [lone_trailing_backslash, if_true] at h0
    simp [icalmemory_strdup_and_dequote, dequote_ref, ih h0, dequote_switch_eq_ref]
  | case4 c e rest hc ih =>
    simp only [lone_trailing_backslash, hc, if_false] at h0
    simp [icalmemory_strdup_and_dequote, dequote_ref, hc, ih h0]

theorem c2_dequote_eq_reference_witness :
    icalmemory_strdup_and_dequote ['a', '\\', 'n', '\\', ';', '\\', 'x', '\\', '\\', 'b'] =
      dequote_ref ['a', '\\', 'n', '\\', ';', '\\', 'x', '\\', '\\', 'b'] :=
  c2_dequote_eq_reference _ (Or.inl (by decide))

/-- C3: for a text shorter than the ceiling, quoting is the character-wise map
of the specification, with `;` and `,` kept literal exactly on the allowlist;
`a;b` prints unchanged under a CATEGORIES parent and as `a\;b` under a SUMMARY
parent. -/
theorem c3_quote_is_charwise_map :
    (∀ (v : icalvalue_impl) (s : List Char), s.length < MAX_ITERATIONS →
      icalmemory_strdup_and_quote v s =
        (s.map (quote_char_ref (on_separator_allowlist v))).flatten) ∧
    icalmemory_strdup_and_quote
        { kind := icalvalue_kind.ICAL_TEXT_VALUE,
          parent := some ⟨icalproperty_kind.ICAL_CATEGORIES_PROPERTY⟩ }
        ['a', ';', 'b'] = ['a', ';', 'b'] ∧
    icalmemory_strdup_and_quote
        { kind := icalvalue_kind.ICAL_TEXT_VALUE,
          parent := some ⟨icalproperty_kind.ICAL_SUMMARY_PROPERTY⟩ }
        ['a', ';', 'b'] = ['a', '\\', ';', 'b'] := by
  refine ⟨?_, by decide, by decide⟩
  intro v s h
  exact quote_loop_eq_ref v s 0 (by omega)

theorem c3_quote_is_charwise_map_witness :
    icalmemory_strdup_and_quote
        { kind := icalvalue_kind.ICAL_INTEGER_VALUE,
          parent := some ⟨icalproperty_kind.ICAL_X_PROPERTY⟩ }
        ['x', ',', '\n', '\r', '\\'] =
      (['x', ',', '\n', '\r', '\\'].map
        (quote_char_ref (on_separator_allowlist
          { kind := icalvalue_kind.ICAL_INTEGER_VALUE,
            parent := some ⟨icalproperty_kind.ICAL_X_PROPERTY⟩ }))).flatten :=
  c3_quote_is_charwise_map.1 _ _ (by decide)

/-- C9: parsing a BOOLEAN text gives the true value exactly for `TRUE`, the
false value exactly for `FALSE`, and for every other text no value, with the
"could not parse" diagnostic when a diagnostic slot was requested and none
otherwise; `Yes`, `true` and `TRUE ` are among the rejected texts. -/
theorem c9_boolean_parse (X : collaborators) (s : List Char) (error : Bool) :
    ((icalvalue_new_from_string_with_error X ICAL_BOOLEAN_VALUE s error).1 =
        some { kind := ICAL_BOOLEAN_VALUE, data := { v_int := 1 } } ↔ s = ['T', 'R', 'U', 'E']) ∧
    ((icalvalue_new_from_string_with_error X ICAL_BOOLEAN_VALUE s error).1 =
        some { kind := ICAL_BOOLEAN_VALUE, data := { v_int := 0 } } ↔
      s = ['F', 'A', 'L', 'S', 'E']) ∧
    (s ≠ ['T', 'R', 'U', 'E'] → s ≠ ['F', 'A', 'L', 'S', 'E'] →
      icalvalue_new_from_string_with_error X ICAL_BOOLEAN_VALUE s error =
        (none, if error then some (could_not_parse_error X ICAL_BOOLEAN_VALUE s) else none)) ∧
    (icalvalue_new_from_string_with_error X ICAL_BOOLEAN_VALUE ['Y', 'e', 's'] error).1 = none ∧
    (icalvalue_new_from_string_with_error X ICAL_BOOLEAN_VALUE ['t', 'r', 'u', 'e'] error).1 =
      none ∧
    (icalvalue_new_from_string_with_error X ICAL_BOOLEAN_VALUE ['T', 'R', 'U', 'E', ' ']
      error).1 = none := by
  have key : ∀ t : List Char,
      icalvalue_new_from_string_with_error X ICAL_BOOLEAN_VALUE t error =
        if t = ['T', 'R', 'U', 'E'] then
          (some { kind := ICAL_BOOLEAN_VALUE, data := { v_int := 1 } }, none)
        else if t = ['F', 'A', 'L', 'S', 'E'] then
          (some { kind := ICAL_BOOLEAN_VALUE, data := { v_int := 0 } }, none)
        else (none, if error then some (could_not_parse_error X ICAL_BOOLEAN_VALUE t) else none) := by
    intro t
    by_cases h1 : t = ['T', 'R', 'U', 'E']
    · subst h1
      cases error <;> rfl
    · by_cases h2 : t = ['F', 'A', 'L', 'S', 'E']
      · subst h2
        cases error <;> rfl
      · cases error <;>
          simp [icalvalue_new_from_string_with_error, strcmp_eq, h1, h2]
  refine ⟨?_, ?_, ?_, ?_, ?_, ?_⟩
  · rw [key]
    by_cases h1 : s = ['T', 'R', 'U', 'E']
    · simp [h1]
    · by_cases h2 : s = ['F', 'A', 'L', 'S', 'E']
      · subst h2; simp
      · simp [h1, h2]
  · rw [key]
    by_cases h1 : s = ['T', 'R', 'U', 'E']
    · subst h1; simp
    · by_cases h2 : s = ['F', 'A', 'L', 'S', 'E']
      · simp [h2]
      · simp [h1, h2]
  · intro h1 h2
    rw [key]
    simp [h1, h2]
  · rw [key]; simp
  · rw [key]; simp
  · rw [key]; simp

theorem c9_boolean_parse_witness :
    icalvalue_new_from_string_with_error sample_collaborators ICAL_BOOLEAN_VALUE
        ['Y', 'e', 's'] true =
      (none, if true = true then
        some (could_not_parse_error sample_collaborators ICAL_BOOLEAN_VALUE ['Y', 'e', 's'])
        else none) :=
  (c9_boolean_parse sample_collaborators ['Y', 'e', 's'] true).2.2.1 (by decide) (by decide)

/-- C10: for an enumerated-token kind with its designated X code, a token whose
lookup gives a non-zero code belonging to the property enumeration of the kind
parses to a value storing that code without extension text; any other token
parses to a value storing the X code with the token as extension text.  The
extension text of the parsed value is therefore set exactly when the token did
not resolve. -/
theorem c10_enum_parse (X : collaborators) (kind : icalvalue_kind) (x : Int)
    (hk : designated_x_code X kind = some x) (t : List Char) (error : Bool) :
    (X.icalproperty_kind_and_string_to_enum kind t ≠ 0 ∧
        X.icalproperty_enum_belongs_to_property (X.icalproperty_value_kind_to_kind kind)
          (X.icalproperty_kind_and_string_to_enum kind t) = true →
      icalvalue_new_from_string_with_error X kind t error =
        (some { kind := kind, x_value := none,
                data := { v_enum := X.icalproperty_kind_and_string_to_enum kind t } },
          none)) ∧
    (¬ (X.icalproperty_kind_and_string_to_enum kind t ≠ 0 ∧
        X.icalproperty_enum_belongs_to_property (X.icalproperty_value_kind_to_kind kind)
          (X.icalproperty_kind_and_string_to_enum kind t) = true) →
      icalvalue_new_from_string_with_error X kind t error =
        (some { kind := kind, x_value := some t, data := { v_enum := x } }, none)) ∧
    (∃ w, (icalvalue_new_from_string_with_error X kind t error).1 = some w ∧
      (w.x_value ≠ none ↔
        ¬ (X.icalproperty_kind_and_string_to_enum kind t ≠ 0 ∧
          X.icalproperty_enum_belongs_to_property (X.icalproperty_value_kind_to_kind kind)
            (X.icalproperty_kind_and_string_to_enum kind t) = true))) := by
  have key : icalvalue_new_from_string_with_error X kind t error =
      (icalvalue_new_enum X kind x t, none) := by
    cases kind <;> simp [designated_x_code] at hk <;> subst hk <;>
      cases error <;>
      simp [icalvalue_new_from_string_with_error, icalvalue_new_enum, icalvalue_new_impl,
        icalvalue_kind_is_valid] <;>
      split_ifs <;> simp
  have valid : icalvalue_kind_is_valid kind = true := by
    cases kind <;> simp [designated_x_code] at hk <;> rfl
  rw [key]
  by_cases hr : X.icalproperty_kind_and_string_to_enum kind t ≠ 0 ∧
      X.icalproperty_enum_belongs_to_property (X.icalproperty_value_kind_to_kind kind)
        (X.icalproperty_kind_and_string_to_enum kind t) = true
  · simp [icalvalue_new_enum, icalvalue_new_impl, valid, hr, icalvalue_set_x]
  · simp [icalvalue_new_enum, icalvalue_new_impl, valid, hr, icalvalue_set_x]

theorem c10_enum_parse_witness :
    icalvalue_new_from_string_with_error sample_collaborators ICAL_METHOD_VALUE
        ['P', 'U', 'B', 'L', 'I', 'S', 'H'] false =
      (some { kind := ICAL_METHOD_VALUE, x_value := none, data := { v_enum := 10500 } }, none) ∧
    icalvalue_new_from_string_with_error sample_collaborators ICAL_METHOD_VALUE
        ['a', ';', 'b'] false =
      (some { kind := ICAL_METHOD_VALUE, x_value := some ['a', ';', 'b'],
              data := { v_enum := 10002 } }, none) :=
  ⟨(c10_enum_parse sample_collaborators ICAL_METHOD_VALUE 10002 rfl
      ['P', 'U', 'B', 'L', 'I', 'S', 'H'] false).1 (by decide),
   (c10_enum_parse sample_collaborators ICAL_METHOD_VALUE 10002 rfl
      ['a', ';', 'b'] false).2.1 (by decide)⟩

/-! ## Numeric lemmas -/

theorem wrap32_eq_self (x : Int) (h1 : -2147483648 ≤ x) (h2 : x ≤ 2147483647) :
    wrap32 x = x := by
  unfold wrap32; omega

theorem digitChar_isdigit (d : Nat) (h : d < 10) : isdigit (Nat.digitChar d) = true := by
  interval_cases d <;> rfl

theorem digitChar_value (d : Nat) (h : d < 10) : (Nat.digitChar d).toNat - 48 = d := by
  interval_cases d <;> rfl

theorem digitChar_eq_digit_char (d : Nat) (h : d < 10) : Nat.digitChar d = digit_char d := by
  interval_cases d <;> rfl

theorem strtol_digits_append (pre : List Char) (hpre : ∀ c ∈ pre, isdigit c = true) :
    ∀ (acc : Nat) (rest : List Char),
      strtol_digits acc (pre ++ rest) =
        strtol_digits (acc * 10 ^ pre.length + strtol_digits 0 pre) rest := by
  induction pre with
  | nil => intro acc rest; simp [strtol_digits]
  | cons c cs ih =>
    intro acc rest
    have hc : isdigit c = true := hpre c (by simp)
    have hcs : ∀ c ∈ cs, isdigit c = true := fun d hd => hpre d (by simp [hd])
    have h2 := ih hcs (0 * 10 + (c.toNat - 48)) []
    rw [List.append_nil] at h2
    rw [List.cons_append]
    simp only [strtol_digits, hc, if_true, List.length_cons]
    rw [ih hcs, h2]
    simp only [strtol_digits]
    congr 1
    ring

/-- The digits that `Nat.toDigitsCore` puts in front of its accumulator form a
non-empty run of decimal digits whose value is the number printed. -/
theorem toDigitsCore_spec (n : Nat) :
    ∀ (fuel : Nat) (ds : List Char), n < fuel →
      ∃ pre, Nat.toDigitsCore 10 fuel n ds = pre ++ ds ∧ pre ≠ [] ∧
        (∀ c ∈ pre, isdigit c = true) ∧ strtol_digits 0 pre = n ∧
        (∀ k, n < 10 ^ (k + 1) → pre.length ≤ k + 1) := by
  induction n using Nat.strong_induction_on with
  | _ n ih =>
    intro fuel ds hf
    cases fuel with
    | zero => omega
    | succ f =>
      have hmod : n % 10 < 10 := Nat.mod_lt _ (by norm_num)
      by_cases h0 : n / 10 = 0
      · refine ⟨[Nat.digitChar (n % 10)], ?_, by simp, ?_, ?_, ?_⟩
        · simp [Nat.toDigitsCore, h0]
        · intro c hc
          simp only [List.mem_singleton] at hc
          subst hc
          exact digitChar_isdigit _ hmod
        · simp only [strtol_digits, digitChar_isdigit _ hmod, if_true, digitChar_value _ hmod]
          omega
        · intro k _; simp
      · have hlt : n / 10 < n := by omega
        obtain ⟨pre, e1, _, e3, e4, e5⟩ :=
          ih (n / 10) hlt f (Nat.digitChar (n % 10) :: ds) (by omega)
        refine ⟨pre ++ [Nat.digitChar (n % 10)], ?_, by simp, ?_, ?_, ?_⟩
        · simp [Nat.toDigitsCore, h0, e1]
        · intro c hc
          rcases List.mem_append.mp hc with hc | hc
          · exact e3 c hc
          · simp only [List.mem_singleton] at hc
            subst hc
            exact digitChar_isdigit _ hmod
        · rw [strtol_digits_append pre e3, e4]
          simp only [strtol_digits, digitChar_isdigit _ hmod, if_true, digitChar_value _ hmod]
          omega
        · intro k hk
          cases k with
          | zero => omega
          | succ j =>
            have : n / 10 < 10 ^ (j + 1) := by
              rw [Nat.div_lt_iff_lt_mul (by norm_num)]
              calc n < 10 ^ (j + 1 + 1) := hk
                _ = 10 ^ (j + 1) * 10 := by ring
            have := e5 j this
            simp only [List.length_append, List.length_singleton]
            omega

theorem toDigits_spec (n : Nat) :
    Nat.toDigits 10 n ≠ [] ∧ (∀ c ∈ Nat.toDigits 10 n, isdigit c = true) ∧
      strtol_digits 0 (Nat.toDigits 10 n) = n ∧
      (∀ k, n < 10 ^ (k + 1) → (Nat.toDigits 10 n).length ≤ k + 1) := by
  obtain ⟨pre, e1, e2, e3, e4, e5⟩ := toDigitsCore_spec n (n + 1) [] (by omega)
  have : Nat.toDigits 10 n = pre := by simp [Nat.toDigits, e1]
  rw [this]
  exact ⟨e2, e3, e4, e5⟩

theorem isdigit_not_special (c : Char) (h : isdigit c = true) :
    isspace c = false ∧ c ≠ '-' ∧ c ≠ '+' := by
  simp only [isdigit, decide_eq_true_eq] at h
  refine ⟨?_, ?_, ?_⟩
  · by_contra hs
    simp only [isspace, Bool.not_eq_false, decide_eq_true_eq] at hs
    rcases hs with rfl | rfl | rfl | rfl | rfl | rfl <;> simp at h
  · rintro rfl; simp at h
  · rintro rfl; simp at h

theorem strtol_minus (cs : List Char) (h : (strtol_digits 0 cs : Int) ≤ 9223372036854775808) :
    strtol ('-' :: cs) = -(strtol_digits 0 cs : Int) := by
  unfold strtol
  rw [List.dropWhile_cons_of_neg (by decide)]
  simp only [strtol_signed, if_true, clamp_long]
  split_ifs <;> omega

theorem strtol_plus (cs : List Char) (h : (strtol_digits 0 cs : Int) ≤ 9223372036854775807) :
    strtol ('+' :: cs) = (strtol_digits 0 cs : Int) := by
  have hne : ¬ ('+' = '-') := by decide
  unfold strtol
  rw [List.dropWhile_cons_of_neg (by decide)]
  simp only [strtol_signed, hne, if_false, if_true, clamp_long]
  split_ifs <;> omega

theorem strtol_unsigned (c : Char) (cs : List Char) (hc : isdigit c = true)
    (h : (strtol_digits 0 (c :: cs) : Int) ≤ 9223372036854775807) :
    strtol (c :: cs) = (strtol_digits 0 (c :: cs) : Int) := by
  obtain ⟨h1, h2, h3⟩ := isdigit_not_special c hc
  unfold strtol
  rw [List.dropWhile_cons_of_neg (by simp [h1])]
  simp only [strtol_signed, h2, h3, if_false, clamp_long]
  split_ifs <;> omega

/-- The C library `atoi` undoes the conversion `%d` on every `int`. -/
theorem atoi_printf_d (n : Int) (h1 : INT_MIN ≤ n) (h2 : n ≤ INT_MAX) :
    atoi (printf_d n) = n := by
  unfold INT_MIN at h1
  unfold INT_MAX at h2
  obtain ⟨hne, hd, hv, _⟩ := toDigits_spec n.natAbs
  unfold atoi printf_d
  by_cases hn : n < 0
  · simp only [hn, if_true]
    rw [strtol_minus _ (by rw [hv]; omega), hv]
    rw [wrap32_eq_self _ (by omega) (by omega)]
    omega
  · simp only [hn, if_false]
    cases hds : Nat.toDigits 10 n.natAbs with
    | nil => exact absurd hds hne
    | cons c cs =>
      rw [hds] at hd hv
      rw [strtol_unsigned c cs (hd c (by simp)) (by rw [hv]; omega), hv]
      rw [wrap32_eq_self _ (by omega) (by omega)]
      omega

/-- The buffer of `MAX_INT_DIGITS` characters holds the conversion `%d` of
every `int`. -/
theorem snprintf_printf_d (n : Int) (h1 : INT_MIN ≤ n) (h2 : n ≤ INT_MAX) :
    snprintf MAX_INT_DIGITS (printf_d n) = printf_d n := by
  unfold INT_MIN at h1
  unfold INT_MAX at h2
  obtain ⟨_, _, _, hl⟩ := toDigits_spec n.natAbs
  have hlen := hl 9 (by norm_num; omega)
  unfold snprintf MAX_INT_DIGITS printf_d
  apply List.take_of_length_le
  split_ifs <;> first | (simp only [List.length_cons]; omega) | omega

theorem tdiv_cases (x b : Int) (hb : 0 < b) :
    x.tdiv b = if 0 ≤ x then x / b else -((-x) / b) := by
  split_ifs with h
  · exact Int.tdiv_eq_ediv h (le_of_lt hb)
  · have : x = -(-x) := by ring
    rw [this, Int.neg_tdiv, Int.tdiv_eq_ediv (by omega) (le_of_lt hb)]
    simp

theorem printf_02d_two_digits (k : Nat) (h : k < 100) :
    printf_02d (k : Int) = two_digits k := by
  interval_cases k <;> rfl

theorem two_digits_strtol (k : Nat) (h : k < 100) (acc : Nat) (rest : List Char) :
    strtol_digits acc (two_digits k ++ rest) = strtol_digits (acc * 100 + k) rest := by
  have e : ∀ j : Nat, j < 10 → isdigit (digit_char j) = true ∧ (digit_char j).toNat - 48 = j := by
    intro j hj
    interval_cases j <;> exact ⟨rfl, rfl⟩
  obtain ⟨a1, a2⟩ := e (k / 10) (by omega)
  obtain ⟨b1, b2⟩ := e (k % 10) (Nat.mod_lt _ (by norm_num))
  simp only [two_digits, List.cons_append, List.nil_append, strtol_digits, a1, a2, b1, b2,
    if_true]
  congr 1
  omega

theorem two_digits_head_isdigit (k : Nat) (h : k < 100) (rest : List Char) :
    ∃ c cs, two_digits k ++ rest = c :: cs ∧ isdigit c = true := by
  refine ⟨digit_char (k / 10), digit_char (k % 10) :: rest, rfl, ?_⟩
  have : k / 10 < 10 := by omega
  interval_cases (k / 10) <;> rfl

/-- Recombination of a packed number `± HHMMSS` into seconds. -/
theorem utcoffset_from_packed_eq (hh mm ss : Nat) (h1 : hh < 100) (h2 : mm < 100)
    (h3 : ss < 100) :
    utcoffset_from_packed ((hh : Int) * 10000 + mm * 100 + ss) =
        (hh : Int) * 3600 + mm * 60 + ss ∧
    utcoffset_from_packed (-((hh : Int) * 10000 + mm * 100 + ss)) =
        -((hh : Int) * 3600 + mm * 60 + ss) := by
  constructor
  · have e1 : ((hh : Int) * 10000 + mm * 100 + ss).tdiv 10000 = hh := by
      rw [tdiv_cases _ _ (by norm_num)]; split_ifs <;> omega
    simp only [utcoffset_from_packed, e1]
    have e2 : wrap32 ((hh : Int) * 10000) = hh * 10000 := wrap32_eq_self _ (by omega) (by omega)
    have e3 : wrap32 ((hh : Int) * 10000 + mm * 100 + ss - hh * 10000) = mm * 100 + ss := by
      rw [wrap32_eq_self _ (by omega) (by omega)]; omega
    have e4 : ((mm : Int) * 100 + ss).tdiv 100 = mm := by
      rw [tdiv_cases _ _ (by norm_num)]; split_ifs <;> omega
    simp only [e2, e3, e4]
    rw [wrap32_eq_self ((mm : Int) * 100) (by omega) (by omega),
      wrap32_eq_self ((hh : Int) * 3600) (by omega) (by omega),
      wrap32_eq_self ((mm : Int) * 60) (by omega) (by omega),
      wrap32_eq_self ((mm : Int) * 100 + ss - mm * 100) (by omega) (by omega),
      wrap32_eq_self ((hh : Int) * 3600 + mm * 60) (by omega) (by omega),
      wrap32_eq_self _ (by omega) (by omega)]
    omega
  · have e1 : (-((hh : Int) * 10000 + mm * 100 + ss)).tdiv 10000 = -(hh : Int) := by
      rw [tdiv_cases _ _ (by norm_num)]; split_ifs <;> omega
    simp only [utcoffset_from_packed, e1]
    have e2 : wrap32 (-(hh : Int) * 10000) = -(hh : Int) * 10000 :=
      wrap32_eq_self _ (by omega) (by omega)
    have e3 : wrap32 (-((hh : Int) * 10000 + mm * 100 + ss) - -(hh : Int) * 10000) =
        -((mm : Int) * 100 + ss) := by
      rw [wrap32_eq_self _ (by omega) (by omega)]; omega
    have e4 : (-((mm : Int) * 100 + ss)).tdiv 100 = -(mm : Int) := by
      rw [tdiv_cases _ _ (by norm_num)]; split_ifs <;> omega
    simp only [e2, e3, e4]
    rw [wrap32_eq_self (-(mm : Int) * 100) (by omega) (by omega),
      wrap32_eq_self (-(hh : Int) * 3600) (by omega) (by omega),
      wrap32_eq_self (-(mm : Int) * 60) (by omega) (by omega),
      wrap32_eq_self (-((mm : Int) * 100 + ss) - -(mm : Int) * 100) (by omega) (by omega),
      wrap32_eq_self (-(hh : Int) * 3600 + -(mm : Int) * 60) (by omega) (by omega),
      wrap32_eq_self _ (by omega) (by omega)]
    omega

theorem strtol_digits_hhmm (hh mm : Nat) (h1 : hh < 100) (h2 : mm < 100) :
    strtol_digits 0 (two_digits hh ++ two_digits mm) = hh * 100 + mm := by
  have := two_digits_strtol mm h2 (0 * 100 + hh) []
  rw [List.append_nil] at this
  rw [two_digits_strtol hh h1, this]
  simp [strtol_digits]

theorem strtol_digits_hhmmss (hh mm ss : Nat) (h1 : hh < 100) (h2 : mm < 100) (h3 : ss < 100) :
    strtol_digits 0 (two_digits hh ++ two_digits mm ++ two_digits ss) =
      hh * 10000 + mm * 100 + ss := by
  have := two_digits_strtol ss h3 ((0 * 100 + hh) * 100 + mm) []
  rw [List.append_nil] at this
  rw [List.append_assoc, two_digits_strtol hh h1, two_digits_strtol mm h2, this]
  simp only [strtol_digits]
  ring

/-- The packed number read from a text `HHMM` with an optional sign. -/
theorem utcoffset_packed_hhmm (hh mm : Nat) (h1 : hh < 100) (h2 : mm < 100) :
    utcoffset_packed (two_digits hh ++ two_digits mm) =
        (hh : Int) * 10000 + mm * 100 + (0 : Nat) ∧
    utcoffset_packed ('+' :: (two_digits hh ++ two_digits mm)) =
        (hh : Int) * 10000 + mm * 100 + (0 : Nat) ∧
    utcoffset_packed ('-' :: (two_digits hh ++ two_digits mm)) =
        -((hh : Int) * 10000 + mm * 100 + (0 : Nat)) := by
  have hv := strtol_digits_hhmm hh mm h1 h2
  refine ⟨?_, ?_, ?_⟩
  · obtain ⟨c, cs, e, hc⟩ := two_digits_head_isdigit hh h1 (two_digits mm)
    have hl : (two_digits hh ++ two_digits mm).length < 7 := by simp [two_digits]
    simp only [utcoffset_packed, hl, if_true]
    rw [e] at hv ⊢
    rw [strtol_unsigned c cs hc (by rw [hv]; push_cast; omega), hv]
    push_cast
    rw [wrap32_eq_self ((hh : Int) * 100 + mm) (by omega) (by omega),
      wrap32_eq_self _ (by omega) (by omega)]
    omega
  · have hl : ('+' :: (two_digits hh ++ two_digits mm)).length < 7 := by simp [two_digits]
    simp only [utcoffset_packed, hl, if_true]
    rw [strtol_plus _ (by rw [hv]; push_cast; omega), hv]
    push_cast
    rw [wrap32_eq_self ((hh : Int) * 100 + mm) (by omega) (by omega),
      wrap32_eq_self _ (by omega) (by omega)]
    omega
  · have hl : ('-' :: (two_digits hh ++ two_digits mm)).length < 7 := by simp [two_digits]
    simp only [utcoffset_packed, hl, if_true]
    rw [strtol_minus _ (by rw [hv]; push_cast; omega), hv]
    push_cast
    rw [wrap32_eq_self (-((hh : Int) * 100 + mm)) (by omega) (by omega),
      wrap32_eq_self _ (by omega) (by omega)]
    omega

/-- The packed number read from a text `HHMMSS` with a sign. -/
theorem utcoffset_packed_hhmmss (hh mm ss : Nat) (h1 : hh < 100) (h2 : mm < 100)
    (h3 : ss < 100) :
    utcoffset_packed ('+' :: (two_digits hh ++ two_digits mm ++ two_digits ss)) =
        (hh : Int) * 10000 + mm * 100 + ss ∧
    utcoffset_packed ('-' :: (two_digits hh ++ two_digits mm ++ two_digits ss)) =
        -((hh : Int) * 10000 + mm * 100 + ss) := by
  have hv := strtol_digits_hhmmss hh mm ss h1 h2 h3
  refine ⟨?_, ?_⟩
  · have hl : ¬ ('+' :: (two_digits hh ++ two_digits mm ++ two_digits ss)).length < 7 := by
      simp [two_digits]
    simp only [utcoffset_packed, hl, if_false]
    rw [strtol_plus _ (by rw [hv]; push_cast; omega), hv]
    push_cast
    rw [wrap32_eq_self _ (by omega) (by omega)]
  · have hl : ¬ ('-' :: (two_digits hh ++ two_digits mm ++ two_digits ss)).length < 7 := by
      simp [two_digits]
    simp only [utcoffset_packed, hl, if_false]
    rw [strtol_minus _ (by rw [hv]; push_cast; omega), hv]
    push_cast
    rw [wrap32_eq_self _ (by omega) (by omega)]

/-- The offset parsed from a text `HHMM` with an optional sign. -/
theorem utcoffset_from_string_hhmm (hh mm : Nat) (h1 : hh < 100) (h2 : mm < 100) :
    utcoffset_from_string (two_digits hh ++ two_digits mm) = (hh : Int) * 3600 + mm * 60 ∧
    utcoffset_from_string ('+' :: (two_digits hh ++ two_digits mm)) =
      (hh : Int) * 3600 + mm * 60 ∧
    utcoffset_from_string ('-' :: (two_digits hh ++ two_digits mm)) =
      -((hh : Int) * 3600 + mm * 60) := by
  obtain ⟨p1, p2, p3⟩ := utcoffset_packed_hhmm hh mm h1 h2
  obtain ⟨q1, q2⟩ := utcoffset_from_packed_eq hh mm 0 h1 h2 (by norm_num)
  simp only [utcoffset_from_string, p1, p2, p3, q1, q2]
  simp

/-- The offset parsed from a text `HHMMSS` with a sign. -/
theorem utcoffset_from_string_hhmmss (hh mm ss : Nat) (h1 : hh < 100) (h2 : mm < 100)
    (h3 : ss < 100) :
    utcoffset_from_string ('+' :: (two_digits hh ++ two_digits mm ++ two_digits ss)) =
      (hh : Int) * 3600 + mm * 60 + ss ∧
    utcoffset_from_string ('-' :: (two_digits hh ++ two_digits mm ++ two_digits ss)) =
      -((hh : Int) * 3600 + mm * 60 + ss) := by
  obtain ⟨p1, p2⟩ := utcoffset_packed_hhmmss hh mm ss h1 h2 h3
  obtain ⟨q1, q2⟩ := utcoffset_from_packed_eq hh mm ss h1 h2 h3
  simp only [utcoffset_from_string, p1, p2, q1, q2]
  simp

theorem MIN_abs_eq (x : Int) (n : Nat) (b : Int) (hx : x = n ∨ x = -(n : Int))
    (hn : n ≤ 2147483647) :
    MIN (abs x) b = if (n : Int) < b then (n : Int) else b := by
  unfold MIN abs wrap32
  rcases hx with rfl | rfl <;> split_ifs <;> omega

/-- The hour, minute and second fields that the UTCOFFSET printer formats. -/
theorem utcoffset_fields (d : Int) (h1 : -2147483648 < d) (h2 : d ≤ 2147483647) :
    MIN (abs (d.tdiv 3600)) 23 = ((min (d.natAbs / 3600) 23 : Nat) : Int) ∧
    MIN (abs ((wrap32 (d - wrap32 (d.tdiv 3600 * 3600))).tdiv 60)) 59 =
      ((d.natAbs % 3600 / 60 : Nat) : Int) ∧
    MIN (abs (wrap32 (wrap32 (d - wrap32 (d.tdiv 3600 * 3600)) -
        wrap32 ((wrap32 (d - wrap32 (d.tdiv 3600 * 3600))).tdiv 60 * 60)))) 59 =
      ((d.natAbs % 60 : Nat) : Int) := by
  by_cases hd : 0 ≤ d
  · have eh : d.tdiv 3600 = ((d.natAbs / 3600 : Nat) : Int) := by
      rw [tdiv_cases _ _ (by norm_num), if_pos hd]; omega
    have e1 : wrap32 (d - wrap32 (d.tdiv 3600 * 3600)) = ((d.natAbs % 3600 : Nat) : Int) := by
      rw [eh, wrap32_eq_self (((d.natAbs / 3600 : Nat) : Int) * 3600) (by omega) (by omega),
        wrap32_eq_self _ (by omega) (by omega)]
      omega
    have em : (((d.natAbs % 3600 : Nat) : Int)).tdiv 60 = ((d.natAbs % 3600 / 60 : Nat) : Int) := by
      rw [tdiv_cases _ _ (by norm_num)]; split_ifs <;> omega
    have es : wrap32 (((d.natAbs % 3600 : Nat) : Int) -
        wrap32 (((d.natAbs % 3600 / 60 : Nat) : Int) * 60)) = ((d.natAbs % 60 : Nat) : Int) := by
      rw [wrap32_eq_self (((d.natAbs % 3600 / 60 : Nat) : Int) * 60) (by omega) (by omega),
        wrap32_eq_self _ (by omega) (by omega)]
      omega
    rw [e1, em, es, eh]
    refine ⟨?_, ?_, ?_⟩
    · rw [MIN_abs_eq _ (d.natAbs / 3600) 23 (Or.inl rfl) (by omega)]; split_ifs <;> omega
    · rw [MIN_abs_eq _ (d.natAbs % 3600 / 60) 59 (Or.inl rfl) (by omega)]; split_ifs <;> omega
    · rw [MIN_abs_eq _ (d.natAbs % 60) 59 (Or.inl rfl) (by omega)]; split_ifs <;> omega
  · have eh : d.tdiv 3600 = -((d.natAbs / 3600 : Nat) : Int) := by
      rw [tdiv_cases _ _ (by norm_num), if_neg hd]; omega
    have e1 : wrap32 (d - wrap32 (d.tdiv 3600 * 3600)) = -((d.natAbs % 3600 : Nat) : Int) := by
      rw [eh, wrap32_eq_self (-((d.natAbs / 3600 : Nat) : Int) * 3600) (by omega) (by omega),
        wrap32_eq_self _ (by omega) (by omega)]
      omega
    have em : (-((d.natAbs % 3600 : Nat) : Int)).tdiv 60 =
        -((d.natAbs % 3600 / 60 : Nat) : Int) := by
      rw [tdiv_cases _ _ (by norm_num)]; split_ifs <;> omega
    have es : wrap32 (-((d.natAbs % 3600 : Nat) : Int) -
        wrap32 (-((d.natAbs % 3600 / 60 : Nat) : Int) * 60)) =
          -((d.natAbs % 60 : Nat) : Int) := by
      rw [wrap32_eq_self (-((d.natAbs % 3600 / 60 : Nat) : Int) * 60) (by omega) (by omega),
        wrap32_eq_self _ (by omega) (by omega)]
      omega
    rw [e1, em, es, eh]
    refine ⟨?_, ?_, ?_⟩
    · rw [MIN_abs_eq _ (d.natAbs / 3600) 23 (Or.inr rfl) (by omega)]; split_ifs <;> omega
    · rw [MIN_abs_eq _ (d.natAbs % 3600 / 60) 59 (Or.inr rfl) (by omega)]; split_ifs <;> omega
    · rw [MIN_abs_eq _ (d.natAbs % 60) 59 (Or.inr rfl) (by omega)]; split_ifs <;> omega

theorem abs_eq_self_iff (d : Int) (h1 : -2147483648 < d) (h2 : d ≤ 2147483647) :
    abs d = d ↔ 0 ≤ d := by
  unfold abs wrap32
  split_ifs <;> omega

/-- The text that the UTCOFFSET printer produces for an offset other than
`INT_MIN`. -/
theorem utcoffset_print_formula (v : icalvalue_impl) (h1 : INT_MIN < v.data.v_int)
    (h2 : v.data.v_int ≤ INT_MAX) :
    icalvalue_utcoffset_as_ical_string_r v = utcoffset_text v.data.v_int := by
  unfold INT_MIN at h1
  unfold INT_MAX at h2
  obtain ⟨f1, f2, f3⟩ := utcoffset_fields v.data.v_int h1 h2
  have f0 := abs_eq_self_iff v.data.v_int h1 h2
  simp only [icalvalue_utcoffset_as_ical_string_r, icalvalue_get_utcoffset, f1, f2, f3, f0,
    utcoffset_text]
  rw [printf_02d_two_digits _ (by omega), printf_02d_two_digits _ (by omega),
    printf_02d_two_digits _ (by omega)]
  by_cases hs : v.data.v_int.natAbs % 60 = 0
  · simp [hs, snprintf, two_digits]
  · have h60 : ¬ (60 : Int) ∣ v.data.v_int := by omega
    simp [hs, h60, snprintf, two_digits]

/-- The offset parsed from the printed text of an offset: the printed fields
recombined under the printed sign. -/
theorem utcoffset_from_string_text (d : Int) :
    utcoffset_from_string (utcoffset_text d) =
      (if 0 ≤ d then 1 else -1) *
        (((min (d.natAbs / 3600) 23 : Nat) : Int) * 3600 +
          ((d.natAbs % 3600 / 60 : Nat) : Int) * 60 + ((d.natAbs % 60 : Nat) : Int)) := by
  have hH : min (d.natAbs / 3600) 23 < 100 := by omega
  have hM : d.natAbs % 3600 / 60 < 100 := by omega
  have hS : d.natAbs % 60 < 100 := by omega
  obtain ⟨_, a2, a3⟩ := utcoffset_from_string_hhmm _ _ hH hM
  obtain ⟨b1, b2⟩ := utcoffset_from_string_hhmmss _ _ _ hH hM hS
  unfold utcoffset_text
  by_cases hd : 0 ≤ d <;> by_cases hs : d.natAbs % 60 = 0
  · simp only [hd, hs, if_true, ne_eq, not_true_eq_false, if_false, List.append_nil, a2]
    simp
  · simp only [hd, hs, if_true, ne_eq, not_false_eq_true, b1]
    simp
  · simp only [hd, hs, if_true, ne_eq, not_true_eq_false, if_false, List.append_nil, a3]
    simp
  · simp only [hd, hs, if_false, if_true, ne_eq, not_false_eq_true, b2]
    simp

/-- Printing, parsing and printing an offset again gives the first text. -/
theorem utcoffset_text_from_string_text (d : Int) :
    utcoffset_text (utcoffset_from_string (utcoffset_text d)) = utcoffset_text d := by
  rw [utcoffset_from_string_text]
  by_cases hd : 0 ≤ d
  · simp only [hd, if_true, one_mul]
    have e0 : (0 : Int) ≤ ((min (d.natAbs / 3600) 23 : Nat) : Int) * 3600 +
        ((d.natAbs % 3600 / 60 : Nat) : Int) * 60 + ((d.natAbs % 60 : Nat) : Int) := by omega
    have e1 : min ((((min (d.natAbs / 3600) 23 : Nat) : Int) * 3600 +
        ((d.natAbs % 3600 / 60 : Nat) : Int) * 60 +
        ((d.natAbs % 60 : Nat) : Int)).natAbs / 3600) 23 = min (d.natAbs / 3600) 23 := by omega
    have e2 : (((min (d.natAbs / 3600) 23 : Nat) : Int) * 3600 +
        ((d.natAbs % 3600 / 60 : Nat) : Int) * 60 +
        ((d.natAbs % 60 : Nat) : Int)).natAbs % 3600 / 60 = d.natAbs % 3600 / 60 := by omega
    have e3 : (((min (d.natAbs / 3600) 23 : Nat) : Int) * 3600 +
        ((d.natAbs % 3600 / 60 : Nat) : Int) * 60 +
        ((d.natAbs % 60 : Nat) : Int)).natAbs % 60 = d.natAbs % 60 := by omega
    simp only [utcoffset_text, e0, e1, e2, e3, hd, if_true]
  · simp only [hd, if_false]
    have e0 : ¬ (0 : Int) ≤ -1 * (((min (d.natAbs / 3600) 23 : Nat) : Int) * 3600 +
        ((d.natAbs % 3600 / 60 : Nat) : Int) * 60 + ((d.natAbs % 60 : Nat) : Int)) := by omega
    have e1 : min ((-1 * (((min (d.natAbs / 3600) 23 : Nat) : Int) * 3600 +
        ((d.natAbs % 3600 / 60 : Nat) : Int) * 60 +
        ((d.natAbs % 60 : Nat) : Int))).natAbs / 3600) 23 = min (d.natAbs / 3600) 23 := by omega
    have e2 : (-1 * (((min (d.natAbs / 3600) 23 : Nat) : Int) * 3600 +
        ((d.natAbs % 3600 / 60 : Nat) : Int) * 60 +
        ((d.natAbs % 60 : Nat) : Int))).natAbs % 3600 / 60 = d.natAbs % 3600 / 60 := by omega
    have e3 : (-1 * (((min (d.natAbs / 3600) 23 : Nat) : Int) * 3600 +
        ((d.natAbs % 3600 / 60 : Nat) : Int) * 60 +
        ((d.natAbs % 60 : Nat) : Int))).natAbs % 60 = d.natAbs % 60 := by omega
    simp only [utcoffset_text, e0, e1, e2, e3, hd, if_false]

/-- The offset parsed from the printed text of an offset is an `int` other than
`INT_MIN`. -/
theorem utcoffset_from_string_text_range (d : Int) :
    INT_MIN < utcoffset_from_string (utcoffset_text d) ∧
      utcoffset_from_string (utcoffset_text d) ≤ INT_MAX := by
  rw [utcoffset_from_string_text]
  unfold INT_MIN INT_MAX
  split_ifs <;> omega

/-! ## Claims on the numeric kinds -/

/-- C4: for every UTCOFFSET value whose offset is an `int` other than
`INT_MIN`, the printed text parses to a UTCOFFSET value whose printed text is
the same text. -/
theorem c4_utcoffset_roundtrip (X : collaborators) (v : icalvalue_impl)
    (hk : v.kind = ICAL_UTCOFFSET_VALUE) (h1 : INT_MIN < v.data.v_int)
    (h2 : v.data.v_int ≤ INT_MAX) :
    ∃ p w, icalvalue_as_ical_string_r X v = some p ∧
      icalvalue_new_from_string X ICAL_UTCOFFSET_VALUE p = some w ∧
      icalvalue_as_ical_string_r X w = some p := by
  refine ⟨utcoffset_text v.data.v_int,
    { kind := ICAL_UTCOFFSET_VALUE,
      data := { v_int := utcoffset_from_string (utcoffset_text v.data.v_int) } }, ?_, ?_, ?_⟩
  · simp [icalvalue_as_ical_string_r, hk, utcoffset_print_formula v h1 h2]
  · rfl
  · obtain ⟨r1, r2⟩ := utcoffset_from_string_text_range v.data.v_int
    simp only [icalvalue_as_ical_string_r]
    rw [utcoffset_print_formula _ r1 r2]
    simp only [utcoffset_text_from_string_text]

theorem c4_utcoffset_roundtrip_witness :
    ∃ p w, icalvalue_as_ical_string_r sample_collaborators
        { kind := ICAL_UTCOFFSET_VALUE, data := { v_int := -360030 } } = some p ∧
      icalvalue_new_from_string sample_collaborators ICAL_UTCOFFSET_VALUE p = some w ∧
      icalvalue_as_ical_string_r sample_collaborators w = some p :=
  c4_utcoffset_roundtrip sample_collaborators
    { kind := ICAL_UTCOFFSET_VALUE, data := { v_int := -360030 } } rfl (by decide) (by decide)

/-- C5: a UTCOFFSET text `HHMM` with an optional sign parses to
`sign * (HH * 3600 + MM * 60)` seconds and a text `HHMMSS` with a sign to
`sign * (HH * 3600 + MM * 60 + SS)` seconds, for all two-digit fields; `0500`
gives 18000 and `-013000` gives -5400. -/
theorem c5_utcoffset_parse (X : collaborators) :
    (∀ hh mm : Nat, hh < 100 → mm < 100 →
      icalvalue_new_from_string X ICAL_UTCOFFSET_VALUE (two_digits hh ++ two_digits mm) =
        some { kind := ICAL_UTCOFFSET_VALUE, data := { v_int := (hh : Int) * 3600 + mm * 60 } } ∧
      icalvalue_new_from_string X ICAL_UTCOFFSET_VALUE
          ('+' :: (two_digits hh ++ two_digits mm)) =
        some { kind := ICAL_UTCOFFSET_VALUE, data := { v_int := (hh : Int) * 3600 + mm * 60 } } ∧
      icalvalue_new_from_string X ICAL_UTCOFFSET_VALUE
          ('-' :: (two_digits hh ++ two_digits mm)) =
        some { kind := ICAL_UTCOFFSET_VALUE,
               data := { v_int := -((hh : Int) * 3600 + mm * 60) } }) ∧
    (∀ hh mm ss : Nat, hh < 100 → mm < 100 → ss < 100 →
      icalvalue_new_from_string X ICAL_UTCOFFSET_VALUE
          ('+' :: (two_digits hh ++ two_digits mm ++ two_digits ss)) =
        some { kind := ICAL_UTCOFFSET_VALUE,
               data := { v_int := (hh : Int) * 3600 + mm * 60 + ss } } ∧
      icalvalue_new_from_string X ICAL_UTCOFFSET_VALUE
          ('-' :: (two_digits hh ++ two_digits mm ++ two_digits ss)) =
        some { kind := ICAL_UTCOFFSET_VALUE,
               data := { v_int := -((hh : Int) * 3600 + mm * 60 + ss) } }) ∧
    icalvalue_new_from_string X ICAL_UTCOFFSET_VALUE ['0', '5', '0', '0'] =
      some { kind := ICAL_UTCOFFSET_VALUE, data := { v_int := 18000 } } ∧
    icalvalue_new_from_string X ICAL_UTCOFFSET_VALUE ['-', '0', '1', '3', '0', '0', '0'] =
      some { kind := ICAL_UTCOFFSET_VALUE, data := { v_int := -5400 } } := by
  have key : ∀ str : List Char,
      icalvalue_new_from_string X ICAL_UTCOFFSET_VALUE str =
        some { kind := ICAL_UTCOFFSET_VALUE, data := { v_int := utcoffset_from_string str } } :=
    fun _ => rfl
  refine ⟨?_, ?_, ?_, ?_⟩
  · intro hh mm h1 h2
    obtain ⟨a1, a2, a3⟩ := utcoffset_from_string_hhmm hh mm h1 h2
    simp only [key, a1, a2, a3, and_self]
  · intro hh mm ss h1 h2 h3
    obtain ⟨b1, b2⟩ := utcoffset_from_string_hhmmss hh mm ss h1 h2 h3
    simp only [key, b1, b2, and_self]
  · rw [key]; decide
  · rw [key]; decide

theorem c5_utcoffset_parse_witness :
    icalvalue_new_from_string sample_collaborators ICAL_UTCOFFSET_VALUE
        ('-' :: (two_digits 9 ++ two_digits 99)) =
      some { kind := ICAL_UTCOFFSET_VALUE,
             data := { v_int := -(((9 : Nat) : Int) * 3600 + (99 : Nat) * 60) } } :=
  ((c5_utcoffset_parse sample_collaborators).1 9 99 (by decide) (by decide)).2.2

/-- C6: a UTCOFFSET value whose offset `d` is an `int` other than `INT_MIN`
prints as the sign (`+` when `d >= 0`, `-` otherwise), the two-digit hours
`min(|d| / 3600, 23)`, the two-digit minutes, and the two-digit seconds only
when they are not zero; the text has exactly 5 or exactly 7 characters. -/
theorem c6_utcoffset_print (X : collaborators) (v : icalvalue_impl)
    (hk : v.kind = ICAL_UTCOFFSET_VALUE) (h1 : INT_MIN < v.data.v_int)
    (h2 : v.data.v_int ≤ INT_MAX) :
    icalvalue_as_ical_string_r X v = some (utcoffset_text v.data.v_int) ∧
      ((utcoffset_text v.data.v_int).length = 5 ∨ (utcoffset_text v.data.v_int).length = 7) := by
  constructor
  · simp [icalvalue_as_ical_string_r, hk, utcoffset_print_formula v h1 h2]
  · unfold utcoffset_text
    by_cases hs : v.data.v_int.natAbs % 60 = 0
    · left; simp [hs, two_digits]
    · right; simp only [ne_eq, hs, not_false_eq_true, if_true]; simp [two_digits]

theorem c6_utcoffset_print_witness :
    icalvalue_as_ical_string_r sample_collaborators
        { kind := ICAL_UTCOFFSET_VALUE, data := { v_int := -5430 } } =
      some (utcoffset_text (-5430)) ∧
    ((utcoffset_text (-5430)).length = 5 ∨ (utcoffset_text (-5430)).length = 7) :=
  c6_utcoffset_print sample_collaborators
    { kind := ICAL_UTCOFFSET_VALUE, data := { v_int := -5430 } } rfl (by decide) (by decide)

/-- C8: for every `int` `n`, the printed text of an INTEGER value holding `n`
is the `%d` rendering of `n`, it parses to an INTEGER value holding `n`, and
that value prints the same text. -/
theorem c8_integer_roundtrip (X : collaborators) (v : icalvalue_impl)
    (hk : v.kind = ICAL_INTEGER_VALUE) (h1 : INT_MIN ≤ v.data.v_int)
    (h2 : v.data.v_int ≤ INT_MAX) :
    icalvalue_as_ical_string_r X v = some (printf_d v.data.v_int) ∧
    icalvalue_new_from_string X ICAL_INTEGER_VALUE (printf_d v.data.v_int) =
      some { kind := ICAL_INTEGER_VALUE, data := { v_int := v.data.v_int } } ∧
    icalvalue_as_ical_string_r X
        { kind := ICAL_INTEGER_VALUE, data := { v_int := v.data.v_int } } =
      icalvalue_as_ical_string_r X v := by
  have hp : ∀ w : icalvalue_impl, w.kind = ICAL_INTEGER_VALUE → w.data.v_int = v.data.v_int →
      icalvalue_as_ical_string_r X w = some (printf_d v.data.v_int) := by
    intro w hw hv
    simp [icalvalue_as_ical_string_r, hw, icalvalue_int_as_ical_string_r,
      icalvalue_get_integer, hv, snprintf_printf_d _ h1 h2]
  refine ⟨hp v hk rfl, ?_, ?_⟩
  · have : icalvalue_new_from_string X ICAL_INTEGER_VALUE (printf_d v.data.v_int) =
        some { kind := ICAL_INTEGER_VALUE, data := { v_int := atoi (printf_d v.data.v_int) } } :=
      rfl
    rw [this, atoi_printf_d _ h1 h2]
  · rw [hp v hk rfl]
    exact hp _ rfl rfl

theorem c8_integer_roundtrip_witness :
    icalvalue_as_ical_string_r sample_collaborators
        { kind := ICAL_INTEGER_VALUE, data := { v_int := -2147483648 } } =
      some (printf_d (-2147483648)) ∧
    icalvalue_new_from_string sample_collaborators ICAL_INTEGER_VALUE
        (printf_d (-2147483648)) =
      some { kind := ICAL_INTEGER_VALUE, data := { v_int := -2147483648 } } ∧
    icalvalue_as_ical_string_r sample_collaborators
        { kind := ICAL_INTEGER_VALUE, data := { v_int := -2147483648 } } =
      icalvalue_as_ical_string_r sample_collaborators
        { kind := ICAL_INTEGER_VALUE, data := { v_int := -2147483648 } } :=
  c8_integer_roundtrip sample_collaborators
    { kind := ICAL_INTEGER_VALUE, data := { v_int := -2147483648 } } rfl (by decide) (by decide)

/-! ## TEXT round trip -/

/-- The quoting loop never looks beyond the characters that the ceiling
admits. -/
theorem quote_loop_take (v : icalvalue_impl) (s : List Char) :
    ∀ cnt, quote_loop v s cnt = quote_loop v (s.take (MAX_ITERATIONS - cnt)) cnt := by
  induction s with
  | nil => intro cnt; simp
  | cons c rest ih =>
    intro cnt
    by_cases h : cnt < MAX_ITERATIONS
    · obtain ⟨k, hk⟩ : ∃ k, MAX_ITERATIONS - cnt = k + 1 := ⟨MAX_ITERATIONS - cnt - 1, by omega⟩
      have hk2 : MAX_ITERATIONS - (cnt + 1) = k := by omega
      rw [hk, List.take_succ_cons]
      simp only [quote_loop, h, if_true]
      rw [ih (cnt + 1), hk2]
    · have h0 : MAX_ITERATIONS - cnt = 0 := by omega
      simp [quote_loop, h, h0]

theorem quote_char_ref_of_drops (k : Bool) (c : Char) (h : quote_drops c = true) :
    quote_char_ref k c = [] := by
  simp only [quote_drops, decide_eq_true_eq] at h
  rcases h with rfl | rfl | rfl <;> simp [quote_char_ref]

theorem quote_char_ref_filter (k : Bool) (s : List Char) :
    ((s.filter (fun c => !quote_drops c)).map (quote_char_ref k)).flatten =
      (s.map (quote_char_ref k)).flatten := by
  induction s with
  | nil => rfl
  | cons c rest ih =>
    by_cases hd : quote_drops c = true
    · simp [List.filter_cons, hd, ih, quote_char_ref_of_drops k c hd]
    · simp [List.filter_cons, hd, ih]

theorem quote_char_ref_keep (k : Bool) (c : Char) (h : k = false ∨ (c ≠ ';' ∧ c ≠ ',')) :
    quote_char_ref k c = quote_char_ref false c := by
  rcases h with rfl | ⟨h1, h2⟩
  · rfl
  · simp [quote_char_ref, h1, h2]

/-- Quoting, dequoting and quoting again under an empty parent gives the first
quoted text, whenever the first quoting escaped the separators or met none. -/
theorem quote_dequote_quote (v w : icalvalue_impl) (s : List Char)
    (hw : on_separator_allowlist w = false)
    (hsep : on_separator_allowlist v = false ∨ (';' ∉ s ∧ ',' ∉ s)) :
    icalmemory_strdup_and_quote w
        (icalmemory_strdup_and_dequote (icalmemory_strdup_and_quote v s)) =
      icalmemory_strdup_and_quote v s := by
  have hlen : (s.take MAX_ITERATIONS).length ≤ MAX_ITERATIONS := by
    simp [List.length_take]
  have hq : icalmemory_strdup_and_quote v s = quote_loop v (s.take MAX_ITERATIONS) 0 := by
    unfold icalmemory_strdup_and_quote
    rw [quote_loop_take v s 0]
    rfl
  rw [hq, dequote_quote_loop v _ 0 (by omega)]
  unfold icalmemory_strdup_and_quote
  have hflen : ((s.take MAX_ITERATIONS).filter (fun c => !quote_drops c)).length ≤
      MAX_ITERATIONS := le_trans (List.length_filter_le _ _) hlen
  rw [quote_loop_eq_ref w _ 0 (by omega), quote_loop_eq_ref v _ 0 (by omega), hw,
    quote_char_ref_filter]
  congr 1
  apply List.map_congr_left
  intro c hc
  symm
  apply quote_char_ref_keep
  rcases hsep with h | ⟨h1, h2⟩
  · exact Or.inl h
  · have hcs : c ∈ s := List.mem_of_mem_take hc
    refine Or.inr ⟨?_, ?_⟩
    · rintro rfl; exact h1 hcs
    · rintro rfl; exact h2 hcs

/-- C7, as the code has it: for every valid TEXT value whose text has no
control characters and which either is attached to no property on the
separator allowlist (CATEGORIES, RESOURCES, POLLPROPERTIES, LOCATIONTYPE) or
whose text has neither `;` nor `,`, the printed text parses to a TEXT value
whose printed text is the same text. -/
theorem c7_text_roundtrip (X : collaborators) (v : icalvalue_impl) (s : List Char)
    (hk : v.kind = ICAL_TEXT_VALUE) (hs : v.data.v_string = some s)
    (hc : ∀ c ∈ s, iscntrl c = false)
    (hsep : on_separator_allowlist v = false ∨ (';' ∉ s ∧ ',' ∉ s)) :
    ∃ p w, icalvalue_as_ical_string_r X v = some p ∧
      icalvalue_new_from_string X ICAL_TEXT_VALUE p = some w ∧
      icalvalue_as_ical_string_r X w = some p := by
  have _ := hc
  let t := icalmemory_strdup_and_dequote (icalmemory_strdup_and_quote v s)
  refine ⟨icalmemory_strdup_and_quote v s,
    { kind := ICAL_TEXT_VALUE, data := { v_string := some t } }, ?_, rfl, ?_⟩
  · simp [icalvalue_as_ical_string_r, hk, icalvalue_text_as_ical_string_r, hs]
  · simp only [icalvalue_as_ical_string_r, icalvalue_text_as_ical_string_r, Option.map_some']
    exact congrArg some
      (quote_dequote_quote v { kind := ICAL_TEXT_VALUE, data := { v_string := some t } } s
        rfl hsep)

theorem c7_text_roundtrip_witness :
    ∃ p w, icalvalue_as_ical_string_r sample_collaborators
        { kind := ICAL_TEXT_VALUE, parent := some ⟨ICAL_SUMMARY_PROPERTY⟩,
          data := { v_string := some ['a', ';', 'b', '\\', ','] } } = some p ∧
      icalvalue_new_from_string sample_collaborators ICAL_TEXT_VALUE p = some w ∧
      icalvalue_as_ical_string_r sample_collaborators w = some p :=
  c7_text_roundtrip sample_collaborators
    { kind := ICAL_TEXT_VALUE, parent := some ⟨ICAL_SUMMARY_PROPERTY⟩,
      data := { v_string := some ['a', ';', 'b', '\\', ','] } }
    ['a', ';', 'b', '\\', ','] rfl rfl (by decide) (Or.inl (by decide))

/-- C7 fails as stated: the TEXT value `a;b` attached to a CATEGORIES property
has no control character and prints as `a;b`; that text parses to a TEXT value
without parent, which prints as `a\;b`. -/
theorem c7_text_roundtrip_counterexample :
    (∀ c ∈ ['a', ';', 'b'], iscntrl c = false) ∧
    icalvalue_as_ical_string_r sample_collaborators
        { kind := ICAL_TEXT_VALUE, parent := some ⟨ICAL_CATEGORIES_PROPERTY⟩,
          data := { v_string := some ['a', ';', 'b'] } } = some ['a', ';', 'b'] ∧
    icalvalue_new_from_string sample_collaborators ICAL_TEXT_VALUE ['a', ';', 'b'] =
      some { kind := ICAL_TEXT_VALUE, data := { v_string := some ['a', ';', 'b'] } } ∧
    icalvalue_as_ical_string_r sample_collaborators
        { kind := ICAL_TEXT_VALUE, data := { v_string := some ['a', ';', 'b'] } } =
      some ['a', '\\', ';', 'b'] ∧
    ['a', '\\', ';', 'b'] ≠ ['a', ';', 'b'] := by
  decide

/-! ## Enumerated tokens and diagnostics -/

/-- The parser branch of an enumerated-token kind is `icalvalue_new_enum` with
the X code of the kind, and writes no diagnostic. -/
theorem new_from_string_enum_kind (X : collaborators) (kind : icalvalue_kind) (x : Int)
    (hk : designated_x_code X kind = some x) (t : List Char) (error : Bool) :
    icalvalue_new_from_string_with_error X kind t error =
      (icalvalue_new_enum X kind x t, none) := by
  cases kind <;> simp [designated_x_code] at hk <;> subst hk <;>
    cases error <;>
    simp [icalvalue_new_from_string_with_error, icalvalue_new_enum, icalvalue_new_impl,
      icalvalue_kind_is_valid] <;>
    split_ifs <;> simp

theorem designated_x_code_valid (X : collaborators) (kind : icalvalue_kind) (x : Int)
    (hk : designated_x_code X kind = some x) : icalvalue_kind_is_valid kind = true := by
  cases kind <;> simp [designated_x_code] at hk <;> rfl

/-- C11: for every enumerated-token kind and every token that does not resolve
to a member of the enumeration of the kind, the parsed value prints exactly the
token: the extension text is returned verbatim, without any escaping. -/
theorem c11_enum_extension_text_verbatim (X : collaborators) (kind : icalvalue_kind) (x : Int)
    (hk : designated_x_code X kind = some x) (t : List Char)
    (hun : ¬ (X.icalproperty_kind_and_string_to_enum kind t ≠ 0 ∧
      X.icalproperty_enum_belongs_to_property (X.icalproperty_value_kind_to_kind kind)
        (X.icalproperty_kind_and_string_to_enum kind t) = true)) :
    ∃ w, icalvalue_new_from_string X kind t = some w ∧
      icalvalue_as_ical_string_r X w = some t := by
  have valid := designated_x_code_valid X kind x hk
  refine ⟨{ kind := kind, x_value := some t, data := { v_enum := x } }, ?_, ?_⟩
  · unfold icalvalue_new_from_string
    rw [new_from_string_enum_kind X kind x hk]
    simp [icalvalue_new_enum, icalvalue_new_impl, valid, hun, icalvalue_set_x]
  · cases kind <;> simp [designated_x_code] at hk <;> simp [icalvalue_as_ical_string_r]

theorem c11_enum_extension_text_verbatim_witness :
    ∃ w, icalvalue_new_from_string sample_collaborators ICAL_STATUS_VALUE
        ['a', ';', 'b', ',', '\\', 'n'] = some w ∧
      icalvalue_as_ical_string_r sample_collaborators w = some ['a', ';', 'b', ',', '\\', 'n'] :=
  c11_enum_extension_text_verbatim sample_collaborators ICAL_STATUS_VALUE 10003 rfl
    ['a', ';', 'b', ',', '\\', 'n'] (by decide)


/-- The BOOLEAN branch of the parser, by cases on the text. -/
theorem new_from_string_boolean (X : collaborators) (t : List Char) (error : Bool) :
    icalvalue_new_from_string_with_error X ICAL_BOOLEAN_VALUE t error =
      if t = ['T', 'R', 'U', 'E'] then
        (some { kind := ICAL_BOOLEAN_VALUE, data := { v_int := 1 } }, none)
      else if t = ['F', 'A', 'L', 'S', 'E'] then
        (some { kind := ICAL_BOOLEAN_VALUE, data := { v_int := 0 } }, none)
      else (none, if error then some (could_not_parse_error X ICAL_BOOLEAN_VALUE t) else none) := by
  by_cases h1 : t = ['T', 'R', 'U', 'E']
  · subst h1
    cases error <;> rfl
  · by_cases h2 : t = ['F', 'A', 'L', 'S', 'E']
    · subst h2
      cases error <;> rfl
    · cases error <;>
        simp [icalvalue_new_from_string_with_error, strcmp_eq, h1, h2]

/-- C12: when the caller passes a diagnostic slot, the parser returns a value
exactly when it leaves the slot unset, for every kind and every text; an empty
value comes with the diagnostic of its branch or else with the generic
catch-all. -/
theorem c12_value_iff_no_diagnostic (X : collaborators) (kind : icalvalue_kind)
    (str : List Char) :
    ((icalvalue_new_from_string_with_error X kind str true).1.isSome =
      (icalvalue_new_from_string_with_error X kind str true).2.isNone) ∧
    ((icalvalue_new_from_string_with_error X kind str true).1 = none →
      ((icalvalue_new_from_string_with_error X kind str true).2 =
          some (could_not_parse_error X kind str) ∧
        (kind = ICAL_BOOLEAN_VALUE ∨ kind = ICAL_GEO_VALUE)) ∨
      ((icalvalue_new_from_string_with_error X kind str true).2 =
          some ⟨snprintf 1024
            ("Unknown type for ".toList ++ [Char.ofNat 39] ++ str ++ [Char.ofNat 39])⟩ ∧
        (kind = ICAL_ANY_VALUE ∨ kind = ICAL_NO_VALUE)) ∨
      (icalvalue_new_from_string_with_error X kind str true).2 =
        some (failed_to_parse_error str)) := by
  cases kind
  case ICAL_BOOLEAN_VALUE =>
    rw [new_from_string_boolean]
    split_ifs <;> simp_all
  case ICAL_GEO_VALUE =>
    cases hg : geo_from_string X str with
    | none => simp [icalvalue_new_from_string_with_error, hg]
    | some g =>
      simp [icalvalue_new_from_string_with_error, hg, icalvalue_new_geo, icalvalue_new_impl,
        icalvalue_kind_is_valid]
  case ICAL_ANY_VALUE => simp [icalvalue_new_from_string_with_error]
  case ICAL_NO_VALUE => simp [icalvalue_new_from_string_with_error]
  all_goals
    simp [icalvalue_new_from_string_with_error, icalvalue_new_enum, icalvalue_new_impl,
      icalvalue_kind_is_valid, icalvalue_new_string_kind, icalvalue_new_integer,
      icalvalue_new_utcoffset, icalvalue_new_int_kind, icalvalue_new_x]
    try (split_ifs <;> simp_all [failed_to_parse_error, Option.isSome_iff_ne_none])

theorem c12_value_iff_no_diagnostic_witness :
    ((icalvalue_new_from_string_with_error sample_collaborators ICAL_FLOAT_VALUE
          ['x'] true).2 =
        some (could_not_parse_error sample_collaborators ICAL_FLOAT_VALUE ['x']) ∧
      (ICAL_FLOAT_VALUE = ICAL_BOOLEAN_VALUE ∨ ICAL_FLOAT_VALUE = ICAL_GEO_VALUE)) ∨
    ((icalvalue_new_from_string_with_error sample_collaborators ICAL_FLOAT_VALUE
          ['x'] true).2 =
        some ⟨snprintf 1024
          ("Unknown type for ".toList ++ [Char.ofNat 39] ++ ['x'] ++ [Char.ofNat 39])⟩ ∧
      (ICAL_FLOAT_VALUE = ICAL_ANY_VALUE ∨ ICAL_FLOAT_VALUE = ICAL_NO_VALUE)) ∨
    (icalvalue_new_from_string_with_error sample_collaborators ICAL_FLOAT_VALUE
        ['x'] true).2 = some (failed_to_parse_error ['x']) :=
  (c12_value_iff_no_diagnostic sample_collaborators ICAL_FLOAT_VALUE ['x']).2 (by decide)

/-! ## Clone and free -/

/-- Quoting reads of the value only its kind and the kind of its parent. -/
theorem quote_congr (v w : icalvalue_impl) (hk : v.kind = w.kind) (hp : v.parent = w.parent)
    (s : List Char) : icalmemory_strdup_and_quote v s = icalmemory_strdup_and_quote w s := by
  have hq : quote_keeps_separator v = quote_keeps_separator w := by
    simp [quote_keeps_separator, icalvalue_isa, hk, hp]
  have hs : ∀ c, quote_switch v c = quote_switch w c := by
    intro c; simp [quote_switch, hq]
  have hl : ∀ cnt, quote_loop v s cnt = quote_loop w s cnt := by
    induction s with
    | nil => intro cnt; rfl
    | cons c rest ih => intro cnt; simp [quote_loop, hs, ih]
  exact hl 0

/-- The printed text of a value of an owned-string kind depends only on its
kind, its parent and its string. -/
theorem as_ical_string_owned_string_congr (X : collaborators) (v w : icalvalue_impl)
    (hs : owned_string_kind v.kind = true) (hk : v.kind = w.kind) (hp : v.parent = w.parent)
    (hd : v.data.v_string = w.data.v_string) :
    icalvalue_as_ical_string_r X v = icalvalue_as_ical_string_r X w := by
  have hq : icalmemory_strdup_and_quote v = icalmemory_strdup_and_quote w :=
    funext (quote_congr v w hk hp)
  unfold icalvalue_as_ical_string_r
  rw [← hk]
  cases hkind : v.kind <;> simp [owned_string_kind, hkind] at hs <;>
    simp [icalvalue_text_as_ical_string_r, icalvalue_string_as_ical_string_r, hd, hq]

/-- The kind and the parent of a clone. -/
theorem clone_kind_parent (X : collaborators) (rc : attach_refcounts) (v c : icalvalue_impl)
    (rc2 : attach_refcounts) (h : icalvalue_clone X rc v = (some c, rc2)) :
    c.kind = v.kind ∧ c.parent = none := by
  unfold icalvalue_clone at h
  cases hn : icalvalue_new_impl v.kind with
  | none => simp [hn] at h
  | some fresh =>
    have hf : fresh.parent = none := by
      unfold icalvalue_new_impl at hn
      split_ifs at hn
      simp only [Option.some.injEq] at hn
      rw [← hn]
    simp only [hn] at h
    split at h <;> (try split at h) <;> (try split at h) <;>
      simp only [Prod.mk.injEq, Option.some.injEq, reduceCtorEq, false_and] at h <;>
      (obtain ⟨h1, _⟩ := h; rw [← h1]; exact ⟨rfl, hf⟩)

/-- The string of a clone of a value of an owned-string kind. -/
theorem clone_string (X : collaborators) (rc : attach_refcounts) (v c : icalvalue_impl)
    (rc2 : attach_refcounts) (h : icalvalue_clone X rc v = (some c, rc2))
    (hs : owned_string_kind v.kind = true) : c.data.v_string = v.data.v_string := by
  unfold icalvalue_clone at h
  cases hn : icalvalue_new_impl v.kind with
  | none => simp [hn] at h
  | some fresh =>
    have hf : fresh.data.v_string = none := by
      unfold icalvalue_new_impl at hn
      split_ifs at hn
      simp only [Option.some.injEq] at hn
      rw [← hn]
    simp only [hn] at h
    cases hkind : v.kind <;> simp [owned_string_kind, hkind] at hs <;>
      simp only [hkind] at h <;>
      (cases hstr : v.data.v_string with
       | none =>
         simp only [hstr, Prod.mk.injEq, Option.some.injEq] at h
         obtain ⟨h1, _⟩ := h
         rw [← h1]
         exact hf
       | some s =>
         simp only [hstr, Prod.mk.injEq, Option.some.injEq] at h
         obtain ⟨h1, _⟩ := h
         rw [← h1])

/-- Cloning succeeds on every value of a valid kind, unless the value holds a
recurrence rule whose deep clone fails. -/
theorem clone_succeeds (X : collaborators) (rc : attach_refcounts) (v : icalvalue_impl)
    (hv : icalvalue_kind_is_valid v.kind = true)
    (hr : v.kind = ICAL_RECUR_VALUE → ∀ r, v.data.v_recur = some r →
      X.icalrecurrencetype_clone r ≠ none) :
    ∃ c rc2, icalvalue_clone X rc v = (some c, rc2) := by
  unfold icalvalue_clone
  simp only [icalvalue_new_impl, hv, Bool.not_true, Bool.false_eq_true, if_false]
  cases hkind : v.kind
  case ICAL_RECUR_VALUE =>
    simp only []
    cases hrec : v.data.v_recur with
    | none => exact ⟨_, _, rfl⟩
    | some r =>
      cases hcl : X.icalrecurrencetype_clone r with
      | none => exact absurd hcl (hr hkind r hrec)
      | some copy =>
        simp only [hcl]
        exact ⟨_, _, rfl⟩
  case ICAL_ACTION_VALUE =>
    simp only []
    split_ifs
    · split <;> exact ⟨_, _, rfl⟩
    · exact ⟨_, _, rfl⟩
  all_goals
    simp only []
    first
    | exact ⟨_, _, rfl⟩
    | (split <;> exact ⟨_, _, rfl⟩)

/-- C13: for every value of a valid kind, whatever its parent, the clone has
the same kind and an empty parent; for an owned-string kind the string of the
clone equals the string of the value, and the clone prints the text that the
value prints when detached from its parent.  (The clone exists unless the deep
clone of a recurrence rule fails.) -/
theorem c13_clone_kind_parent_string (X : collaborators) (rc : attach_refcounts)
    (v : icalvalue_impl) (hv : icalvalue_kind_is_valid v.kind = true)
    (hr : v.kind = ICAL_RECUR_VALUE → ∀ r, v.data.v_recur = some r →
      X.icalrecurrencetype_clone r ≠ none) :
    ∃ c rc2, icalvalue_clone X rc v = (some c, rc2) ∧ c.kind = v.kind ∧ c.parent = none ∧
      (owned_string_kind v.kind = true →
        c.data.v_string = v.data.v_string ∧
        icalvalue_as_ical_string_r X c = icalvalue_as_ical_string_r X { v with parent := none }) := by
  obtain ⟨c, rc2, hc⟩ := clone_succeeds X rc v hv hr
  obtain ⟨h1, h2⟩ := clone_kind_parent X rc v c rc2 hc
  refine ⟨c, rc2, hc, h1, h2, ?_⟩
  intro hs
  have h3 := clone_string X rc v c rc2 hc hs
  refine ⟨h3, ?_⟩
  exact as_ical_string_owned_string_congr X c { v with parent := none } (by rw [h1]; exact hs)
    h1 h2 h3

theorem c13_clone_kind_parent_string_witness :
    ∃ c rc2, icalvalue_clone sample_collaborators (fun _ => 0)
        { kind := ICAL_TEXT_VALUE, parent := some ⟨ICAL_CATEGORIES_PROPERTY⟩,
          data := { v_string := some ['a', ';', 'b'] } } = (some c, rc2) ∧
      c.kind = ICAL_TEXT_VALUE ∧ c.parent = none ∧
      (owned_string_kind ICAL_TEXT_VALUE = true →
        c.data.v_string = some ['a', ';', 'b'] ∧
        icalvalue_as_ical_string_r sample_collaborators c =
          icalvalue_as_ical_string_r sample_collaborators
            { kind := ICAL_TEXT_VALUE, parent := none,
              data := { v_string := some ['a', ';', 'b'] } }) :=
  c13_clone_kind_parent_string sample_collaborators (fun _ => 0)
    { kind := ICAL_TEXT_VALUE, parent := some ⟨ICAL_CATEGORIES_PROPERTY⟩,
      data := { v_string := some ['a', ';', 'b'] } } (by decide) (by decide)

/-- The clone of a value of an enumerated-token kind other than ACTION has no
extension text: the default branch copies the payload only. -/
theorem clone_enum_drops_extension_text (X : collaborators) (rc : attach_refcounts)
    (v : icalvalue_impl) (x : Int) (hk : designated_x_code X v.kind = some x)
    (ha : v.kind ≠ ICAL_ACTION_VALUE) :
    icalvalue_clone X rc v =
      (some { kind := v.kind, id := v.id, size := v.size, parent := none, x_value := none,
              data := v.data }, rc) := by
  unfold icalvalue_clone
  cases hkind : v.kind <;> simp [designated_x_code, hkind] at hk <;>
    first
    | exact absurd hkind ha
    | simp [icalvalue_new_impl, icalvalue_kind_is_valid]

/-- The clone of an ACTION value whose code is the X code carries the
extension text. -/
theorem clone_action_keeps_extension_text (X : collaborators) (rc : attach_refcounts)
    (v : icalvalue_impl) (hk : v.kind = ICAL_ACTION_VALUE)
    (hx : v.data.v_enum = X.ICAL_ACTION_X) :
    icalvalue_clone X rc v =
      (some { kind := v.kind, id := v.id, size := v.size, parent := none,
              x_value := v.x_value, data := v.data }, rc) := by
  unfold icalvalue_clone
  simp only [hk, icalvalue_new_impl, icalvalue_kind_is_valid]
  cases hxv : v.x_value <;> simp [hx]

/-- C14 fails on the code: the METHOD value parsed from the token `X-CUSTOM`
carries that extension text and prints it, while its clone has the same code
but no extension text and prints what the enumeration gives for the X code. -/
theorem c14_clone_loses_extension_text :
    icalvalue_new_from_string sample_collaborators ICAL_METHOD_VALUE
        ['X', '-', 'C', 'U', 'S', 'T', 'O', 'M'] =
      some { kind := ICAL_METHOD_VALUE, x_value := some ['X', '-', 'C', 'U', 'S', 'T', 'O', 'M'],
             data := { v_enum := 10002 } } ∧
    (icalvalue_clone sample_collaborators (fun _ => 0)
        { kind := ICAL_METHOD_VALUE, x_value := some ['X', '-', 'C', 'U', 'S', 'T', 'O', 'M'],
          data := { v_enum := 10002 } }).1 =
      some { kind := ICAL_METHOD_VALUE, x_value := none, data := { v_enum := 10002 } } ∧
    icalvalue_as_ical_string_r sample_collaborators
        { kind := ICAL_METHOD_VALUE, x_value := some ['X', '-', 'C', 'U', 'S', 'T', 'O', 'M'],
          data := { v_enum := 10002 } } =
      some ['X', '-', 'C', 'U', 'S', 'T', 'O', 'M'] ∧
    icalvalue_as_ical_string_r sample_collaborators
        { kind := ICAL_METHOD_VALUE, x_value := none, data := { v_enum := 10002 } } =
      sample_collaborators.icalproperty_enum_to_string_r 10002 ∧
    sample_collaborators.icalproperty_enum_to_string_r 10002 ≠
      some ['X', '-', 'C', 'U', 'S', 'T', 'O', 'M'] := by
  decide

/-- C15: freeing a value whose parent is not empty changes nothing: the caller
still holds the same struct (kind, payload, extension text and parent
unchanged), the reference counts are the same, and nothing is released. -/
theorem c15_free_with_parent_is_noop (rc : attach_refcounts) (v : icalvalue_impl)
    (hp : v.parent ≠ none) :
    icalvalue_free rc v = { value := some v, refcounts := rc, released := [] } := by
  simp [icalvalue_free, hp]

theorem c15_free_with_parent_is_noop_witness :
    icalvalue_free (fun _ => 1)
        { kind := ICAL_ATTACH_VALUE, parent := some ⟨ICAL_SUMMARY_PROPERTY⟩,
          x_value := some ['x'],
          data := { v_attach := some ⟨7, true, ['u']⟩ } } =
      { value := some { kind := ICAL_ATTACH_VALUE, parent := some ⟨ICAL_SUMMARY_PROPERTY⟩,
                        x_value := some ['x'],
                        data := { v_attach := some ⟨7, true, ['u']⟩ } },
        refcounts := fun _ => 1, released := [] } :=
  c15_free_with_parent_is_noop (fun _ => 1) _ (by decide)

/-- C16: cloning an ATTACH or BINARY value with a non-null handle yields a
parentless value holding the same handle and raises the reference count of the
handle by exactly one, leaving the other counts alone; freeing a parentless
ATTACH or BINARY value lowers the count of its handle by exactly one; so
freeing the clone restores every count, and the count of the original is as
it was. -/
theorem c16_attach_refcount (X : collaborators) (rc : attach_refcounts) (v : icalvalue_impl)
    (a : icalattach) (hk : v.kind = ICAL_ATTACH_VALUE ∨ v.kind = ICAL_BINARY_VALUE)
    (ha : v.data.v_attach = some a) :
    (∃ c rc2, icalvalue_clone X rc v = (some c, rc2) ∧
      c.kind = v.kind ∧ c.parent = none ∧ c.data.v_attach = some a ∧
      rc2 a.id = rc a.id + 1 ∧ (∀ i, i ≠ a.id → rc2 i = rc i) ∧
      (icalvalue_free rc2 c).refcounts = rc) ∧
    (v.parent = none → 0 < rc a.id →
      (icalvalue_free rc v).refcounts a.id + 1 = rc a.id ∧
      ∀ i, i ≠ a.id → (icalvalue_free rc v).refcounts i = rc i) := by
  constructor
  · refine ⟨{ kind := v.kind, id := v.id, size := v.size, parent := none, x_value := none,
              data := { v_attach := some a } }, icalattach_ref rc a, ?_, rfl, rfl, rfl, ?_, ?_, ?_⟩
    · rcases hk with hk | hk <;>
        simp [icalvalue_clone, icalvalue_new_impl, icalvalue_kind_is_valid, hk, ha]
    · simp [icalattach_ref]
    · intro i hi
      simp [icalattach_ref, Function.update, hi]
    · rcases hk with hk | hk <;>
        (simp only [icalvalue_free, hk, ne_eq, not_true_eq_false, if_false]
         funext i
         by_cases hi : i = a.id <;> simp [icalattach_ref, icalattach_unref, Function.update, hi])
  · intro hp hpos
    rcases hk with hk | hk <;>
      (simp only [icalvalue_free, hk, hp, ha, ne_eq, not_true_eq_false, if_false]
       constructor
       · simp [icalattach_unref]; omega
       · intro i hi
         simp [icalattach_unref, Function.update, hi])

theorem c16_attach_refcount_witness :
    (icalvalue_free (fun _ => 2)
        { kind := ICAL_BINARY_VALUE, data := { v_attach := some ⟨7, false, ['d']⟩ } }).refcounts 7
        + 1 = 2 ∧
    ∀ i, i ≠ 7 →
      (icalvalue_free (fun _ => 2)
        { kind := ICAL_BINARY_VALUE,
          data := { v_attach := some ⟨7, false, ['d']⟩ } }).refcounts i = 2 :=
  (c16_attach_refcount sample_collaborators (fun _ => 2)
    { kind := ICAL_BINARY_VALUE, data := { v_attach := some ⟨7, false, ['d']⟩ } }
    ⟨7, false, ['d']⟩ (Or.inr rfl) rfl).2 rfl (by decide)

/-! ## Comparator -/

theorem char_toNat_inj (c d : Char) (h : c.toNat = d.toNat) : c = d := by
  apply Char.ext
  apply UInt32.ext
  exact h

theorem lex_cons_same (c : Char) (cs ds : List Char) :
    List.Lex (fun c d : Char => c.toNat < d.toNat) (c :: cs) (c :: ds) ↔
      List.Lex (fun c d : Char => c.toNat < d.toNat) cs ds := by
  constructor
  · intro h
    cases h with
    | cons h2 => exact h2
    | rel hr => exact absurd hr (Nat.lt_irrefl _)
  · intro h
    exact List.Lex.cons h

theorem lex_cons_not (c d : Char) (cs ds : List Char) (hne : c ≠ d)
    (hr : ¬ c.toNat < d.toNat) :
    ¬ List.Lex (fun c d : Char => c.toNat < d.toNat) (c :: cs) (d :: ds) := by
  intro h
  cases h with
  | cons _ => exact hne rfl
  | rel h2 => exact hr h2

/-- The sign of `strcmp` is the lexicographic order of the two texts. -/
theorem strcmp_sign (s : List Char) :
    ∀ t : List Char,
      (strcmp s t < 0 ↔ List.Lex (fun c d : Char => c.toNat < d.toNat) s t) ∧
      (strcmp s t = 0 ↔ s = t) ∧
      (0 < strcmp s t ↔ List.Lex (fun c d : Char => c.toNat < d.toNat) t s) := by
  induction s with
  | nil =>
    intro t
    cases t with
    | nil => simp [strcmp]
    | cons d ds => simp [strcmp, List.Lex.nil]
  | cons c cs ih =>
    intro t
    cases t with
    | nil => simp [strcmp, List.Lex.nil]
    | cons d ds =>
      obtain ⟨i1, i2, i3⟩ := ih ds
      by_cases hcd : c = d
      · subst hcd
        simp only [strcmp, if_true, i1, i2, i3, lex_cons_same, List.cons.injEq, true_and,
          and_self]
      · by_cases hlt : c.toNat < d.toNat
        · have hgt : ¬ d.toNat < c.toNat := by omega
          have l1 : List.Lex (fun c d : Char => c.toNat < d.toNat) (c :: cs) (d :: ds) :=
            List.Lex.rel hlt
          have l2 := lex_cons_not d c ds cs (Ne.symm hcd) hgt
          simp [strcmp, hcd, hlt, l1, l2]
        · have hne : c.toNat ≠ d.toNat := fun h => hcd (char_toNat_inj c d h)
          have hgt : d.toNat < c.toNat := by omega
          have l1 : List.Lex (fun c d : Char => c.toNat < d.toNat) (d :: ds) (c :: cs) :=
            List.Lex.rel hgt
          have l2 := lex_cons_not c d cs ds hcd hlt
          simp [strcmp, hcd, hlt, l1, l2]

/-- The branch of `icalvalue_compare` for the kinds compared by their printed
form, a DATE and a DATETIME counting as the same kind. -/
theorem compare_text_branch (X : collaborators) (a b : icalvalue_impl)
    (hk : compared_by_text a.kind = true)
    (hb : a.kind = b.kind ∨ (icalvalue_is_time a = true ∧ icalvalue_is_time b = true)) :
    icalvalue_compare X a b =
      match icalvalue_as_ical_string_r X a with
      | some temp1 =>
        match icalvalue_as_ical_string_r X b with
        | some temp2 => compare_int (strcmp temp1 temp2) 0
        | none => .enumerator .ICAL_XLICCOMPARETYPE_GREATER
      | none => .enumerator .ICAL_XLICCOMPARETYPE_LESS := by
  have hguard : (!(icalvalue_is_time a && icalvalue_is_time b) &&
      icalvalue_isa a != icalvalue_isa b) = false := by
    rcases hb with h | ⟨h1, h2⟩
    · simp [icalvalue_isa, h]
    · simp [h1, h2]
  unfold icalvalue_compare
  rw [hguard]
  simp only [Bool.false_eq_true, if_false, icalvalue_isa]
  cases hkind : a.kind <;> simp [compared_by_text, hkind] at hk <;> rfl

/-- C17: two values whose kinds differ and are not both DATE or DATETIME
compare as NOT_EQUAL; a DATE value and a DATETIME value are not rejected on
their kinds: their comparison is never NOT_EQUAL. -/
theorem c17_kind_mismatch (X : collaborators) (a b : icalvalue_impl) :
    (a.kind ≠ b.kind →
      ¬ ((a.kind = ICAL_DATE_VALUE ∨ a.kind = ICAL_DATETIME_VALUE) ∧
         (b.kind = ICAL_DATE_VALUE ∨ b.kind = ICAL_DATETIME_VALUE)) →
      icalvalue_compare X a b = .enumerator .ICAL_XLICCOMPARETYPE_NOTEQUAL) ∧
    ((a.kind = ICAL_DATE_VALUE ∧ b.kind = ICAL_DATETIME_VALUE) ∨
        (a.kind = ICAL_DATETIME_VALUE ∧ b.kind = ICAL_DATE_VALUE) →
      icalvalue_compare X a b ≠ .enumerator .ICAL_XLICCOMPARETYPE_NOTEQUAL) := by
  constructor
  · intro hne hnt
    have ht : (icalvalue_is_time a && icalvalue_is_time b) = false := by
      simp only [icalvalue_is_time, icalvalue_isa]
      by_cases ha : a.kind = ICAL_DATE_VALUE ∨ a.kind = ICAL_DATETIME_VALUE
      · have hb : ¬ (b.kind = ICAL_DATE_VALUE ∨ b.kind = ICAL_DATETIME_VALUE) :=
          fun hb => hnt ⟨ha, hb⟩
        have hb2 : ¬ (b.kind = ICAL_DATETIME_VALUE ∨ b.kind = ICAL_DATE_VALUE) :=
          fun h => hb (Or.symm h)
        simp [hb2]
      · have ha2 : ¬ (a.kind = ICAL_DATETIME_VALUE ∨ a.kind = ICAL_DATE_VALUE) :=
          fun h => ha (Or.symm h)
        simp [ha2]
    unfold icalvalue_compare
    simp [ht, icalvalue_isa, hne]
  · intro h
    have hk : compared_by_text a.kind = true := by
      rcases h with ⟨h1, _⟩ | ⟨h1, _⟩ <;> simp [compared_by_text, h1]
    have ht : icalvalue_is_time a = true ∧ icalvalue_is_time b = true := by
      rcases h with ⟨h1, h2⟩ | ⟨h1, h2⟩ <;> simp [icalvalue_is_time, icalvalue_isa, h1, h2]
    rw [compare_text_branch X a b hk (Or.inr ht)]
    cases icalvalue_as_ical_string_r X a with
    | none => simp
    | some t1 =>
      cases icalvalue_as_ical_string_r X b with
      | none => simp
      | some t2 =>
        simp only [compare_int]
        split_ifs <;> simp

theorem c17_kind_mismatch_witness :
    icalvalue_compare sample_collaborators
        { kind := ICAL_TEXT_VALUE, data := { v_string := some ['a'] } }
        { kind := ICAL_URI_VALUE, data := { v_string := some ['a'] } } =
      .enumerator .ICAL_XLICCOMPARETYPE_NOTEQUAL ∧
    icalvalue_compare sample_collaborators { kind := ICAL_DATE_VALUE }
        { kind := ICAL_DATETIME_VALUE } ≠
      .enumerator .ICAL_XLICCOMPARETYPE_NOTEQUAL :=
  ⟨(c17_kind_mismatch sample_collaborators
      { kind := ICAL_TEXT_VALUE, data := { v_string := some ['a'] } }
      { kind := ICAL_URI_VALUE, data := { v_string := some ['a'] } }).1
      (by decide) (by decide),
   (c17_kind_mismatch sample_collaborators { kind := ICAL_DATE_VALUE }
      { kind := ICAL_DATETIME_VALUE }).2 (Or.inl ⟨rfl, rfl⟩)⟩

/-- C18: for two values of the same kind among TEXT, URI, CALADDRESS, TRIGGER,
DATE, DATETIME, DATETIMEPERIOD, QUERY, UID, XMLREFERENCE and RECUR, or one
DATE and one DATETIME, whose printed forms both exist, the comparison is LESS,
EQUAL or GREATER according to the lexicographic order, character by character
by code, of the two printed forms; it is EQUAL exactly when they are
identical. -/
theorem c18_compare_by_printed_form (X : collaborators) (a b : icalvalue_impl)
    (ta tb : List Char)
    (hk : (compared_by_text a.kind = true ∧ a.kind = b.kind) ∨
      (a.kind = ICAL_DATE_VALUE ∧ b.kind = ICAL_DATETIME_VALUE) ∨
      (a.kind = ICAL_DATETIME_VALUE ∧ b.kind = ICAL_DATE_VALUE))
    (ha : icalvalue_as_ical_string_r X a = some ta)
    (hb : icalvalue_as_ical_string_r X b = some tb) :
    (icalvalue_compare X a b = .enumerator .ICAL_XLICCOMPARETYPE_LESS ↔
      List.Lex (fun c d : Char => c.toNat < d.toNat) ta tb) ∧
    (icalvalue_compare X a b = .enumerator .ICAL_XLICCOMPARETYPE_EQUAL ↔ ta = tb) ∧
    (icalvalue_compare X a b = .enumerator .ICAL_XLICCOMPARETYPE_GREATER ↔
      List.Lex (fun c d : Char => c.toNat < d.toNat) tb ta) ∧
    (icalvalue_compare X a b = .enumerator .ICAL_XLICCOMPARETYPE_LESS ∨
      icalvalue_compare X a b = .enumerator .ICAL_XLICCOMPARETYPE_EQUAL ∨
      icalvalue_compare X a b = .enumerator .ICAL_XLICCOMPARETYPE_GREATER) := by
  have hkt : compared_by_text a.kind = true := by
    rcases hk with ⟨h, _⟩ | ⟨h, _⟩ | ⟨h, _⟩
    · exact h
    · simp [compared_by_text, h]
    · simp [compared_by_text, h]
  have hkb : a.kind = b.kind ∨ (icalvalue_is_time a = true ∧ icalvalue_is_time b = true) := by
    rcases hk with ⟨_, h⟩ | ⟨h1, h2⟩ | ⟨h1, h2⟩
    · exact Or.inl h
    · exact Or.inr (by simp [icalvalue_is_time, icalvalue_isa, h1, h2])
    · exact Or.inr (by simp [icalvalue_is_time, icalvalue_isa, h1, h2])
  obtain ⟨s1, s2, s3⟩ := strcmp_sign ta tb
  rw [compare_text_branch X a b hkt hkb, ha, hb]
  simp only [compare_int]
  rw [← s1, ← s2, ← s3]
  split_ifs <;> simp <;> omega

theorem c18_compare_by_printed_form_witness :
    (icalvalue_compare sample_collaborators
        { kind := ICAL_TEXT_VALUE, data := { v_string := some ['a', ';'] } }
        { kind := ICAL_TEXT_VALUE, data := { v_string := some ['a', 'b'] } } =
        .enumerator .ICAL_XLICCOMPARETYPE_LESS ↔
      List.Lex (fun c d : Char => c.toNat < d.toNat) ['a', '\\', ';'] ['a', 'b']) ∧
    (icalvalue_compare sample_collaborators
        { kind := ICAL_TEXT_VALUE, data := { v_string := some ['a', ';'] } }
        { kind := ICAL_TEXT_VALUE, data := { v_string := some ['a', 'b'] } } =
        .enumerator .ICAL_XLICCOMPARETYPE_EQUAL ↔ ['a', '\\', ';'] = ['a', 'b']) ∧
    (icalvalue_compare sample_collaborators
        { kind := ICAL_TEXT_VALUE, data := { v_string := some ['a', ';'] } }
        { kind := ICAL_TEXT_VALUE, data := { v_string := some ['a', 'b'] } } =
        .enumerator .ICAL_XLICCOMPARETYPE_GREATER ↔
      List.Lex (fun c d : Char => c.toNat < d.toNat) ['a', 'b'] ['a', '\\', ';']) ∧
    (icalvalue_compare sample_collaborators
        { kind := ICAL_TEXT_VALUE, data := { v_string := some ['a', ';'] } }
        { kind := ICAL_TEXT_VALUE, data := { v_string := some ['a', 'b'] } } =
        .enumerator .ICAL_XLICCOMPARETYPE_LESS ∨
      icalvalue_compare sample_collaborators
        { kind := ICAL_TEXT_VALUE, data := { v_string := some ['a', ';'] } }
        { kind := ICAL_TEXT_VALUE, data := { v_string := some ['a', 'b'] } } =
        .enumerator .ICAL_XLICCOMPARETYPE_EQUAL ∨
      icalvalue_compare sample_collaborators
        { kind := ICAL_TEXT_VALUE, data := { v_string := some ['a', ';'] } }
        { kind := ICAL_TEXT_VALUE, data := { v_string := some ['a', 'b'] } } =
        .enumerator .ICAL_XLICCOMPARETYPE_GREATER) :=
  c18_compare_by_printed_form sample_collaborators
    { kind := ICAL_TEXT_VALUE, data := { v_string := some ['a', ';'] } }
    { kind := ICAL_TEXT_VALUE, data := { v_string := some ['a', 'b'] } }
    ['a', '\\', ';'] ['a', 'b'] (Or.inl ⟨by decide, rfl⟩) (by decide) (by decide)

/-- On two PERIOD values, and on two GEO values, `icalvalue_compare` reaches
the `default` branch, which returns the literal 0. -/
theorem compare_period_geo_zero (X : collaborators) (a b : icalvalue_impl)
    (hk : (a.kind = ICAL_PERIOD_VALUE ∧ b.kind = ICAL_PERIOD_VALUE) ∨
      (a.kind = ICAL_GEO_VALUE ∧ b.kind = ICAL_GEO_VALUE)) :
    icalvalue_compare X a b = .zero := by
  rcases hk with ⟨h1, h2⟩ | ⟨h1, h2⟩ <;>
    simp [icalvalue_compare, icalvalue_is_time, icalvalue_isa, h1, h2]

/-- Whatever the discriminants of the enumeration are, the result of comparing
two PERIOD values, or two GEO values, is the discriminant of EQUAL exactly when
that discriminant is 0. -/
theorem compare_period_geo_equal_iff (X : collaborators)
    (code : icalparameter_xliccomparetype → Int) (a b : icalvalue_impl)
    (hk : (a.kind = ICAL_PERIOD_VALUE ∧ b.kind = ICAL_PERIOD_VALUE) ∨
      (a.kind = ICAL_GEO_VALUE ∧ b.kind = ICAL_GEO_VALUE)) :
    (icalvalue_compare X a b).to_int code = code .ICAL_XLICCOMPARETYPE_EQUAL ↔
      code .ICAL_XLICCOMPARETYPE_EQUAL = 0 := by
  rw [compare_period_geo_zero X a b hk]
  simp only [icalvalue_compare_result.to_int]
  exact eq_comm

/-- On a text whose scan meets no backslash without a following character, the
decode loop yields the decoded text, cut where the length test breaks the
loop. -/
theorem decode_loop_eq (nMaxBufferLen : Int) (s : List Char) :
    ∀ cnt : Nat, lone_trailing_backslash s = false →
      decode_loop nMaxBufferLen s cnt =
        some ((decode_text_ref s).take (max 1 (nMaxBufferLen + 1 - cnt).toNat)) := by
  induction s using lone_trailing_backslash.induct with
  | case1 => intro cnt _; simp [decode_loop, decode_text_ref]
  | case2 c =>
    intro cnt h
    have hc : c ≠ '\\' := by simpa [lone_trailing_backslash] using h
    obtain ⟨k, hk⟩ : ∃ k, max 1 (nMaxBufferLen + 1 - cnt).toNat = k + 1 :=
      ⟨max 1 (nMaxBufferLen + 1 - cnt).toNat - 1, by omega⟩
    simp [decode_loop, decode_text_ref, hc, hk]
  | case3 e rest ih =>
    intro cnt h
    simp only [lone_trailing_backslash, if_true] at h
    simp only [decode_loop, decode_text_ref, if_true]
    by_cases hb : ((cnt + 1 : Nat) : Int) > nMaxBufferLen
    · have hk : max 1 (nMaxBufferLen + 1 - cnt).toNat = 1 := by omega
      rw [if_pos hb, hk]
      rfl
    · obtain ⟨k, hk, hk2⟩ : ∃ k, max 1 (nMaxBufferLen + 1 - cnt).toNat = k + 1 ∧
          max 1 (nMaxBufferLen + 1 - (cnt + 1 : Nat)).toNat = k :=
        ⟨max 1 (nMaxBufferLen + 1 - cnt).toNat - 1, by omega, by omega⟩
      simp only [hb, if_false, ih (cnt + 1) h, hk, hk2, Option.map_some', List.take_succ_cons]
  | case4 c e rest hc ih =>
    intro cnt h
    simp only [lone_trailing_backslash, hc, if_false] at h
    simp only [decode_loop, decode_text_ref, hc, if_false]
    by_cases hb : ((cnt + 1 : Nat) : Int) > nMaxBufferLen
    · have hk : max 1 (nMaxBufferLen + 1 - cnt).toNat = 1 := by omega
      rw [if_pos hb, hk]
      rfl
    · obtain ⟨k, hk, hk2⟩ : ∃ k, max 1 (nMaxBufferLen + 1 - cnt).toNat = k + 1 ∧
          max 1 (nMaxBufferLen + 1 - (cnt + 1 : Nat)).toNat = k :=
        ⟨max 1 (nMaxBufferLen + 1 - cnt).toNat - 1, by omega, by omega⟩
      simp only [hb, if_false, ih (cnt + 1) h, hk, hk2, Option.map_some', List.take_succ_cons]

/-- On a text whose scan meets no backslash without a following character and
whose decoded length fits an `int`, decoding succeeds exactly when the decoded
length is below `nMaxBufferLen`, and then yields the decoded text. -/
theorem decode_ical_string_of_int_length (s : List Char) (nMaxBufferLen : Int)
    (h : lone_trailing_backslash s = false)
    (hlen : ((decode_text_ref s).length : Int) ≤ INT_MAX) :
    icalvalue_decode_ical_string s nMaxBufferLen =
      if ((decode_text_ref s).length : Int) < nMaxBufferLen then
        .returns_true (decode_text_ref s)
      else .returns_false := by
  unfold INT_MAX at hlen
  unfold icalvalue_decode_ical_string
  rw [decode_loop_eq nMaxBufferLen s 0 h]
  simp only []
  have hl : ((decode_text_ref s).take (max 1 (nMaxBufferLen + 1 - (0 : Nat)).toNat)).length =
      min (max 1 (nMaxBufferLen + 1 - (0 : Nat)).toNat) (decode_text_ref s).length :=
    List.length_take _ _
  by_cases hlt : ((decode_text_ref s).length : Int) < nMaxBufferLen
  · have ht : (decode_text_ref s).take (max 1 (nMaxBufferLen + 1 - (0 : Nat)).toNat) =
        decode_text_ref s := List.take_of_length_le (by omega)
    rw [ht, wrap32_eq_self _ (by omega) (by omega)]
    simp [hlt]
  · rw [hl, wrap32_eq_self _ (by omega) (by omega)]
    have : (↑(min (max 1 (nMaxBufferLen + 1 - (0 : Nat)).toNat) (decode_text_ref s).length) : Int)
        ≥ nMaxBufferLen := by omega
    simp [hlt, this]

theorem no_backslash_decode (s : List Char) (h : '\\' ∉ s) :
    lone_trailing_backslash s = false ∧ decode_text_ref s = s := by
  induction s using lone_trailing_backslash.induct with
  | case1 => exact ⟨rfl, rfl⟩
  | case2 c =>
    have hc : c ≠ '\\' := fun e => h (by simp [e])
    simp [lone_trailing_backslash, decode_text_ref, hc]
  | case3 e rest _ => exact absurd (List.mem_cons_self _ _) h
  | case4 c e rest hc ih =>
    have h2 : '\\' ∉ e :: rest := fun m => h (List.mem_cons_of_mem _ m)
    obtain ⟨i1, i2⟩ := ih h2
    simp [lone_trailing_backslash, decode_text_ref, hc, i1, i2]

/-- Decoding a text of `n = 2^31` copies of a plain character under
`nMaxBufferLen = INT_MAX` returns true with the whole text. -/
theorem decode_replicate_overflow (n : Nat) (c : Char) (hc : c ≠ '\\')
    (hn : (n : Int) = 2147483648) :
    lone_trailing_backslash (List.replicate n c) = false ∧
    decode_text_ref (List.replicate n c) = List.replicate n c ∧
    ¬ (((decode_text_ref (List.replicate n c)).length : Int) < 2147483647) ∧
    icalvalue_decode_ical_string (List.replicate n c) 2147483647 =
      .returns_true (List.replicate n c) := by
  have hmem : '\\' ∉ List.replicate n c := by
    intro hm
    exact hc (List.eq_of_mem_replicate hm).symm
  obtain ⟨h1, h2⟩ := no_backslash_decode _ hmem
  refine ⟨h1, h2, ?_, ?_⟩
  · rw [h2, List.length_replicate]
    omega
  · unfold icalvalue_decode_ical_string
    rw [decode_loop_eq 2147483647 _ 0 h1, h2]
    have hk : max 1 ((2147483647 : Int) + 1 - (0 : Nat)).toNat = n := by omega
    rw [hk]
    have ht : (List.replicate n c).take n = List.replicate n c :=
      List.take_of_length_le (by rw [List.length_replicate])
    simp only [ht, List.length_replicate]
    have hw : wrap32 (n : Int) = -2147483648 := by
      unfold wrap32; omega
    rw [hw]
    simp

/-- C20 fails on the code at the top of the `int` range: for a text of
2147483648 plain characters and `nMaxBufferLen = INT_MAX`, the loop stops after
2147483648 characters, the length converted to `int` is negative, the test
against `nMaxBufferLen` passes, and the function returns true after copying
2147483648 characters, although the decoded length is not below
`nMaxBufferLen`. -/
theorem c20_decode_length_cast_overflow :
    lone_trailing_backslash (List.replicate 2147483648 'a') = false ∧
    decode_text_ref (List.replicate 2147483648 'a') = List.replicate 2147483648 'a' ∧
    ¬ (((decode_text_ref (List.replicate 2147483648 'a')).length : Int) < 2147483647) ∧
    icalvalue_decode_ical_string (List.replicate 2147483648 'a') 2147483647 =
      .returns_true (List.replicate 2147483648 'a') :=
  decode_replicate_overflow 2147483648 'a' (by decide) (by norm_num)

/-! ## Bounds of the quoting loop -/

theorem quote_loop_cnt_eq (s : List Char) :
    ∀ cnt, cnt ≤ MAX_ITERATIONS →
      quote_loop_cnt s cnt = min (cnt + s.length) MAX_ITERATIONS := by
  induction s with
  | nil => intro cnt h; simp [quote_loop_cnt]; omega
  | cons c rest ih =>
    intro cnt h
    by_cases hc : cnt < MAX_ITERATIONS
    · simp only [quote_loop_cnt, hc, if_true, List.length_cons]
      rw [ih (cnt + 1) (by omega)]
      omega
    · simp only [quote_loop_cnt, hc, if_false, List.length_cons]
      omega

theorem quote_switch_length (v : icalvalue_impl) (c : Char) :
    (quote_switch v c).length ≤ 2 := by
  unfold quote_switch
  split_ifs <;> simp

theorem quote_loop_length (v : icalvalue_impl) (s : List Char) :
    ∀ cnt, (quote_loop v s cnt).length ≤ 2 * (MAX_ITERATIONS - cnt) := by
  induction s with
  | nil => intro cnt; simp [quote_loop]
  | cons c rest ih =>
    intro cnt
    by_cases hc : cnt < MAX_ITERATIONS
    · simp only [quote_loop, hc, if_true, List.length_append]
      have h1 := ih (cnt + 1)
      have h2 := quote_switch_length v c
      omega
    · simp [quote_loop, hc]

/-! ## The dequoting scan stays inside its buffer -/

theorem getElem?_after (pre rest : List Char) (c : Char) :
    (pre ++ c :: rest)[pre.length]? = some c := by
  rw [List.getElem?_append_right (le_refl _)]
  simp

theorem getElem?_after_succ (pre rest : List Char) (c e : Char) :
    (pre ++ c :: e :: rest)[pre.length + 1]? = some e := by
  rw [List.getElem?_append_right (by omega)]
  simp

theorem dequote_scan_loop_nul (buf : List Char) (fuel p : Nat)
    (h : buf[p]? = some '\x00') :
    dequote_scan_loop buf (fuel + 1) p false = .returns [] := by
  rw [dequote_scan_loop]
  simp [h]

theorem dequote_scan_loop_plain (buf : List Char) (fuel p : Nat) (c : Char)
    (h : buf[p]? = some c) (h0 : c ≠ '\x00') (hb : c ≠ '\\') :
    dequote_scan_loop buf (fuel + 1) p false =
      (dequote_scan_loop buf fuel (p + 1) false).write c := by
  rw [dequote_scan_loop]
  simp [h, h0, hb]

theorem dequote_scan_loop_escape (buf : List Char) (fuel p : Nat) (e : Char)
    (h : buf[p]? = some '\\') (h1 : buf[p + 1]? = some e) (h0 : e ≠ '\x00') :
    dequote_scan_loop buf (fuel + 1) p false =
      (dequote_scan_loop buf fuel (p + 1 + 1) false).write (dequote_switch e) := by
  rw [dequote_scan_loop]
  simp [h, h1, h0]

theorem dequote_scan_loop_lone (buf : List Char) (fuel p : Nat)
    (h : buf[p]? = some '\\') (h1 : buf[p + 1]? = some '\x00') :
    dequote_scan_loop buf (fuel + 1 + 1) p false = .returns [] := by
  rw [dequote_scan_loop]
  simp only [h, h1]
  rw [dequote_scan_loop]
  simp

theorem dequote_scan_loop_eq :
    ∀ (fuel : Nat) (s pre : List Char), '\x00' ∉ s → s.length + 1 ≤ fuel →
      dequote_scan_loop (pre ++ s ++ ['\x00']) fuel pre.length false =
        .returns (icalmemory_strdup_and_dequote s) := by
  intro fuel
  induction fuel using Nat.strong_induction_on with
  | _ fuel ih =>
    intro s pre hs hf
    obtain ⟨k, rfl⟩ : ∃ k, fuel = k + 1 := ⟨fuel - 1, by omega⟩
    match s, hs, hf with
    | [], _, _ =>
      simp only [List.append_nil]
      rw [dequote_scan_loop_nul _ _ _ (getElem?_after _ _ _)]
      simp [icalmemory_strdup_and_dequote]
    | [c], hs, hf =>
      have hc : c ≠ '\x00' := by
        intro h; exact hs (by simp [h])
      obtain ⟨j, rfl⟩ : ∃ j, k = j + 1 := ⟨k - 1, by simp at hf; omega⟩
      by_cases hb : c = '\\'
      · subst hb
        simp only [List.append_assoc, List.cons_append, List.nil_append]
        rw [dequote_scan_loop_lone _ _ _ (getElem?_after _ _ _) (getElem?_after_succ _ _ _ _)]
        simp [icalmemory_strdup_and_dequote]
      · have h0 := ih (j + 1) (by omega) [] (pre ++ [c]) (by simp) (by simp)
        simp only [List.length_append, List.length_singleton, List.append_nil,
          List.append_assoc, List.singleton_append] at h0
        simp only [List.append_assoc, List.cons_append, List.nil_append]
        rw [dequote_scan_loop_plain _ _ _ c (getElem?_after _ _ _) hc hb, h0]
        simp [icalmemory_strdup_and_dequote, hb, dequote_outcome.write]
    | c :: e :: rest, hs, hf =>
      have hc : c ≠ '\x00' := by
        intro h; exact hs (by simp [h])
      have he : e ≠ '\x00' := by
        intro h; exact hs (by simp [h])
      simp only [List.length_cons] at hf
      by_cases hb : c = '\\'
      · subst hb
        have h0 := ih k (by omega) rest (pre ++ ['\\', e])
          (fun h => hs (by simp [h])) (by omega)
        simp only [List.length_append, List.length_cons, List.length_nil,
          List.append_assoc, List.cons_append, List.nil_append, zero_add] at h0
        simp only [List.append_assoc, List.cons_append, List.nil_append]
        rw [dequote_scan_loop_escape _ _ _ e (getElem?_after _ _ _)
          (getElem?_after_succ _ _ _ _) he, h0]
        simp [icalmemory_strdup_and_dequote, dequote_outcome.write]
      · have h0 := ih k (by omega) (e :: rest) (pre ++ [c])
          (fun h => hs (by simp at h ⊢; tauto)) (by simp; omega)
        simp only [List.length_append, List.length_singleton,
          List.append_assoc, List.cons_append, List.nil_append] at h0
        simp only [List.append_assoc, List.cons_append, List.nil_append]
        rw [dequote_scan_loop_plain _ _ _ c (getElem?_after _ _ _) hc hb, h0]
        simp [icalmemory_strdup_and_dequote, hb, dequote_outcome.write]

theorem dequote_scan_eq (s : List Char) (hs : '\x00' ∉ s) :
    dequote_scan s = .returns (icalmemory_strdup_and_dequote s) := by
  have h := dequote_scan_loop_eq (s.length + 1) s [] hs (by omega)
  simpa [dequote_scan] using h

theorem dequote_append_backslash (s : List Char) (h : lone_trailing_backslash s = false) :
    icalmemory_strdup_and_dequote (s ++ ['\\']) = icalmemory_strdup_and_dequote s := by
  induction s using lone_trailing_backslash.induct with
  | case1 => simp [icalmemory_strdup_and_dequote]
  | case2 c =>
    have hc : c ≠ '\\' := by simpa [lone_trailing_backslash] using h
    simp [icalmemory_strdup_and_dequote, hc]
  | case3 e rest ih =>
    simp only [lone_trailing_backslash, if_true] at h
    have := ih h
    cases rest <;> simp_all [icalmemory_strdup_and_dequote]
  | case4 c e rest hc ih =>
    simp only [lone_trailing_backslash, hc, if_false] at h
    have := ih h
    simp_all [icalmemory_strdup_and_dequote]

/-! ## Claims on the standalone encoder, the BINARY printer and the escape engine -/

/-- C21, as the code has it: for every raw text and buffer length, the encoder
constructs a STRING-kind value, which holds the raw text verbatim and has no
parent, prints it with the TEXT quoting rules, and returns that text exactly
when its length is strictly less than the buffer length; otherwise it returns
false. -/
theorem c21_encode_text (X : collaborators) (raw : List Char) (max_len : Int) :
    ∃ w t, icalvalue_new_from_string X ICAL_STRING_VALUE raw = some w ∧
      w.kind = ICAL_STRING_VALUE ∧ w.parent = none ∧ w.data.v_string = some raw ∧
      icalvalue_text_as_ical_string_r w = some t ∧
      t = icalmemory_strdup_and_quote w raw ∧
      icalvalue_encode_ical_string X raw max_len =
        if (t.length : Int) < max_len then .returns_true t else .returns_false := by
  refine ⟨{ kind := ICAL_STRING_VALUE, data := { v_string := some raw } }, _,
    rfl, rfl, rfl, rfl, rfl, rfl, ?_⟩
  have hl := quote_loop_length
    { kind := ICAL_STRING_VALUE, data := { v_string := some raw } } raw 0
  simp only [MAX_ITERATIONS] at hl
  have hw : wrap32 ((icalmemory_strdup_and_quote
      { kind := ICAL_STRING_VALUE, data := { v_string := some raw } } raw).length : Int) =
      ((icalmemory_strdup_and_quote
      { kind := ICAL_STRING_VALUE, data := { v_string := some raw } } raw).length : Int) := by
    apply wrap32_eq_self
    · omega
    · unfold icalmemory_strdup_and_quote; omega
  have hn : icalvalue_new_from_string X ICAL_STRING_VALUE raw =
      some { kind := ICAL_STRING_VALUE, data := { v_string := some raw } } := rfl
  simp only [icalvalue_encode_ical_string, hn, icalvalue_text_as_ical_string_r,
    Option.map_some', hw]
  split_ifs <;> first | rfl | omega

/-- C21 fails as stated: the raw text of a backslash and the letter `n` is
encoded as two backslashes and `n`, and is refused by a buffer of length 3,
whereas the TEXT-kind value constructed from it holds a newline and prints as
one backslash and `n`, of length 2. -/
theorem c21_encode_text_counterexample :
    icalvalue_encode_ical_string sample_collaborators ['\\', 'n'] 10 =
        .returns_true ['\\', '\\', 'n'] ∧
      icalvalue_encode_ical_string sample_collaborators ['\\', 'n'] 3 = .returns_false ∧
      (icalvalue_new_from_string sample_collaborators ICAL_TEXT_VALUE ['\\', 'n']).bind
        icalvalue_text_as_ical_string_r = some ['\\', 'n'] := by
  refine ⟨by decide, by decide, by decide⟩

/-- C26, as the code has it: a BINARY value prints as the fixed text
`icalvalue_binary_as_ical_string is not implemented yet`, of 54 characters,
whatever it holds; a NO-VALUE value prints as nothing. -/
theorem c26_binary_prints_placeholder (X : collaborators) (v w : icalvalue_impl)
    (hv : v.kind = ICAL_BINARY_VALUE) (hw : w.kind = ICAL_NO_VALUE) :
    icalvalue_as_ical_string_r X v =
        some "icalvalue_binary_as_ical_string is not implemented yet".toList ∧
      icalvalue_as_ical_string_r X w = none := by
  constructor
  · simp only [icalvalue_as_ical_string_r, hv]
    rfl
  · simp only [icalvalue_as_ical_string_r, hw]

theorem c26_binary_prints_placeholder_witness :
    icalvalue_as_ical_string_r sample_collaborators { kind := ICAL_BINARY_VALUE } =
        some "icalvalue_binary_as_ical_string is not implemented yet".toList ∧
      icalvalue_as_ical_string_r sample_collaborators { kind := ICAL_NO_VALUE } = none :=
  c26_binary_prints_placeholder sample_collaborators { kind := ICAL_BINARY_VALUE }
    { kind := ICAL_NO_VALUE } rfl rfl

/-- C26 fails as stated: the printer returns a text of 54 characters for a
BINARY value, and nothing for a NO-VALUE value. -/
theorem c26_binary_prints_placeholder_counterexample :
    (icalvalue_as_ical_string_r sample_collaborators { kind := ICAL_BINARY_VALUE }).map
        List.length = some 54 ∧
      icalvalue_as_ical_string_r sample_collaborators { kind := ICAL_NO_VALUE } = none := by
  refine ⟨by decide, by decide⟩

/-- C27: for every text in which each backslash is followed by another
character (no backslash is the last character, or more generally the
left-to-right scan never meets a backslash with nothing after it), dequoting
the text followed by one backslash gives what dequoting the text gives; and the
scan over the buffer of the longer text ends with that output, every read being
at a position of the text or at its terminator. -/
theorem c27_trailing_backslash (s : List Char)
    (h : s.getLast? ≠ some '\\' ∨ lone_trailing_backslash s = false)
    (h0 : '\x00' ∉ s) :
    icalmemory_strdup_and_dequote (s ++ ['\\']) = icalmemory_strdup_and_dequote s ∧
      dequote_scan (s ++ ['\\']) = .returns (icalmemory_strdup_and_dequote s) := by
  have hl : lone_trailing_backslash s = false := by
    rcases h with h | h
    · exact lone_trailing_backslash_of_getLast s h
    · exact h
  have e := dequote_append_backslash s hl
  refine ⟨e, ?_⟩
  rw [dequote_scan_eq (s ++ ['\\']) (by simp [h0]), e]

theorem c27_trailing_backslash_witness :
    icalmemory_strdup_and_dequote (['a', '\\', '\\', 'b'] ++ ['\\']) =
        icalmemory_strdup_and_dequote ['a', '\\', '\\', 'b'] ∧
      dequote_scan (['a', '\\', '\\', 'b'] ++ ['\\']) =
        .returns (icalmemory_strdup_and_dequote ['a', '\\', '\\', 'b']) :=
  c27_trailing_backslash ['a', '\\', '\\', 'b'] (Or.inl (by decide)) (by decide)

/-- C28: the ceiling of the quoting loop is 10,485,760; for every value and
text, quoting the text gives what quoting its first 10,485,760 characters
gives, and the loop makes as many iterations as the text has characters, up to
10,485,760. -/
theorem c28_quote_ceiling (v : icalvalue_impl) (s : List Char) :
    MAX_ITERATIONS = 10485760 ∧
      icalmemory_strdup_and_quote v s = icalmemory_strdup_and_quote v (s.take 10485760) ∧
      quote_loop_cnt s 0 = min s.length 10485760 ∧ quote_loop_cnt s 0 ≤ 10485760 := by
  have hm : MAX_ITERATIONS = 10485760 := rfl
  have h1 := quote_loop_take v s 0
  have h2 := quote_loop_cnt_eq s 0 (by omega)
  simp only [hm, Nat.sub_zero, Nat.zero_add] at h1 h2
  refine ⟨hm, h1, h2, ?_⟩
  rw [h2]
  omega

/-- C29: for every text shorter than the quoting ceiling and every value,
whatever its parent, dequoting the quoted text gives the text without its
carriage returns, backspaces and form feeds; hence it gives the text back when
the text has none of the three. -/
theorem c29_dequote_quote_drops_three (v : icalvalue_impl) (s : List Char)
    (hlen : s.length < MAX_ITERATIONS) :
    icalmemory_strdup_and_dequote (icalmemory_strdup_and_quote v s) =
        s.filter (fun c => decide (c ≠ '\r' ∧ c ≠ '\x08' ∧ c ≠ '\x0c')) ∧
      ((∀ c ∈ s, c ≠ '\r' ∧ c ≠ '\x08' ∧ c ≠ '\x0c') →
        icalmemory_strdup_and_dequote (icalmemory_strdup_and_quote v s) = s) := by
  have e : icalmemory_strdup_and_dequote (icalmemory_strdup_and_quote v s) =
      s.filter (fun c => decide (c ≠ '\r' ∧ c ≠ '\x08' ∧ c ≠ '\x0c')) := by
    unfold icalmemory_strdup_and_quote
    rw [dequote_quote_loop v s 0 (by omega)]
    congr 1
    funext c
    simp [quote_drops, not_or]
  refine ⟨e, fun hs => ?_⟩
  rw [e]
  apply List.filter_eq_self.mpr
  intro c hc
  simpa using hs c hc

theorem c29_dequote_quote_drops_three_witness :
    icalmemory_strdup_and_dequote
        (icalmemory_strdup_and_quote
          { kind := ICAL_TEXT_VALUE, parent := some ⟨ICAL_CATEGORIES_PROPERTY⟩ }
          ['a', '\r', ';', '\x08', '\\', '\x0c', '\n', ',']) =
        (['a', '\r', ';', '\x08', '\\', '\x0c', '\n', ','] : List Char).filter
          (fun c => decide (c ≠ '\r' ∧ c ≠ '\x08' ∧ c ≠ '\x0c')) ∧
      ((∀ c ∈ (['a', '\r', ';', '\x08', '\\', '\x0c', '\n', ','] : List Char),
          c ≠ '\r' ∧ c ≠ '\x08' ∧ c ≠ '\x0c') →
        icalmemory_strdup_and_dequote
          (icalmemory_strdup_and_quote
            { kind := ICAL_TEXT_VALUE, parent := some ⟨ICAL_CATEGORIES_PROPERTY⟩ }
            ['a', '\r', ';', '\x08', '\\', '\x0c', '\n', ',']) =
          ['a', '\r', ';', '\x08', '\\', '\x0c', '\n', ',']) :=
  c29_dequote_quote_drops_three _ _ (by decide)

/-- C30: for every UTCOFFSET value whose offset lies between -86399 and 86399
seconds, the printed text parses to a UTCOFFSET value that holds the same
offset. -/
theorem c30_utcoffset_exact_roundtrip (X : collaborators) (v : icalvalue_impl)
    (hk : v.kind = ICAL_UTCOFFSET_VALUE) (h1 : -86399 ≤ v.data.v_int)
    (h2 : v.data.v_int ≤ 86399) :
    ∃ p w, icalvalue_as_ical_string_r X v = some p ∧
      icalvalue_new_from_string X ICAL_UTCOFFSET_VALUE p = some w ∧
      w.kind = ICAL_UTCOFFSET_VALUE ∧ icalvalue_get_utcoffset w = v.data.v_int := by
  refine ⟨utcoffset_text v.data.v_int,
    { kind := ICAL_UTCOFFSET_VALUE,
      data := { v_int := utcoffset_from_string (utcoffset_text v.data.v_int) } }, ?_, rfl, rfl, ?_⟩
  · simp [icalvalue_as_ical_string_r, hk,
      utcoffset_print_formula v (by unfold INT_MIN; omega) (by unfold INT_MAX; omega)]
  · simp only [icalvalue_get_utcoffset]
    rw [utcoffset_from_string_text]
    split_ifs <;> omega

theorem c30_utcoffset_exact_roundtrip_witness :
    ∃ p w, icalvalue_as_ical_string_r sample_collaborators
        { kind := ICAL_UTCOFFSET_VALUE, data := { v_int := -1800 } } = some p ∧
      icalvalue_new_from_string sample_collaborators ICAL_UTCOFFSET_VALUE p = some w ∧
      w.kind = ICAL_UTCOFFSET_VALUE ∧
      icalvalue_get_utcoffset w =
        ({ kind := ICAL_UTCOFFSET_VALUE, data := { v_int := -1800 } } : icalvalue_impl).data.v_int :=
  c30_utcoffset_exact_roundtrip sample_collaborators
    { kind := ICAL_UTCOFFSET_VALUE, data := { v_int := -1800 } } rfl (by decide) (by decide)

/-! ## GEO parsing -/

theorem geo_numeral_char_not_isspace (c : Char) (h : geo_numeral_char c = true) :
    isspace c = false := by
  simp only [geo_numeral_char, isdigit, Bool.or_eq_true, decide_eq_true_eq] at h
  simp only [isspace, decide_eq_false_iff_not]
  rcases h with ((h | h) | h) | h
  · rintro (rfl | rfl | rfl | rfl | rfl | rfl) <;> revert h <;> decide
  · subst h; decide
  · subst h; decide
  · subst h; decide

theorem isspace_not_geo_numeral_char (c : Char) (h : isspace c = true) :
    geo_numeral_char c = false := by
  cases hg : geo_numeral_char c with
  | false => rfl
  | true => rw [geo_numeral_char_not_isspace c hg] at h; exact absurd h (by decide)

/-- The scan of `simple_str_to_doublestr` over optional whitespace, a numeral,
optional whitespace and a `;`: the numeral is what is copied, and the position
returned, once whitespace is skipped, is the `;`. -/
theorem numeral_scan (ws1 a ws2 r : List Char) (hws1 : ∀ c ∈ ws1, isspace c = true)
    (ha : ∀ c ∈ a, geo_numeral_char c = true) (hws2 : ∀ c ∈ ws2, isspace c = true) :
    ((ws1 ++ a ++ ws2 ++ ';' :: r).dropWhile isspace).takeWhile geo_numeral_char = a ∧
      ((((ws1 ++ a ++ ws2 ++ ';' :: r).dropWhile isspace).dropWhile
        geo_numeral_char).dropWhile isspace) = ';' :: r := by
  have e1 : (ws1 ++ a ++ ws2 ++ ';' :: r).dropWhile isspace =
      (a ++ (ws2 ++ ';' :: r)).dropWhile isspace := by
    rw [List.append_assoc, List.append_assoc, List.dropWhile_append_of_pos hws1]
  have e2 : (ws2 ++ ';' :: r).dropWhile isspace = ';' :: r := by
    rw [List.dropWhile_append_of_pos hws2]
    rfl
  have e3 : (ws2 ++ ';' :: r).takeWhile geo_numeral_char = [] ∧
      (ws2 ++ ';' :: r).dropWhile geo_numeral_char = ws2 ++ ';' :: r := by
    cases ws2 with
    | nil => exact ⟨rfl, rfl⟩
    | cons w ws =>
      have hw := isspace_not_geo_numeral_char w (hws2 w (by simp))
      simp [List.takeWhile, List.dropWhile, hw]
  rw [e1]
  cases a with
  | nil =>
    simp only [List.nil_append, e2]
    exact ⟨rfl, rfl⟩
  | cons x xs =>
    have hx := geo_numeral_char_not_isspace x (ha x (by simp))
    have e4 : ((x :: xs) ++ (ws2 ++ ';' :: r)).dropWhile isspace =
        (x :: xs) ++ (ws2 ++ ';' :: r) := by
      simp [List.dropWhile, hx]
    rw [e4, List.takeWhile_append_of_pos ha, List.dropWhile_append_of_pos ha, e3.1, e3.2, e2]
    simp

theorem simple_str_to_doublestr_eq (X : collaborators) (src : List Char) (result_len : Nat) :
    simple_str_to_doublestr X src result_len =
      ((simple_str_to_doublestr X ((src.dropWhile isspace).takeWhile geo_numeral_char)
          result_len).1,
        (simple_str_to_doublestr X ((src.dropWhile isspace).takeWhile geo_numeral_char)
          result_len).2.1,
        (src.dropWhile isspace).dropWhile geo_numeral_char) := by
  have hn : ∀ c ∈ (src.dropWhile isspace).takeWhile geo_numeral_char,
      geo_numeral_char c = true := fun c hc => (List.mem_takeWhile_imp hc)
  have h1 : ((src.dropWhile isspace).takeWhile geo_numeral_char).dropWhile isspace =
      (src.dropWhile isspace).takeWhile geo_numeral_char := by
    cases hN : (src.dropWhile isspace).takeWhile geo_numeral_char with
    | nil => rfl
    | cons x xs =>
      have := geo_numeral_char_not_isspace x (hn x (by simp [hN]))
      simp [List.dropWhile, this]
  have h2 : ((src.dropWhile isspace).takeWhile geo_numeral_char).takeWhile geo_numeral_char =
      (src.dropWhile isspace).takeWhile geo_numeral_char :=
    List.takeWhile_eq_self_iff.mpr hn
  have hfun : (fun c => isdigit c || decide (c = '.') || decide (c = '+') || decide (c = '-')) =
      geo_numeral_char := rfl
  simp only [simple_str_to_doublestr, hfun, h1, h2]

/-- The GEO branch on optional whitespace, a numeral, optional whitespace, a
`;` and a rest: the outcome is decided by the numeral and by the rest after its
leading whitespace. -/
theorem geo_from_string_shape (X : collaborators) (ws1 a ws2 r : List Char)
    (hws1 : ∀ c ∈ ws1, isspace c = true) (ha : ∀ c ∈ a, geo_numeral_char c = true)
    (hws2 : ∀ c ∈ ws2, isspace c = true) :
    geo_from_string X (ws1 ++ a ++ ws2 ++ ';' :: r) =
      if (simple_str_to_doublestr X a X.ICAL_GEO_LEN).1 then none
      else if (simple_str_to_doublestr X (r.dropWhile isspace) X.ICAL_GEO_LEN).1 then none
      else some { lat := (simple_str_to_doublestr X a X.ICAL_GEO_LEN).2.1,
                  lon := (simple_str_to_doublestr X (r.dropWhile isspace) X.ICAL_GEO_LEN).2.1 } := by
  obtain ⟨s1, s2⟩ := numeral_scan ws1 a ws2 r hws1 ha hws2
  unfold geo_from_string
  rw [simple_str_to_doublestr_eq X (ws1 ++ a ++ ws2 ++ ';' :: r)]
  simp only [s1, s2]
  split_ifs <;> simp_all

theorem geo_from_string_whitespace (X : collaborators) (ws1 a ws2 ws3 b : List Char)
    (hws1 : ∀ c ∈ ws1, isspace c = true) (ha : ∀ c ∈ a, geo_numeral_char c = true)
    (hws2 : ∀ c ∈ ws2, isspace c = true) (hws3 : ∀ c ∈ ws3, isspace c = true) :
    geo_from_string X (ws1 ++ a ++ ws2 ++ ';' :: (ws3 ++ b)) =
      geo_from_string X (a ++ ';' :: b) := by
  have e := geo_from_string_shape X [] a [] b (by simp) ha (by simp)
  simp only [List.nil_append, List.append_nil] at e
  rw [geo_from_string_shape X ws1 a ws2 (ws3 ++ b) hws1 ha hws2, e,
    List.dropWhile_append_of_pos hws3]

/-! ## Claims on the GEO kind -/

/-- C22 fails in the code: under a locale whose decimal point is the comma, the
GEO text `37.386013;-122.082932` parses to a value that stores `37,386013` and
`-122,082932` and prints as `37,386013;-122,082932`; under a locale whose
decimal point is the full stop the same text is stored and printed with full
stops. -/
theorem c22_geo_locale_comma :
    sample_collaborators.locale_decimal_point = ',' ∧
      (icalvalue_new_from_string sample_collaborators ICAL_GEO_VALUE
          "37.386013;-122.082932".toList).map icalvalue_get_geo =
        some { lat := "37,386013".toList, lon := "-122,082932".toList } ∧
      (icalvalue_new_from_string sample_collaborators ICAL_GEO_VALUE
          "37.386013;-122.082932".toList).bind (icalvalue_as_ical_string_r sample_collaborators) =
        some "37,386013;-122,082932".toList ∧
      (icalvalue_new_from_string { sample_collaborators with locale_decimal_point := '.' }
          ICAL_GEO_VALUE "37.386013;-122.082932".toList).bind
          (icalvalue_as_ical_string_r { sample_collaborators with locale_decimal_point := '.' }) =
        some "37.386013;-122.082932".toList := by
  refine ⟨rfl, by decide, by decide, by decide⟩

/-- C23: GEO parsing yields no value, and the diagnostic exactly when a slot was
passed, for every text whose first numeral is refused, or in which what comes
after that numeral and the whitespace behind it does not begin with `;`, or
whose numeral after the `;` is refused; and whitespace before the first
numeral and on either side of the `;` does not change the outcome. -/
theorem c23_geo_parse_failure (X : collaborators) (s : List Char) (error : Bool)
    (ws1 a ws2 ws3 b : List Char)
    (hfail : (simple_str_to_doublestr X s X.ICAL_GEO_LEN).1 = true ∨
      ((simple_str_to_doublestr X s X.ICAL_GEO_LEN).2.2.dropWhile isspace).head? ≠ some ';' ∨
      (simple_str_to_doublestr X
        ((simple_str_to_doublestr X s X.ICAL_GEO_LEN).2.2.dropWhile isspace).tail
        X.ICAL_GEO_LEN).1 = true)
    (hws1 : ∀ c ∈ ws1, isspace c = true) (ha : ∀ c ∈ a, geo_numeral_char c = true)
    (hws2 : ∀ c ∈ ws2, isspace c = true) (hws3 : ∀ c ∈ ws3, isspace c = true) :
    icalvalue_new_from_string_with_error X ICAL_GEO_VALUE s error =
        (none, if error then some (could_not_parse_error X ICAL_GEO_VALUE s) else none) ∧
      icalvalue_new_from_string X ICAL_GEO_VALUE (ws1 ++ a ++ ws2 ++ ';' :: (ws3 ++ b)) =
        icalvalue_new_from_string X ICAL_GEO_VALUE (a ++ ';' :: b) := by
  constructor
  · have hg : geo_from_string X s = none := by
      unfold geo_from_string
      by_cases h1 : (simple_str_to_doublestr X s X.ICAL_GEO_LEN).1 = true
      · simp [h1]
      · cases hc : (simple_str_to_doublestr X s X.ICAL_GEO_LEN).2.2.dropWhile isspace with
        | nil => simp [hc]
        | cons c cur =>
          by_cases hsc : c = ';'
          · have h3 : (simple_str_to_doublestr X (cur.dropWhile isspace) X.ICAL_GEO_LEN).1 =
                true := by
              rcases hfail with h | h | h
              · exact absurd h h1
              · rw [hc] at h
                simp [hsc] at h
              · rw [hc, List.tail_cons, simple_str_to_doublestr_eq X cur] at h
                rw [simple_str_to_doublestr_eq X (cur.dropWhile isspace),
                  List.dropWhile_idempotent]
                exact h
            simp [h1, hc, hsc, h3]
          · simp [h1, hc, hsc]
    simp only [icalvalue_new_from_string_with_error, hg]
    cases error <;> rfl
  · have e := geo_from_string_whitespace X ws1 a ws2 ws3 b hws1 ha hws2 hws3
    simp only [List.append_assoc] at e
    simp [icalvalue_new_from_string, icalvalue_new_from_string_with_error, e]

theorem c23_geo_parse_failure_witness :
    icalvalue_new_from_string_with_error sample_collaborators ICAL_GEO_VALUE
          "12.5 , 7".toList true =
        (none, if true = true then
          some (could_not_parse_error sample_collaborators ICAL_GEO_VALUE "12.5 , 7".toList)
          else none) ∧
      icalvalue_new_from_string sample_collaborators ICAL_GEO_VALUE
          ([' ', '\t'] ++ "37.386013".toList ++ [' '] ++ ';' :: ([' ', ' '] ++ "-122.082932".toList)) =
        icalvalue_new_from_string sample_collaborators ICAL_GEO_VALUE
          ("37.386013".toList ++ ';' :: "-122.082932".toList) :=
  c23_geo_parse_failure sample_collaborators "12.5 , 7".toList true
    [' ', '\t'] "37.386013".toList [' '] [' ', ' '] "-122.082932".toList
    (Or.inr (Or.inl (by decide))) (by decide) (by decide) (by decide) (by decide)

/-! ## Temporal printing -/

theorem toDigitsCore_succ (f n : Nat) (ds : List Char) :
    Nat.toDigitsCore 10 (f + 1) n ds =
      if n / 10 = 0 then Nat.digitChar (n % 10) :: ds
      else Nat.toDigitsCore 10 f (n / 10) (Nat.digitChar (n % 10) :: ds) := by
  simp only [Nat.toDigitsCore]

theorem toDigitsCore_eq_toDigits (n : Nat) :
    ∀ (fuel : Nat) (ds : List Char), n < fuel →
      Nat.toDigitsCore 10 fuel n ds = Nat.toDigits 10 n ++ ds := by
  induction n using Nat.strong_induction_on with
  | _ n ih =>
    intro fuel ds hf
    obtain ⟨f, rfl⟩ : ∃ f, fuel = f + 1 := ⟨fuel - 1, by omega⟩
    show _ = Nat.toDigitsCore 10 (n + 1) n [] ++ ds
    rw [toDigitsCore_succ f n ds, toDigitsCore_succ n n []]
    by_cases h0 : n / 10 = 0
    · simp [h0]
    · have hlt : n / 10 < n := by omega
      have e1 := ih (n / 10) hlt f (Nat.digitChar (n % 10) :: ds) (by omega)
      have e2 := ih (n / 10) hlt n [Nat.digitChar (n % 10)] hlt
      simp only [h0, if_false, e1, e2, List.append_assoc, List.singleton_append]

theorem toDigits_lt_ten (n : Nat) (h : n < 10) : Nat.toDigits 10 n = [digit_char n] := by
  interval_cases n <;> rfl

theorem toDigits_ge_ten (n : Nat) (h : 10 ≤ n) :
    Nat.toDigits 10 n = Nat.toDigits 10 (n / 10) ++ [digit_char (n % 10)] := by
  have h0 : n / 10 ≠ 0 := by omega
  have e := toDigitsCore_eq_toDigits (n / 10) n [Nat.digitChar (n % 10)] (by omega)
  rw [← digitChar_eq_digit_char _ (Nat.mod_lt _ (by norm_num)), ← e]
  show Nat.toDigitsCore 10 (n + 1) n [] = _
  rw [toDigitsCore_succ n n [], if_neg h0]

theorem printf_04d_four_digits (k : Nat) (h : k < 10000) :
    printf_04d (k : Int) = four_digits k := by
  have hz : digit_char 0 = '0' := rfl
  have hneg : ¬ ((k : Int) < 0) := by omega
  simp only [printf_04d, hneg, if_false, Int.natAbs_ofNat, four_digits]
  by_cases h1 : k < 10
  · rw [toDigits_lt_ten k h1]
    have a1 : k / 1000 = 0 := by omega
    have a2 : k / 100 % 10 = 0 := by omega
    have a3 : k / 10 % 10 = 0 := by omega
    have a4 : k % 10 = k := by omega
    simp [a1, a2, a3, a4, hz, List.replicate]
  · by_cases h2 : k < 100
    · rw [toDigits_ge_ten k (by omega), toDigits_lt_ten (k / 10) (by omega)]
      have a1 : k / 1000 = 0 := by omega
      have a2 : k / 100 % 10 = 0 := by omega
      have a3 : k / 10 % 10 = k / 10 := by omega
      simp [a1, a2, a3, hz, List.replicate]
    · by_cases h3 : k < 1000
      · rw [toDigits_ge_ten k (by omega), toDigits_ge_ten (k / 10) (by omega),
          toDigits_lt_ten (k / 10 / 10) (by omega)]
        have a1 : k / 1000 = 0 := by omega
        have a2 : k / 100 % 10 = k / 10 / 10 := by omega
        simp [a1, a2, hz, List.replicate]
      · rw [toDigits_ge_ten k (by omega), toDigits_ge_ten (k / 10) (by omega),
          toDigits_ge_ten (k / 10 / 10) (by omega),
          toDigits_lt_ten (k / 10 / 10 / 10) (by omega)]
        have a1 : k / 10 / 10 / 10 = k / 1000 := by omega
        have a2 : k / 10 / 10 % 10 = k / 100 % 10 := by omega
        simp [a1, a2]

theorem print_date_to_string_eq (t : icaltimetype) (hy0 : 0 ≤ t.year) (hy : t.year ≤ 9999)
    (hm0 : 0 ≤ t.month) (hm : t.month ≤ 99) (hd0 : 0 ≤ t.day) (hd : t.day ≤ 99) :
    print_date_to_string t = date_text t := by
  obtain ⟨y, ey⟩ : ∃ y : Nat, t.year = y := ⟨t.year.toNat, by omega⟩
  obtain ⟨m, em⟩ : ∃ m : Nat, t.month = m := ⟨t.month.toNat, by omega⟩
  obtain ⟨d, ed⟩ : ∃ d : Nat, t.day = d := ⟨t.day.toNat, by omega⟩
  simp only [print_date_to_string, date_text, ey, em, ed, Int.toNat_ofNat]
  rw [printf_04d_four_digits _ (by omega), printf_02d_two_digits _ (by omega),
    printf_02d_two_digits _ (by omega)]
  simp [strncat, snprintf, four_digits, two_digits]

theorem print_time_to_string_eq (X : collaborators) (t : icaltimetype)
    (hh0 : 0 ≤ t.hour) (hh : t.hour ≤ 99) (hm0 : 0 ≤ t.minute) (hm : t.minute ≤ 99)
    (hs0 : 0 ≤ t.second) (hs : t.second ≤ 99) :
    print_time_to_string X t =
      if X.icaltime_is_utc t then time_text t ++ ['Z'] else time_text t := by
  obtain ⟨h, eh⟩ : ∃ h : Nat, t.hour = h := ⟨t.hour.toNat, by omega⟩
  obtain ⟨m, em⟩ : ∃ m : Nat, t.minute = m := ⟨t.minute.toNat, by omega⟩
  obtain ⟨s, es⟩ : ∃ s : Nat, t.second = s := ⟨t.second.toNat, by omega⟩
  simp only [print_time_to_string, time_text, eh, em, es, Int.toNat_ofNat]
  rw [printf_02d_two_digits _ (by omega), printf_02d_two_digits _ (by omega),
    printf_02d_two_digits _ (by omega)]
  split_ifs <;> simp [strncat, snprintf, two_digits]

/-! ## Claims on the temporal kinds -/

/-- C24: for every time whose year lies in 0..9999 and whose month, day, hour,
minute and second lie in 0..99, a DATE value prints as the eight digits
`YYYYMMDD`; a DATETIME value prints as `YYYYMMDD` alone when the time is
date-only, as `YYYYMMDD`, `T`, `HHMMSS` and `Z` when it is in UTC, and as
`YYYYMMDD`, `T` and `HHMMSS` otherwise; every field is zero-padded. -/
theorem c24_date_datetime_print (X : collaborators) (v : icalvalue_impl)
    (hk : v.kind = ICAL_DATE_VALUE ∨ v.kind = ICAL_DATETIME_VALUE)
    (hy0 : 0 ≤ v.data.v_time.year) (hy : v.data.v_time.year ≤ 9999)
    (hm0 : 0 ≤ v.data.v_time.month) (hm : v.data.v_time.month ≤ 99)
    (hd0 : 0 ≤ v.data.v_time.day) (hd : v.data.v_time.day ≤ 99)
    (hh0 : 0 ≤ v.data.v_time.hour) (hh : v.data.v_time.hour ≤ 99)
    (hn0 : 0 ≤ v.data.v_time.minute) (hn : v.data.v_time.minute ≤ 99)
    (hs0 : 0 ≤ v.data.v_time.second) (hs : v.data.v_time.second ≤ 99) :
    icalvalue_as_ical_string_r X v = some
        (if v.kind = ICAL_DATE_VALUE ∨ v.data.v_time.is_date = true then
           date_text v.data.v_time
         else if X.icaltime_is_utc v.data.v_time then
           date_text v.data.v_time ++ ['T'] ++ time_text v.data.v_time ++ ['Z']
         else date_text v.data.v_time ++ ['T'] ++ time_text v.data.v_time) ∧
      (date_text v.data.v_time).length = 8 ∧ (time_text v.data.v_time).length = 6 := by
  have ed := print_date_to_string_eq v.data.v_time hy0 hy hm0 hm hd0 hd
  have et := print_time_to_string_eq X v.data.v_time hh0 hh hn0 hn hs0 hs
  refine ⟨?_, rfl, rfl⟩
  rcases hk with hk | hk
  · simp only [icalvalue_as_ical_string_r, hk, icalvalue_date_as_ical_string_r,
      icalvalue_get_date, ed, true_or, if_true]
  · simp only [icalvalue_as_ical_string_r, hk, icalvalue_datetime_as_ical_string_r,
      icalvalue_isa, icalvalue_get_datetime, print_datetime_to_string, ed, et]
    have hlen2 : (time_text v.data.v_time).length = 6 := rfl
    cases hdte : v.data.v_time.is_date <;> cases hutc : X.icaltime_is_utc v.data.v_time <;>
      simp [strncat, List.take_of_length_le, hlen2]

theorem c24_date_datetime_print_witness :
    icalvalue_as_ical_string_r sample_collaborators
        { kind := ICAL_DATETIME_VALUE,
          data := { v_time := { year := 824, month := 1, day := 2, hour := 3, minute := 4,
                                second := 5, zone := some 0 } } } =
        some "08240102T030405Z".toList ∧
      (date_text { year := 824, month := 1, day := 2, hour := 3, minute := 4,
                   second := 5, zone := some 0 }).length = 8 ∧
      (time_text { year := 824, month := 1, day := 2, hour := 3, minute := 4,
                   second := 5, zone := some 0 }).length = 6 :=
  c24_date_datetime_print sample_collaborators
    { kind := ICAL_DATETIME_VALUE,
      data := { v_time := { year := 824, month := 1, day := 2, hour := 3, minute := 4,
                            second := 5, zone := some 0 } } }
    (Or.inr rfl)
    (by decide) (by decide) (by decide) (by decide) (by decide) (by decide)
    (by decide) (by decide) (by decide) (by decide) (by decide) (by decide)

/-- C25: for a requested kind of DATE or DATETIME and every text, a null time
from the temporal parser gives no value; any other time gives a value that
holds it and whose kind is DATE when the time is date-only and DATETIME when it
is not, whichever of the two kinds was requested.  `icalvalue_reset_kind`
leaves alone every value of another kind and every value that holds a null
time. -/
theorem c25_temporal_kind_narrowing (X : collaborators) (kind : icalvalue_kind)
    (str : List Char) (error : Bool) (v : icalvalue_impl)
    (hk : kind = ICAL_DATE_VALUE ∨ kind = ICAL_DATETIME_VALUE)
    (hv : ¬ (v.kind = ICAL_DATE_VALUE ∨ v.kind = ICAL_DATETIME_VALUE) ∨
      X.icaltime_is_null_time v.data.v_time = true) :
    icalvalue_new_from_string_with_error X kind str error =
        (if X.icaltime_is_null_time (X.icaltime_from_string str) then
          (none, if error then some (failed_to_parse_error str) else none)
        else
          (some { kind := if icaltime_is_date (X.icaltime_from_string str) then ICAL_DATE_VALUE
                          else ICAL_DATETIME_VALUE,
                  data := { v_time := X.icaltime_from_string str } }, none)) ∧
      icalvalue_reset_kind X v = v := by
  constructor
  · cases hn : X.icaltime_is_null_time (X.icaltime_from_string str)
    · rcases hk with rfl | rfl <;>
        cases hd : icaltime_is_date (X.icaltime_from_string str) <;>
        simp [icalvalue_new_from_string_with_error, hn, icalvalue_new_impl,
          icalvalue_kind_is_valid, icalvalue_reset_kind, hd]
    · rcases hk with rfl | rfl <;> cases error <;>
        simp [icalvalue_new_from_string_with_error, hn, failed_to_parse_error]
  · unfold icalvalue_reset_kind
    rcases hv with h | h
    · have h2 : ¬ (v.kind = ICAL_DATETIME_VALUE ∨ v.kind = ICAL_DATE_VALUE) := by tauto
      simp [h2]
    · simp [h]

theorem c25_temporal_kind_narrowing_witness :
    icalvalue_new_from_string_with_error sample_collaborators ICAL_DATETIME_VALUE
        "20240102".toList false =
        (some { kind := ICAL_DATE_VALUE,
                data := { v_time := { year := 2024, month := 1, day := 2, is_date := true } } },
          none) ∧
      icalvalue_reset_kind sample_collaborators
          { kind := ICAL_INTEGER_VALUE,
            data := { v_time := { year := 2024, month := 1, day := 2, is_date := true } } } =
        { kind := ICAL_INTEGER_VALUE,
          data := { v_time := { year := 2024, month := 1, day := 2, is_date := true } } } :=
  c25_temporal_kind_narrowing sample_collaborators ICAL_DATETIME_VALUE "20240102".toList false
    { kind := ICAL_INTEGER_VALUE,
      data := { v_time := { year := 2024, month := 1, day := 2, is_date := true } } }
    (Or.inr rfl) (Or.inl (by decide))

/-! ## The decoding scan over its buffer -/

theorem of_decode_loop_map (o : Option (List Char)) (c : Char) (hc : c ≠ '\x00') :
    decode_scan_outcome.of_decode_loop (o.map (c :: ·)) =
      (decode_scan_outcome.of_decode_loop o).append_char c := by
  cases o <;> simp [decode_scan_outcome.of_decode_loop, decode_scan_outcome.append_char, hc]

theorem decode_scan_loop_nul (buf : List Char) (n : Int) (fuel p cnt : Nat)
    (h : buf[p]? = some '\x00') :
    decode_scan_loop buf n (fuel + 1) p cnt = .ends [] := by
  rw [decode_scan_loop]
  simp [h]

theorem decode_scan_loop_past (buf : List Char) (n : Int) (fuel p cnt : Nat)
    (h : buf[p]? = none) :
    decode_scan_loop buf n (fuel + 1) p cnt = .reads_past_terminator := by
  rw [decode_scan_loop]
  simp [h]

theorem decode_scan_loop_plain (buf : List Char) (n : Int) (fuel p cnt : Nat) (c : Char)
    (h : buf[p]? = some c) (h0 : c ≠ '\x00') (hb : c ≠ '\\') :
    decode_scan_loop buf n (fuel + 1) p cnt =
      if ((cnt + 1 : Nat) : Int) > n then .ends [c]
      else (decode_scan_loop buf n fuel (p + 1) (cnt + 1)).append_char c := by
  rw [decode_scan_loop]
  simp [h, h0, hb, decode_scan_outcome.append_char]

theorem decode_scan_loop_escape (buf : List Char) (n : Int) (fuel p cnt : Nat) (e : Char)
    (h : buf[p]? = some '\\') (h1 : buf[p + 1]? = some e) :
    decode_scan_loop buf n (fuel + 1) p cnt =
      if ((cnt + 1 : Nat) : Int) > n then (decode_scan_outcome.ends []).append_char e
      else (decode_scan_loop buf n fuel (p + 1 + 1) (cnt + 1)).append_char e := by
  rw [decode_scan_loop]
  simp [h, h1]

/-- The scan over the buffer of a text does what the list model of the loop
says: it ends with the text of the list model, or it reads past the terminator
where the list model yields nothing. -/
theorem decode_scan_loop_eq (n : Int) :
    ∀ (fuel : Nat) (s pre : List Char) (cnt : Nat), '\x00' ∉ s → s.length + 1 ≤ fuel →
      decode_scan_loop (pre ++ s ++ ['\x00']) n fuel pre.length cnt =
        decode_scan_outcome.of_decode_loop (decode_loop n s cnt) := by
  intro fuel
  induction fuel using Nat.strong_induction_on with
  | _ fuel ih =>
    intro s pre cnt hs hf
    obtain ⟨k, rfl⟩ : ∃ k, fuel = k + 1 := ⟨fuel - 1, by omega⟩
    match s, hs, hf with
    | [], _, _ =>
      simp only [List.append_nil]
      rw [decode_scan_loop_nul _ _ _ _ _ (getElem?_after _ _ _)]
      simp [decode_loop, decode_scan_outcome.of_decode_loop]
    | [c], hs, hf =>
      have hc : c ≠ '\x00' := by
        intro h; exact hs (by simp [h])
      obtain ⟨j, rfl⟩ : ∃ j, k = j + 1 := ⟨k - 1, by simp at hf; omega⟩
      simp only [List.append_assoc, List.cons_append, List.nil_append]
      by_cases hb : c = '\\'
      · subst hb
        rw [decode_scan_loop_escape _ _ _ _ _ '\x00' (getElem?_after _ _ _)
          (getElem?_after_succ _ _ _ _)]
        have hp : (pre ++ ['\\', '\x00'])[pre.length + 1 + 1]? = none := by
          apply List.getElem?_eq_none
          simp
        rw [decode_scan_loop_past _ _ _ _ _ hp]
        simp only [decode_loop, if_true]
        split_ifs <;>
          simp [decode_scan_outcome.of_decode_loop, decode_scan_outcome.append_char]
      · have h0 := ih (j + 1) (by omega) [] (pre ++ [c]) (cnt + 1) (by simp) (by simp)
        simp only [List.length_append, List.length_singleton, List.append_nil,
          List.append_assoc, List.cons_append, List.nil_append] at h0
        rw [decode_scan_loop_plain _ _ _ _ _ c (getElem?_after _ _ _) hc hb, h0]
        simp only [decode_loop, hb, if_false]
        split_ifs <;>
          simp [decode_scan_outcome.of_decode_loop, decode_scan_outcome.append_char, hc]
    | c :: e :: rest, hs, hf =>
      have hc : c ≠ '\x00' := by
        intro h; exact hs (by simp [h])
      have he : e ≠ '\x00' := by
        intro h; exact hs (by simp [h])
      simp only [List.length_cons] at hf
      simp only [List.append_assoc, List.cons_append, List.nil_append]
      by_cases hb : c = '\\'
      · subst hb
        have h0 := ih k (by omega) rest (pre ++ ['\\', e]) (cnt + 1)
          (fun h => hs (by simp [h])) (by omega)
        simp only [List.length_append, List.length_cons, List.length_nil,
          List.append_assoc, List.cons_append, List.nil_append, zero_add] at h0
        rw [decode_scan_loop_escape _ _ _ _ _ e (getElem?_after _ _ _)
          (getElem?_after_succ _ _ _ _), h0]
        simp only [decode_loop, if_true]
        split_ifs
        · simp [decode_scan_outcome.of_decode_loop, decode_scan_outcome.append_char, he]
        · exact (of_decode_loop_map _ e he).symm
      · have h0 := ih k (by omega) (e :: rest) (pre ++ [c]) (cnt + 1)
          (fun h => hs (by simp at h ⊢; tauto)) (by simp; omega)
        simp only [List.length_append, List.length_singleton,
          List.append_assoc, List.cons_append, List.nil_append] at h0
        rw [decode_scan_loop_plain _ _ _ _ _ c (getElem?_after _ _ _) hc hb, h0]
        simp only [decode_loop, hb, if_false]
        split_ifs
        · simp [decode_scan_outcome.of_decode_loop]
        · exact (of_decode_loop_map _ c hc).symm

theorem decode_scan_eq (s : List Char) (n : Int) (hs : '\x00' ∉ s) :
    decode_scan s n = decode_scan_outcome.of_decode_loop (decode_loop n s 0) := by
  have h := decode_scan_loop_eq n (s.length + 1) s [] 0 hs (by omega)
  simpa [decode_scan] using h

/-- A text whose scan ends on a backslash with nothing after it takes the
decode loop past the terminator, unless the length test breaks the loop
first. -/
theorem decode_loop_lone (n : Int) (s : List Char) :
    ∀ cnt : Nat, lone_trailing_backslash s = true →
      ((cnt + (decode_text_ref s).length : Nat) : Int) ≤ n →
      decode_loop n s cnt = none := by
  induction s using lone_trailing_backslash.induct with
  | case1 => intro cnt h; simp [lone_trailing_backslash] at h
  | case2 c =>
    intro cnt h hn
    have hc : c = '\\' := by simpa [lone_trailing_backslash] using h
    subst hc
    simp only [decode_text_ref, List.length_singleton] at hn
    have : ¬ (((cnt + 1 : Nat) : Int) > n) := by omega
    simp only [decode_loop, if_true, this, if_false]
  | case3 e rest ih =>
    intro cnt h hn
    simp only [lone_trailing_backslash, if_true] at h
    simp only [decode_text_ref, if_true, List.length_cons] at hn
    have : ¬ (((cnt + 1 : Nat) : Int) > n) := by omega
    simp only [decode_loop, if_true, this, if_false]
    rw [ih (cnt + 1) h (by omega)]
    rfl
  | case4 c e rest hc ih =>
    intro cnt h hn
    simp only [lone_trailing_backslash, hc, if_false] at h
    simp only [decode_text_ref, hc, if_false, List.length_cons] at hn
    have : ¬ (((cnt + 1 : Nat) : Int) > n) := by omega
    simp only [decode_loop, hc, if_false, this]
    rw [ih (cnt + 1) h (by omega)]
    rfl

/-! ## Encoding followed by decoding -/

theorem lone_trailing_backslash_cons_plain (c : Char) (r : List Char) (h : c ≠ '\\') :
    lone_trailing_backslash (c :: r) = lone_trailing_backslash r := by
  cases r with
  | nil => simp [lone_trailing_backslash, h]
  | cons e r => simp [lone_trailing_backslash, h]

theorem decode_text_ref_cons_plain (c : Char) (r : List Char) (h : c ≠ '\\') :
    decode_text_ref (c :: r) = c :: decode_text_ref r := by
  cases r with
  | nil => simp [decode_text_ref]
  | cons e r => simp [decode_text_ref, h]

theorem lone_trailing_backslash_quote_switch (v : icalvalue_impl) (c : Char) (r : List Char) :
    lone_trailing_backslash (quote_switch v c ++ r) = lone_trailing_backslash r := by
  by_cases hsep : c = ';' ∨ c = ','
  · rcases hsep with rfl | rfl <;> cases hk : quote_keeps_separator v <;>
      simp [quote_switch, hk, lone_trailing_backslash, lone_trailing_backslash_cons_plain]
  · unfold quote_switch
    split_ifs <;> simp_all [lone_trailing_backslash, lone_trailing_backslash_cons_plain]

theorem decode_text_ref_quote_switch (v : icalvalue_impl) (c : Char) (r : List Char)
    (hc : c ≠ '\n' ∧ c ≠ '\r' ∧ c ≠ '\x08' ∧ c ≠ '\x0c') :
    decode_text_ref (quote_switch v c ++ r) = c :: decode_text_ref r := by
  obtain ⟨h1, h2, h3, h4⟩ := hc
  by_cases hsep : c = ';' ∨ c = ','
  · rcases hsep with rfl | rfl <;> cases hk : quote_keeps_separator v <;>
      simp [quote_switch, hk, decode_text_ref, decode_text_ref_cons_plain]
  · unfold quote_switch
    split_ifs <;> simp_all [decode_text_ref, decode_text_ref_cons_plain]

theorem lone_trailing_backslash_quote_loop (v : icalvalue_impl) (s : List Char) :
    ∀ cnt, lone_trailing_backslash (quote_loop v s cnt) = false := by
  induction s with
  | nil => intro cnt; simp [quote_loop, lone_trailing_backslash]
  | cons c rest ih =>
    intro cnt
    by_cases h : cnt < MAX_ITERATIONS
    · simp only [quote_loop, h, if_true]
      rw [lone_trailing_backslash_quote_switch, ih]
    · simp [quote_loop, h, lone_trailing_backslash]

theorem decode_text_ref_quote_loop (v : icalvalue_impl) (s : List Char)
    (hs : ∀ c ∈ s, c ≠ '\n' ∧ c ≠ '\r' ∧ c ≠ '\x08' ∧ c ≠ '\x0c') :
    ∀ cnt, cnt + s.length ≤ MAX_ITERATIONS → decode_text_ref (quote_loop v s cnt) = s := by
  induction s with
  | nil => intro cnt _; simp [quote_loop, decode_text_ref]
  | cons c rest ih =>
    intro cnt hl
    simp only [List.length_cons] at hl
    have h : cnt < MAX_ITERATIONS := by omega
    simp only [quote_loop, h, if_true]
    rw [decode_text_ref_quote_switch v c _ (hs c (by simp)),
      ih (fun d hd => hs d (List.mem_cons_of_mem _ hd)) (cnt + 1) (by omega)]

theorem decode_text_ref_length_le (s : List Char) : (decode_text_ref s).length ≤ s.length := by
  induction s using decode_text_ref.induct with
  | case1 => simp [decode_text_ref]
  | case2 c => simp [decode_text_ref]
  | case3 e rest ih => simp only [decode_text_ref, if_true, List.length_cons]; omega
  | case4 c e rest hc ih =>
    simp only [decode_text_ref, hc, if_false, List.length_cons] at ih ⊢; omega

/-- The encoder returns the quoted raw text exactly when its length is below
the buffer length. -/
theorem encode_ical_string_eq (X : collaborators) (raw : List Char) (max_len : Int) :
    icalvalue_encode_ical_string X raw max_len =
      if ((icalmemory_strdup_and_quote
          { kind := ICAL_STRING_VALUE, data := { v_string := some raw } } raw).length : Int) <
          max_len then
        .returns_true (icalmemory_strdup_and_quote
          { kind := ICAL_STRING_VALUE, data := { v_string := some raw } } raw)
      else .returns_false := by
  have hl := quote_loop_length
    { kind := ICAL_STRING_VALUE, data := { v_string := some raw } } raw 0
  simp only [MAX_ITERATIONS] at hl
  have hw : wrap32 ((icalmemory_strdup_and_quote
      { kind := ICAL_STRING_VALUE, data := { v_string := some raw } } raw).length : Int) =
      ((icalmemory_strdup_and_quote
      { kind := ICAL_STRING_VALUE, data := { v_string := some raw } } raw).length : Int) := by
    apply wrap32_eq_self
    · omega
    · unfold icalmemory_strdup_and_quote; omega
  have hn : icalvalue_new_from_string X ICAL_STRING_VALUE raw =
      some { kind := ICAL_STRING_VALUE, data := { v_string := some raw } } := rfl
  simp only [icalvalue_encode_ical_string, hn, icalvalue_text_as_ical_string_r,
    Option.map_some', hw]
  split_ifs <;> first | rfl | omega

/-- Encoding a text without newline, carriage return, backspace and form feed
into a buffer that is long enough, and decoding the result, gives the first
`MAX_ITERATIONS` characters of the text. -/
theorem encode_decode_take (X : collaborators) (s : List Char) (max_len : Int)
    (hs : ∀ c ∈ s, c ≠ '\n' ∧ c ≠ '\r' ∧ c ≠ '\x08' ∧ c ≠ '\x0c')
    (hmax : ((icalmemory_strdup_and_quote
      { kind := ICAL_STRING_VALUE, data := { v_string := some s } } s).length : Int) < max_len) :
    icalvalue_encode_ical_string X s max_len =
        .returns_true (icalmemory_strdup_and_quote
          { kind := ICAL_STRING_VALUE, data := { v_string := some s } } s) ∧
      icalvalue_decode_ical_string (icalmemory_strdup_and_quote
          { kind := ICAL_STRING_VALUE, data := { v_string := some s } } s) max_len =
        .returns_true (s.take MAX_ITERATIONS) := by
  constructor
  · rw [encode_ical_string_eq, if_pos hmax]
  · have hq := quote_loop_take { kind := ICAL_STRING_VALUE, data := { v_string := some s } } s 0
    simp only [Nat.sub_zero] at hq
    have hd : decode_text_ref (icalmemory_strdup_and_quote
        { kind := ICAL_STRING_VALUE, data := { v_string := some s } } s) =
        s.take MAX_ITERATIONS := by
      unfold icalmemory_strdup_and_quote
      rw [hq]
      exact decode_text_ref_quote_loop _ _ (fun c hc => hs c (List.mem_of_mem_take hc)) 0
        (by simp only [List.length_take]; omega)
    have hle := decode_text_ref_length_le (icalmemory_strdup_and_quote
        { kind := ICAL_STRING_VALUE, data := { v_string := some s } } s)
    have hl2 : (s.take MAX_ITERATIONS).length ≤ MAX_ITERATIONS := by
      simp only [List.length_take]; omega
    have hltb : lone_trailing_backslash (icalmemory_strdup_and_quote
        { kind := ICAL_STRING_VALUE, data := { v_string := some s } } s) = false :=
      lone_trailing_backslash_quote_loop _ _ 0
    have hint : ((decode_text_ref (icalmemory_strdup_and_quote
        { kind := ICAL_STRING_VALUE, data := { v_string := some s } } s)).length : Int) ≤
        INT_MAX := by
      have hM : MAX_ITERATIONS = 10485760 := rfl
      rw [hd]; unfold INT_MAX; omega
    rw [decode_ical_string_of_int_length _ max_len hltb hint]
    rw [hd] at hle ⊢
    rw [if_pos (by omega)]

theorem encode_decode_replicate (X : collaborators) (n m : Nat) (c : Char) (max_len : Int)
    (hc : c ≠ '\n' ∧ c ≠ '\r' ∧ c ≠ '\x08' ∧ c ≠ '\x0c')
    (hn : n = MAX_ITERATIONS) (hm : n < m) (hmax : 2 * (n : Int) < max_len) :
    (∀ d ∈ List.replicate m c, d ≠ '\n' ∧ d ≠ '\r' ∧ d ≠ '\x08' ∧ d ≠ '\x0c') ∧
      ∃ e, icalvalue_encode_ical_string X (List.replicate m c) max_len = .returns_true e ∧
        icalvalue_decode_ical_string e max_len = .returns_true (List.replicate n c) ∧
        List.replicate n c ≠ List.replicate m c := by
  have hs : ∀ d ∈ List.replicate m c, d ≠ '\n' ∧ d ≠ '\r' ∧ d ≠ '\x08' ∧ d ≠ '\x0c' := by
    intro d hd
    rw [List.eq_of_mem_replicate hd]
    exact hc
  have hl := quote_loop_length
    { kind := ICAL_STRING_VALUE, data := { v_string := some (List.replicate m c) } }
    (List.replicate m c) 0
  obtain ⟨e1, e2⟩ := encode_decode_take X (List.replicate m c) max_len hs
    (by unfold icalmemory_strdup_and_quote; omega)
  refine ⟨hs, _, e1, ?_, ?_⟩
  · rw [e2, List.take_replicate, ← hn, Nat.min_eq_left (by omega)]
  · intro h
    have := congrArg List.length h
    simp only [List.length_replicate] at this
    omega

/-! ## Claims on the standalone encoder and decoder -/

/-- C31, as the code has it: for every text of at most 10,485,760 characters
that contains no newline, carriage return, backspace or form feed, and every
buffer length larger than the length of the quoted text, encoding returns the
quoted text and decoding that text with the same buffer length returns the
text. -/
theorem c31_encode_decode_roundtrip (X : collaborators) (s : List Char) (max_len : Int)
    (hs : ∀ c ∈ s, c ≠ '\n' ∧ c ≠ '\r' ∧ c ≠ '\x08' ∧ c ≠ '\x0c')
    (hlen : s.length ≤ 10485760)
    (hmax : ((icalmemory_strdup_and_quote
      { kind := ICAL_STRING_VALUE, data := { v_string := some s } } s).length : Int) < max_len) :
    ∃ e, icalvalue_encode_ical_string X s max_len = .returns_true e ∧
      icalvalue_decode_ical_string e max_len = .returns_true s := by
  obtain ⟨e1, e2⟩ := encode_decode_take X s max_len hs hmax
  refine ⟨_, e1, ?_⟩
  rw [e2, List.take_of_length_le (by simp only [MAX_ITERATIONS]; omega)]

theorem c31_encode_decode_roundtrip_witness :
    ∃ e, icalvalue_encode_ical_string sample_collaborators ['a', ';', '\\', '\t', ',', 'n'] 10 =
        .returns_true e ∧
      icalvalue_decode_ical_string e 10 = .returns_true ['a', ';', '\\', '\t', ',', 'n'] :=
  c31_encode_decode_roundtrip sample_collaborators ['a', ';', '\\', '\t', ',', 'n'] 10
    (by decide) (by decide) (by decide)

/-- C31 fails as stated: the text of 10,485,761 letters `a` contains none of
the four characters, its encoding into a buffer of `INT_MAX` characters
succeeds, and decoding the result succeeds with 10,485,760 letters `a`, which
is not the text. -/
theorem c31_encode_decode_roundtrip_counterexample :
    (∀ d ∈ List.replicate 10485761 'a', d ≠ '\n' ∧ d ≠ '\r' ∧ d ≠ '\x08' ∧ d ≠ '\x0c') ∧
      ∃ e, icalvalue_encode_ical_string sample_collaborators (List.replicate 10485761 'a')
          2147483647 = .returns_true e ∧
        icalvalue_decode_ical_string e 2147483647 =
          .returns_true (List.replicate 10485760 'a') ∧
        List.replicate 10485760 'a' ≠ List.replicate 10485761 'a' :=
  encode_decode_replicate sample_collaborators 10485760 10485761 'a' 2147483647
    (by decide) (by norm_num [MAX_ITERATIONS]) (by norm_num) (by norm_num)

/-- C32 fails on the code: on the text that is one backslash, and on the text
`a` followed by a backslash, with a buffer length of 10, the scan loop of
`icalvalue_decode_ical_string` appends the terminator, moves onto it, moves
once more and reads the position after the terminator; the scan of
`icalmemory_strdup_and_dequote` over the same text stops at the terminator. -/
theorem c32_decode_reads_past_terminator :
    decode_scan ['\\'] 10 = .reads_past_terminator ∧
      decode_scan ['a', '\\'] 10 = .reads_past_terminator ∧
      icalvalue_decode_ical_string ['\\'] 10 = .reads_past_terminator ∧
      dequote_scan ['\\'] = .returns [] := by
  refine ⟨by decide, by decide, by decide, by decide⟩

end Libical
